import Mathlib

/-!
# Rotation representations and their conversions

Shallow embedding of the headers `Vector3.h`, `EulerAngle.h`, `Quaternion.h`,
`RotationMatrix.h` and `conversion.h`.

* The C++ scalar type `float` is modelled by an ordered field `α`; the theorems
  instantiate it with the real numbers.
* The functions taken from `<cmath>` (`sin`, `cos`, `asin`, `atan2`, `sqrt`) are a
  parameter of the embedding, the record `CMath`.  `CMath.IsReal` says that the record
  holds the real-valued functions.  `std::abs` is the absolute value of the field.
* The literal `0.99999f` is the binary32 number nearest to `0.99999`, which is
  `2097131 / 2097152 = 16777048 · 2⁻²⁴` (about `0.99998999`, just below `0.99999`); the
  comparisons `std::abs(s) < 0.99999f` are modelled with that value.  The literals `0.5f`,
  `0`, `1`, `2` and `4` are exact.
* A `throw` is modelled by `Except.error` carrying the thrown string.
-/

namespace RotLib

/-! ## The math facility -/

/-- The functions of `<cmath>` used by the library. -/
structure CMath (α : Type) where
  sin : α → α
  cos : α → α
  asin : α → α
  atan2 : α → α → α
  sqrt : α → α

/-- The record `M` holds the real functions: sine, cosine, arcsine, square root and the
two-argument arctangent `atan2 y x`, the argument of the point `(x, y)` in `(-π, π]`. -/
def CMath.IsReal (M : CMath ℝ) : Prop :=
  M.sin = Real.sin ∧ M.cos = Real.cos ∧ M.asin = Real.arcsin ∧
    M.atan2 = (fun y x => Complex.arg ⟨x, y⟩) ∧ M.sqrt = Real.sqrt

/-! ## Vector3.h -/

/-- The class `Vector3`. -/
@[ext]
structure Vector3 (α : Type) where
  x : α
  y : α
  z : α

/-! ## EulerAngle.h -/

/-- The scoped enumeration `EulerOrder`: an integer tag, the six enumerators being the
tags `0` to `5`. -/
structure EulerOrder where
  tag : Int
deriving DecidableEq

namespace EulerOrder

def XYZ : EulerOrder := ⟨0⟩
def XZY : EulerOrder := ⟨1⟩
def YXZ : EulerOrder := ⟨2⟩
def YZX : EulerOrder := ⟨3⟩
def ZXY : EulerOrder := ⟨4⟩
def ZYX : EulerOrder := ⟨5⟩

/-- The six enumerators, in declaration order. -/
def all : List EulerOrder := [XYZ, XZY, YXZ, YZX, ZXY, ZYX]

end EulerOrder

/-- The class `EulerAngle`. -/
structure EulerAngle (α : Type) where
  x : α
  y : α
  z : α
  order : EulerOrder

/-! ## Quaternion.h -/

/-- The class `Quaternion`. -/
@[ext]
structure Quaternion (α : Type) where
  x : α
  y : α
  z : α
  w : α

/-! ## RotationMatrix.h -/

/-- The class `RotationMatrix`: the nine entries of `std::array<float, 9> elements`,
`e0` to `e8` in storage order. -/
@[ext]
structure RotationMatrix (α : Type) where
  e0 : α
  e1 : α
  e2 : α
  e3 : α
  e4 : α
  e5 : α
  e6 : α
  e7 : α
  e8 : α

section Operations

variable {α : Type}

namespace Quaternion

/-- `Quaternion::rotationX`. -/
def rotationX [Field α] (M : CMath α) (angle : α) : Quaternion α :=
  ⟨M.sin (1 / 2 * angle), 0, 0, M.cos (1 / 2 * angle)⟩

/-- `Quaternion::rotationY`. -/
def rotationY [Field α] (M : CMath α) (angle : α) : Quaternion α :=
  ⟨0, M.sin (1 / 2 * angle), 0, M.cos (1 / 2 * angle)⟩

/-- `Quaternion::rotationZ`. -/
def rotationZ [Field α] (M : CMath α) (angle : α) : Quaternion α :=
  ⟨0, 0, M.sin (1 / 2 * angle), M.cos (1 / 2 * angle)⟩

/-- The free function `conjugate`. -/
def conjugate [Ring α] (q : Quaternion α) : Quaternion α :=
  ⟨-q.x, -q.y, -q.z, q.w⟩

/-- `Quaternion::operator*`; `p` is `*this`. -/
def mul [Ring α] (p q : Quaternion α) : Quaternion α :=
  ⟨p.w * q.x - p.z * q.y + p.y * q.z + p.x * q.w,
   p.z * q.x + p.w * q.y - p.x * q.z + p.y * q.w,
   -p.y * q.x + p.x * q.y + p.w * q.z + p.z * q.w,
   -p.x * q.x - p.y * q.y - p.z * q.z + p.w * q.w⟩

instance [Ring α] : Mul (Quaternion α) := ⟨mul⟩

/-- `Quaternion::rotate`. -/
def rotate [Ring α] (q : Quaternion α) (v : Vector3 α) : Vector3 α :=
  let vq : Quaternion α := ⟨v.x, v.y, v.z, 0⟩
  let cq := conjugate q
  let mq := q * vq * cq
  ⟨mq.x, mq.y, mq.z⟩

end Quaternion

namespace RotationMatrix

/-- `RotationMatrix::operator[]` on an index inside the array. -/
def get (m : RotationMatrix α) (index : Fin 9) : α :=
  match index with
  | 0 => m.e0
  | 1 => m.e1
  | 2 => m.e2
  | 3 => m.e3
  | 4 => m.e4
  | 5 => m.e5
  | 6 => m.e6
  | 7 => m.e7
  | 8 => m.e8

/-- Assignment through the reference returned by `RotationMatrix::operator[]`. -/
def set (m : RotationMatrix α) (index : Fin 9) (value : α) : RotationMatrix α :=
  match index with
  | 0 => { m with e0 := value }
  | 1 => { m with e1 := value }
  | 2 => { m with e2 := value }
  | 3 => { m with e3 := value }
  | 4 => { m with e4 := value }
  | 5 => { m with e5 := value }
  | 6 => { m with e6 := value }
  | 7 => { m with e7 := value }
  | 8 => { m with e8 := value }

/-- The flat index `row + column * 3` computed by `RotationMatrix::at`. -/
def flatIndex (row column : Fin 3) : Fin 9 :=
  ⟨row.val + column.val * 3, by omega⟩

end RotationMatrix

/-- `RotationMatrix::at`, read through the returned reference. -/
def RotationMatrix.at (m : RotationMatrix α) (row column : Fin 3) : α :=
  m.get (RotationMatrix.flatIndex row column)

namespace RotationMatrix

/-- Assignment through the reference returned by `RotationMatrix::at`. -/
def setAt (m : RotationMatrix α) (row column : Fin 3) (value : α) : RotationMatrix α :=
  m.set (flatIndex row column) value

/-- `RotationMatrix::rotationX`. -/
def rotationX [Ring α] (M : CMath α) (angle : α) : RotationMatrix α :=
  let c := M.cos angle
  let s := M.sin angle
  ⟨1, 0, 0,
   0, c, s,
   0, -s, c⟩

/-- `RotationMatrix::rotationY`. -/
def rotationY [Ring α] (M : CMath α) (angle : α) : RotationMatrix α :=
  let c := M.cos angle
  let s := M.sin angle
  ⟨c, 0, -s,
   0, 1, 0,
   s, 0, c⟩

/-- `RotationMatrix::rotationZ`. -/
def rotationZ [Ring α] (M : CMath α) (angle : α) : RotationMatrix α :=
  let c := M.cos angle
  let s := M.sin angle
  ⟨c, s, 0,
   -s, c, 0,
   0, 0, 1⟩

/-- `RotationMatrix::operator*(const RotationMatrix)`; `a` is `*this`. -/
def mul [Ring α] (a m : RotationMatrix α) : RotationMatrix α :=
  ⟨a.e0 * m.e0 + a.e3 * m.e1 + a.e6 * m.e2,
   a.e1 * m.e0 + a.e4 * m.e1 + a.e7 * m.e2,
   a.e2 * m.e0 + a.e5 * m.e1 + a.e8 * m.e2,
   a.e0 * m.e3 + a.e3 * m.e4 + a.e6 * m.e5,
   a.e1 * m.e3 + a.e4 * m.e4 + a.e7 * m.e5,
   a.e2 * m.e3 + a.e5 * m.e4 + a.e8 * m.e5,
   a.e0 * m.e6 + a.e3 * m.e7 + a.e6 * m.e8,
   a.e1 * m.e6 + a.e4 * m.e7 + a.e7 * m.e8,
   a.e2 * m.e6 + a.e5 * m.e7 + a.e8 * m.e8⟩

instance [Ring α] : Mul (RotationMatrix α) := ⟨mul⟩

/-- `RotationMatrix::operator*(const Vector3)`; `a` is `*this`. -/
def mulVec [Ring α] (a : RotationMatrix α) (v : Vector3 α) : Vector3 α :=
  ⟨a.e0 * v.x + a.e3 * v.y + a.e6 * v.z,
   a.e1 * v.x + a.e4 * v.y + a.e7 * v.z,
   a.e2 * v.x + a.e5 * v.y + a.e8 * v.z⟩

instance [Ring α] : HMul (RotationMatrix α) (Vector3 α) (Vector3 α) := ⟨mulVec⟩

end RotationMatrix

end Operations

/-! ## conversion.h -/

section Conversions

variable {α : Type} [LinearOrderedField α]

/-- `toEulerAngle(Quaternion q, EulerOrder order)`.  The bound `2097131 / 2097152` is the
value of the literal `0.99999f`. -/
def Quaternion.toEulerAngle (M : CMath α) (q : Quaternion α) (order : EulerOrder) :
    Except String (EulerAngle α) :=
  if order = EulerOrder.XYZ then
    let sy := 2 * q.x * q.z + 2 * q.y * q.w
    let unlocked : Bool := decide (|sy| < 2097131 / 2097152)
    .ok ⟨
      if unlocked then M.atan2 (-(2 * q.y * q.z - 2 * q.x * q.w)) (2 * q.w * q.w + 2 * q.z * q.z - 1)
        else M.atan2 (2 * q.y * q.z + 2 * q.x * q.w) (2 * q.w * q.w + 2 * q.y * q.y - 1),
      M.asin sy,
      if unlocked then M.atan2 (-(2 * q.x * q.y - 2 * q.z * q.w)) (2 * q.w * q.w + 2 * q.x * q.x - 1) else 0,
      order⟩
  else if order = EulerOrder.XZY then
    let sz := -(2 * q.x * q.y - 2 * q.z * q.w)
    let unlocked : Bool := decide (|sz| < 2097131 / 2097152)
    .ok ⟨
      if unlocked then M.atan2 (2 * q.y * q.z + 2 * q.x * q.w) (2 * q.w * q.w + 2 * q.y * q.y - 1)
        else M.atan2 (-(2 * q.y * q.z - 2 * q.x * q.w)) (2 * q.w * q.w + 2 * q.z * q.z - 1),
      if unlocked then M.atan2 (2 * q.x * q.z + 2 * q.y * q.w) (2 * q.w * q.w + 2 * q.x * q.x - 1) else 0,
      M.asin sz,
      order⟩
  else if order = EulerOrder.YXZ then
    let sx := -(2 * q.y * q.z - 2 * q.x * q.w)
    let unlocked : Bool := decide (|sx| < 2097131 / 2097152)
    .ok ⟨
      M.asin sx,
      if unlocked then M.atan2 (2 * q.x * q.z + 2 * q.y * q.w) (2 * q.w * q.w + 2 * q.z * q.z - 1)
        else M.atan2 (-(2 * q.x * q.z - 2 * q.y * q.w)) (2 * q.w * q.w + 2 * q.x * q.x - 1),
      if unlocked then M.atan2 (2 * q.x * q.y + 2 * q.z * q.w) (2 * q.w * q.w + 2 * q.y * q.y - 1) else 0,
      order⟩
  else if order = EulerOrder.YZX then
    let sz := 2 * q.x * q.y + 2 * q.z * q.w
    let unlocked : Bool := decide (|sz| < 2097131 / 2097152)
    .ok ⟨
      if unlocked then M.atan2 (-(2 * q.y * q.z - 2 * q.x * q.w)) (2 * q.w * q.w + 2 * q.y * q.y - 1) else 0,
      if unlocked then M.atan2 (-(2 * q.x * q.z - 2 * q.y * q.w)) (2 * q.w * q.w + 2 * q.x * q.x - 1)
        else M.atan2 (2 * q.x * q.z + 2 * q.y * q.w) (2 * q.w * q.w + 2 * q.z * q.z - 1),
      M.asin sz,
      order⟩
  else if order = EulerOrder.ZXY then
    let sx := 2 * q.y * q.z + 2 * q.x * q.w
    let unlocked : Bool := decide (|sx| < 2097131 / 2097152)
    .ok ⟨
      M.asin sx,
      if unlocked then M.atan2 (-(2 * q.x * q.z - 2 * q.y * q.w)) (2 * q.w * q.w + 2 * q.z * q.z - 1) else 0,
      if unlocked then M.atan2 (-(2 * q.x * q.y - 2 * q.z * q.w)) (2 * q.w * q.w + 2 * q.y * q.y - 1)
        else M.atan2 (2 * q.x * q.y + 2 * q.z * q.w) (2 * q.w * q.w + 2 * q.x * q.x - 1),
      order⟩
  else if order = EulerOrder.ZYX then
    let sy := -(2 * q.x * q.z - 2 * q.y * q.w)
    let unlocked : Bool := decide (|sy| < 2097131 / 2097152)
    .ok ⟨
      if unlocked then M.atan2 (2 * q.y * q.z + 2 * q.x * q.w) (2 * q.w * q.w + 2 * q.z * q.z - 1) else 0,
      M.asin sy,
      if unlocked then M.atan2 (2 * q.x * q.y + 2 * q.z * q.w) (2 * q.w * q.w + 2 * q.x * q.x - 1)
        else M.atan2 (-(2 * q.x * q.y - 2 * q.z * q.w)) (2 * q.w * q.w + 2 * q.y * q.y - 1),
      order⟩
  else
    .error "conversion of quaternion to euler angle is failed."

/-- `toEulerAngle(RotationMatrix m, EulerOrder order)`.  The bound `2097131 / 2097152` is
the value of the literal `0.99999f`. -/
def RotationMatrix.toEulerAngle (M : CMath α) (m : RotationMatrix α) (order : EulerOrder) :
    Except String (EulerAngle α) :=
  if order = EulerOrder.XYZ then
    let sy := m.at 0 2
    let unlocked : Bool := decide (|sy| < 2097131 / 2097152)
    .ok ⟨
      if unlocked then M.atan2 (-m.at 1 2) (m.at 2 2) else M.atan2 (m.at 2 1) (m.at 1 1),
      M.asin sy,
      if unlocked then M.atan2 (-m.at 0 1) (m.at 0 0) else 0,
      order⟩
  else if order = EulerOrder.XZY then
    let sz := -m.at 0 1
    let unlocked : Bool := decide (|sz| < 2097131 / 2097152)
    .ok ⟨
      if unlocked then M.atan2 (m.at 2 1) (m.at 1 1) else M.atan2 (-m.at 1 2) (m.at 2 2),
      if unlocked then M.atan2 (m.at 0 2) (m.at 0 0) else 0,
      M.asin sz,
      order⟩
  else if order = EulerOrder.YXZ then
    let sx := -m.at 1 2
    let unlocked : Bool := decide (|sx| < 2097131 / 2097152)
    .ok ⟨
      M.asin sx,
      if unlocked then M.atan2 (m.at 0 2) (m.at 2 2) else M.atan2 (-m.at 2 0) (m.at 0 0),
      if unlocked then M.atan2 (m.at 1 0) (m.at 1 1) else 0,
      order⟩
  else if order = EulerOrder.YZX then
    let sz := m.at 1 0
    let unlocked : Bool := decide (|sz| < 2097131 / 2097152)
    .ok ⟨
      if unlocked then M.atan2 (-m.at 1 2) (m.at 1 1) else 0,
      if unlocked then M.atan2 (-m.at 2 0) (m.at 0 0) else M.atan2 (m.at 0 2) (m.at 2 2),
      M.asin sz,
      order⟩
  else if order = EulerOrder.ZXY then
    let sx := m.at 2 1
    let unlocked : Bool := decide (|sx| < 2097131 / 2097152)
    .ok ⟨
      M.asin sx,
      if unlocked then M.atan2 (-m.at 2 0) (m.at 2 2) else 0,
      if unlocked then M.atan2 (-m.at 0 1) (m.at 1 1) else M.atan2 (m.at 1 0) (m.at 0 0),
      order⟩
  else if order = EulerOrder.ZYX then
    let sy := -m.at 2 0
    let unlocked : Bool := decide (|sy| < 2097131 / 2097152)
    .ok ⟨
      if unlocked then M.atan2 (m.at 2 1) (m.at 2 2) else 0,
      M.asin sy,
      if unlocked then M.atan2 (m.at 1 0) (m.at 0 0) else M.atan2 (-m.at 0 1) (m.at 1 1),
      order⟩
  else
    .error "conversion of rotation matrix to euler angle is failed."

/-- `toQuaternion(EulerAngle e)`. -/
def EulerAngle.toQuaternion (M : CMath α) (e : EulerAngle α) : Except String (Quaternion α) :=
  let cx := M.cos (1 / 2 * e.x)
  let sx := M.sin (1 / 2 * e.x)
  let cy := M.cos (1 / 2 * e.y)
  let sy := M.sin (1 / 2 * e.y)
  let cz := M.cos (1 / 2 * e.z)
  let sz := M.sin (1 / 2 * e.z)
  if e.order = EulerOrder.XYZ then
    .ok ⟨
      cx * sy * sz + sx * cy * cz,
      -sx * cy * sz + cx * sy * cz,
      cx * cy * sz + sx * sy * cz,
      -sx * sy * sz + cx * cy * cz⟩
  else if e.order = EulerOrder.XZY then
    .ok ⟨
      -cx * sy * sz + sx * cy * cz,
      cx * sy * cz - sx * cy * sz,
      sx * sy * cz + cx * cy * sz,
      sx * sy * sz + cx * cy * cz⟩
  else if e.order = EulerOrder.YXZ then
    .ok ⟨
      cx * sy * sz + sx * cy * cz,
      -sx * cy * sz + cx * sy * cz,
      cx * cy * sz - sx * sy * cz,
      sx * sy * sz + cx * cy * cz⟩
  else if e.order = EulerOrder.YZX then
    .ok ⟨
      sx * cy * cz + cx * sy * sz,
      sx * cy * sz + cx * sy * cz,
      -sx * sy * cz + cx * cy * sz,
      -sx * sy * sz + cx * cy * cz⟩
  else if e.order = EulerOrder.ZXY then
    .ok ⟨
      -cx * sy * sz + sx * cy * cz,
      cx * sy * cz + sx * cy * sz,
      sx * sy * cz + cx * cy * sz,
      -sx * sy * sz + cx * cy * cz⟩
  else if e.order = EulerOrder.ZYX then
    .ok ⟨
      sx * cy * cz - cx * sy * sz,
      sx * cy * sz + cx * sy * cz,
      -sx * sy * cz + cx * cy * sz,
      sx * sy * sz + cx * cy * cz⟩
  else
    .error "conversion of euler angle to quaterion is failed."

/-- `toQuaternion(RotationMatrix m)`.  The mutable locals `selected` and `max` are the
pair threaded through the three updates. -/
def RotationMatrix.toQuaternion (M : CMath α) (m : RotationMatrix α) :
    Except String (Quaternion α) :=
  let px := m.at 0 0 - m.at 1 1 - m.at 2 2 + 1
  let py := -m.at 0 0 + m.at 1 1 - m.at 2 2 + 1
  let pz := -m.at 0 0 - m.at 1 1 + m.at 2 2 + 1
  let pw := m.at 0 0 + m.at 1 1 + m.at 2 2 + 1
  let s0 : Nat × α := (0, px)
  let s1 : Nat × α := if s0.2 < py then (1, py) else s0
  let s2 : Nat × α := if s1.2 < pz then (2, pz) else s1
  let s3 : Nat × α := if s2.2 < pw then (3, pw) else s2
  let selected := s3.1
  if selected = 0 then
    let x := M.sqrt px * (1 / 2)
    let d := 1 / (4 * x)
    .ok ⟨
      x,
      (m.at 1 0 + m.at 0 1) * d,
      (m.at 0 2 + m.at 2 0) * d,
      (m.at 2 1 - m.at 1 2) * d⟩
  else if selected = 1 then
    let y := M.sqrt py * (1 / 2)
    let d := 1 / (4 * y)
    .ok ⟨
      (m.at 1 0 + m.at 0 1) * d,
      y,
      (m.at 2 1 + m.at 1 2) * d,
      (m.at 0 2 - m.at 2 0) * d⟩
  else if selected = 2 then
    let z := M.sqrt pz * (1 / 2)
    let d := 1 / (4 * z)
    .ok ⟨
      (m.at 0 2 + m.at 2 0) * d,
      (m.at 2 1 + m.at 1 2) * d,
      z,
      (m.at 1 0 - m.at 0 1) * d⟩
  else if selected = 3 then
    let w := M.sqrt pw * (1 / 2)
    let d := 1 / (4 * w)
    .ok ⟨
      (m.at 2 1 - m.at 1 2) * d,
      (m.at 0 2 - m.at 2 0) * d,
      (m.at 1 0 - m.at 0 1) * d,
      w⟩
  else
    .error "conversion of rotation matrix to quaterion is failed."

/-- `toRotationMatrix(EulerAngle e)`. -/
def EulerAngle.toRotationMatrix (M : CMath α) (e : EulerAngle α) :
    Except String (RotationMatrix α) :=
  let cx := M.cos e.x
  let sx := M.sin e.x
  let cy := M.cos e.y
  let sy := M.sin e.y
  let cz := M.cos e.z
  let sz := M.sin e.z
  if e.order = EulerOrder.XYZ then
    .ok ⟨
      cy * cz, sx * sy * cz + cx * sz, -cx * sy * cz + sx * sz,
      -cy * sz, -sx * sy * sz + cx * cz, cx * sy * sz + sx * cz,
      sy, -sx * cy, cx * cy⟩
  else if e.order = EulerOrder.XZY then
    .ok ⟨
      cy * cz, cx * cy * sz + sx * sy, sx * cy * sz - cx * sy,
      -sz, cx * cz, sx * cz,
      sy * cz, cx * sy * sz - sx * cy, sx * sy * sz + cx * cy⟩
  else if e.order = EulerOrder.YXZ then
    .ok ⟨
      sx * sy * sz + cy * cz, cx * sz, sx * cy * sz - sy * cz,
      sx * sy * cz - cy * sz, cx * cz, sx * cy * cz + sy * sz,
      cx * sy, -sx, cx * cy⟩
  else if e.order = EulerOrder.YZX then
    .ok ⟨
      cy * cz, sz, -sy * cz,
      -cx * cy * sz + sx * sy, cx * cz, cx * sy * sz + sx * cy,
      sx * cy * sz + cx * sy, -sx * cz, -sx * sy * sz + cx * cy⟩
  else if e.order = EulerOrder.ZXY then
    .ok ⟨
      -sx * sy * sz + cy * cz, sx * sy * cz + cy * sz, -cx * sy,
      -cx * sz, cx * cz, sx,
      sx * cy * sz + sy * cz, -sx * cy * cz + sy * sz, cx * cy⟩
  else if e.order = EulerOrder.ZYX then
    .ok ⟨
      cy * cz, cy * sz, -sy,
      sx * sy * cz - cx * sz, sx * sy * sz + cx * cz, sx * cy,
      cx * sy * cz + sx * sz, cx * sy * sz - sx * cz, cx * cy⟩
  else
    .error "conversion of euler angle to rotation matrix is failed."

/-- `toRotationMatrix(Quaternion q)`. -/
def Quaternion.toRotationMatrix (q : Quaternion α) : RotationMatrix α :=
  let xy2 := q.x * q.y * 2
  let xz2 := q.x * q.z * 2
  let xw2 := q.x * q.w * 2
  let yz2 := q.y * q.z * 2
  let yw2 := q.y * q.w * 2
  let zw2 := q.z * q.w * 2
  let ww2 := q.w * q.w * 2
  ⟨ww2 + 2 * q.x * q.x - 1, xy2 + zw2, xz2 - yw2,
   xy2 - zw2, ww2 + 2 * q.y * q.y - 1, yz2 + xw2,
   xz2 + yw2, yz2 - xw2, ww2 + 2 * q.z * q.z - 1⟩

end Conversions

/-! ## tests/main.cpp: the reference compositions -/

section TestHelpers

variable {α : Type} [LinearOrderedField α]

/-- The test helper `calculateRotationMatrix`. -/
def calculateRotationMatrix (M : CMath α) (e : EulerAngle α) : Except String (RotationMatrix α) :=
  let x := RotationMatrix.rotationX M e.x
  let y := RotationMatrix.rotationY M e.y
  let z := RotationMatrix.rotationZ M e.z
  if e.order = EulerOrder.XYZ then .ok (x * y * z)
  else if e.order = EulerOrder.XZY then .ok (x * z * y)
  else if e.order = EulerOrder.YXZ then .ok (y * x * z)
  else if e.order = EulerOrder.YZX then .ok (y * z * x)
  else if e.order = EulerOrder.ZXY then .ok (z * x * y)
  else if e.order = EulerOrder.ZYX then .ok (z * y * x)
  else .error "order of euler angle does not matched."

/-- The test helper `calculateQuaternion`. -/
def calculateQuaternion (M : CMath α) (e : EulerAngle α) : Except String (Quaternion α) :=
  let x := Quaternion.rotationX M e.x
  let y := Quaternion.rotationY M e.y
  let z := Quaternion.rotationZ M e.z
  if e.order = EulerOrder.XYZ then .ok (x * y * z)
  else if e.order = EulerOrder.XZY then .ok (x * z * y)
  else if e.order = EulerOrder.YXZ then .ok (y * x * z)
  else if e.order = EulerOrder.YZX then .ok (y * z * x)
  else if e.order = EulerOrder.ZXY then .ok (z * x * y)
  else if e.order = EulerOrder.ZYX then .ok (z * y * x)
  else .error "order of euler angle does not matched."

/-- The test helper `equals`, with its tolerance `error`. -/
def equals (v1 v2 : Vector3 α) (error : α) : Bool :=
  decide (|v1.x - v2.x| < error) && decide (|v1.y - v2.y| < error) &&
    decide (|v1.z - v2.z| < error)

end TestHelpers


/-! ## Predicates used to state the properties -/

section Predicates

variable {α : Type}

/-- Unit norm: `x² + y² + z² + w² = 1`. -/
def Quaternion.IsUnit [Ring α] (q : Quaternion α) : Prop :=
  q.x ^ 2 + q.y ^ 2 + q.z ^ 2 + q.w ^ 2 = 1

/-- The matrix whose entry in row `i`, column `j` is `m.at(i, j)`. -/
def RotationMatrix.toMatrix (m : RotationMatrix α) : Matrix (Fin 3) (Fin 3) α :=
  Matrix.of fun i j => m.at i j

/-- Proper rotation matrix: the columns are orthonormal (`MᵀM = I`) and the determinant
is `+1`. -/
def RotationMatrix.IsProper [CommRing α] (m : RotationMatrix α) : Prop :=
  m.toMatrix.transpose * m.toMatrix = 1 ∧ m.toMatrix.det = 1

/-- The value handed to `std::asin` by `toEulerAngle(Quaternion, EulerOrder)`: the local
`sy`, `sz` or `sx` of the branch of the order (zero for a tag that has no branch). -/
def Quaternion.asinArg [Ring α] (q : Quaternion α) (order : EulerOrder) : α :=
  if order = EulerOrder.XYZ then 2 * q.x * q.z + 2 * q.y * q.w
  else if order = EulerOrder.XZY then -(2 * q.x * q.y - 2 * q.z * q.w)
  else if order = EulerOrder.YXZ then -(2 * q.y * q.z - 2 * q.x * q.w)
  else if order = EulerOrder.YZX then 2 * q.x * q.y + 2 * q.z * q.w
  else if order = EulerOrder.ZXY then 2 * q.y * q.z + 2 * q.x * q.w
  else if order = EulerOrder.ZYX then -(2 * q.x * q.z - 2 * q.y * q.w)
  else 0

/-- The value handed to `std::asin` by `toEulerAngle(RotationMatrix, EulerOrder)`: the
local `sy`, `sz` or `sx` of the branch of the order (zero for a tag that has no branch). -/
def RotationMatrix.asinArg [Ring α] (m : RotationMatrix α) (order : EulerOrder) : α :=
  if order = EulerOrder.XYZ then m.at 0 2
  else if order = EulerOrder.XZY then -m.at 0 1
  else if order = EulerOrder.YXZ then -m.at 1 2
  else if order = EulerOrder.YZX then m.at 1 0
  else if order = EulerOrder.ZXY then m.at 2 1
  else if order = EulerOrder.ZYX then -m.at 2 0
  else 0

/-- The angle of the axis that comes first in the sequence of the order: `x` for XYZ and
XZY, `y` for YXZ and YZX, `z` for ZXY and ZYX. -/
def EulerAngle.firstAngle (e : EulerAngle α) : α :=
  if e.order = EulerOrder.XYZ ∨ e.order = EulerOrder.XZY then e.x
  else if e.order = EulerOrder.YXZ ∨ e.order = EulerOrder.YZX then e.y
  else e.z

/-- The angle of the axis that comes last in the sequence of the order: `z` for XYZ and
YXZ, `y` for XZY and ZXY, `x` for YZX and ZYX. -/
def EulerAngle.lastAngle (e : EulerAngle α) : α :=
  if e.order = EulerOrder.XYZ ∨ e.order = EulerOrder.YXZ then e.z
  else if e.order = EulerOrder.XZY ∨ e.order = EulerOrder.ZXY then e.y
  else e.x

/-- The angle of the axis in the middle of the sequence of the order: `y` for XYZ and
ZYX, `z` for XZY and YZX, `x` for YXZ and ZXY. -/
def EulerAngle.middleAngle (e : EulerAngle α) : α :=
  if e.order = EulerOrder.XYZ ∨ e.order = EulerOrder.ZYX then e.y
  else if e.order = EulerOrder.XZY ∨ e.order = EulerOrder.YZX then e.z
  else e.x

/-- The squared Euclidean length `x² + y² + z²` of a vector. -/
def Vector3.normSq [Ring α] (v : Vector3 α) : α :=
  v.x ^ 2 + v.y ^ 2 + v.z ^ 2

/-- The squared norm `x² + y² + z² + w²` of a quaternion. -/
def Quaternion.normSq [Ring α] (q : Quaternion α) : α :=
  q.x ^ 2 + q.y ^ 2 + q.z ^ 2 + q.w ^ 2

/-- The correspondence `(x, y, z, w) ↔ w + x·i + y·j + z·k`: the element of the quaternion
algebra of Mathlib (`QuaternionAlgebra α (-1) (-1)`, the algebra `ℍ[α]` with
`i² = j² = -1` and `i·j = k`) with real part `w` and imaginary parts `x`, `y`, `z`. -/
def Quaternion.toHamilton [CommRing α] (q : Quaternion α) : QuaternionAlgebra α (-1) (-1) :=
  ⟨q.w, q.x, q.y, q.z⟩

/-- The quaternion with all four components negated. -/
def Quaternion.negate [Ring α] (q : Quaternion α) : Quaternion α :=
  ⟨-q.x, -q.y, -q.z, -q.w⟩

/-- The local `px` of `toQuaternion(RotationMatrix)`: the candidate `4x²`. -/
def RotationMatrix.px [Ring α] (m : RotationMatrix α) : α :=
  m.at 0 0 - m.at 1 1 - m.at 2 2 + 1

/-- The local `py` of `toQuaternion(RotationMatrix)`: the candidate `4y²`. -/
def RotationMatrix.py [Ring α] (m : RotationMatrix α) : α :=
  -m.at 0 0 + m.at 1 1 - m.at 2 2 + 1

/-- The local `pz` of `toQuaternion(RotationMatrix)`: the candidate `4z²`. -/
def RotationMatrix.pz [Ring α] (m : RotationMatrix α) : α :=
  -m.at 0 0 - m.at 1 1 + m.at 2 2 + 1

/-- The local `pw` of `toQuaternion(RotationMatrix)`: the candidate `4w²`. -/
def RotationMatrix.pw [Ring α] (m : RotationMatrix α) : α :=
  m.at 0 0 + m.at 1 1 + m.at 2 2 + 1

/-- The locals `selected` and `max` of `toQuaternion(RotationMatrix)` after the three
conditional updates `if (max < py)`, `if (max < pz)`, `if (max < pw)`, which start from
`selected = 0`, `max = px`. -/
def RotationMatrix.selection [LinearOrderedField α] (m : RotationMatrix α) : Nat × α :=
  let s0 : Nat × α := (0, m.px)
  let s1 : Nat × α := if s0.2 < m.py then (1, m.py) else s0
  let s2 : Nat × α := if s1.2 < m.pz then (2, m.pz) else s1
  let s3 : Nat × α := if s2.2 < m.pw then (3, m.pw) else s2
  s3

/-- The squared entrywise distance of two matrices: the sum of the squares of the nine
differences of corresponding entries. -/
def RotationMatrix.distSq [Ring α] (a b : RotationMatrix α) : α :=
  (a.e0 - b.e0) ^ 2 + (a.e1 - b.e1) ^ 2 + (a.e2 - b.e2) ^ 2 + (a.e3 - b.e3) ^ 2
    + (a.e4 - b.e4) ^ 2 + (a.e5 - b.e5) ^ 2 + (a.e6 - b.e6) ^ 2 + (a.e7 - b.e7) ^ 2
    + (a.e8 - b.e8) ^ 2

/-- The polynomial relations among the nine entries of a proper rotation matrix: the
columns are orthonormal (`c`), the rows are orthonormal (`r`), and every entry is its own
cofactor (`k`). -/
structure RotationMatrix.Relations [CommRing α] (m : RotationMatrix α) : Prop where
  c00 : m.e0 * m.e0 + m.e1 * m.e1 + m.e2 * m.e2 = 1
  c11 : m.e3 * m.e3 + m.e4 * m.e4 + m.e5 * m.e5 = 1
  c22 : m.e6 * m.e6 + m.e7 * m.e7 + m.e8 * m.e8 = 1
  c01 : m.e0 * m.e3 + m.e1 * m.e4 + m.e2 * m.e5 = 0
  c02 : m.e0 * m.e6 + m.e1 * m.e7 + m.e2 * m.e8 = 0
  c12 : m.e3 * m.e6 + m.e4 * m.e7 + m.e5 * m.e8 = 0
  r00 : m.e0 * m.e0 + m.e3 * m.e3 + m.e6 * m.e6 = 1
  r11 : m.e1 * m.e1 + m.e4 * m.e4 + m.e7 * m.e7 = 1
  r22 : m.e2 * m.e2 + m.e5 * m.e5 + m.e8 * m.e8 = 1
  r01 : m.e0 * m.e1 + m.e3 * m.e4 + m.e6 * m.e7 = 0
  r02 : m.e0 * m.e2 + m.e3 * m.e5 + m.e6 * m.e8 = 0
  r12 : m.e1 * m.e2 + m.e4 * m.e5 + m.e7 * m.e8 = 0
  k0 : m.e0 = m.e4 * m.e8 - m.e5 * m.e7
  k1 : m.e1 = m.e5 * m.e6 - m.e3 * m.e8
  k2 : m.e2 = m.e3 * m.e7 - m.e4 * m.e6
  k3 : m.e3 = m.e7 * m.e2 - m.e8 * m.e1
  k4 : m.e4 = m.e8 * m.e0 - m.e6 * m.e2
  k5 : m.e5 = m.e6 * m.e1 - m.e7 * m.e0
  k6 : m.e6 = m.e1 * m.e5 - m.e2 * m.e4
  k7 : m.e7 = m.e2 * m.e3 - m.e0 * m.e5
  k8 : m.e8 = m.e0 * m.e4 - m.e1 * m.e3

end Predicates

/-! ## Basic lemmas -/

section Basic

variable {α : Type}

theorem Quaternion.quat_mul_def [Ring α] (p q : Quaternion α) : p * q = Quaternion.mul p q := rfl

theorem RotationMatrix.mat_mul_def [Ring α] (a m : RotationMatrix α) :
    a * m = RotationMatrix.mul a m := rfl

theorem RotationMatrix.mulVec_def [Ring α] (a : RotationMatrix α) (v : Vector3 α) :
    a * v = RotationMatrix.mulVec a v := rfl

@[simp] theorem RotationMatrix.at_0_0 (m : RotationMatrix α) : m.at 0 0 = m.e0 := rfl
@[simp] theorem RotationMatrix.at_1_0 (m : RotationMatrix α) : m.at 1 0 = m.e1 := rfl
@[simp] theorem RotationMatrix.at_2_0 (m : RotationMatrix α) : m.at 2 0 = m.e2 := rfl
@[simp] theorem RotationMatrix.at_0_1 (m : RotationMatrix α) : m.at 0 1 = m.e3 := rfl
@[simp] theorem RotationMatrix.at_1_1 (m : RotationMatrix α) : m.at 1 1 = m.e4 := rfl
@[simp] theorem RotationMatrix.at_2_1 (m : RotationMatrix α) : m.at 2 1 = m.e5 := rfl
@[simp] theorem RotationMatrix.at_0_2 (m : RotationMatrix α) : m.at 0 2 = m.e6 := rfl
@[simp] theorem RotationMatrix.at_1_2 (m : RotationMatrix α) : m.at 1 2 = m.e7 := rfl
@[simp] theorem RotationMatrix.at_2_2 (m : RotationMatrix α) : m.at 2 2 = m.e8 := rfl

/-- Membership in the list of the six enumerators, spelled out. -/
theorem EulerOrder.mem_all {order : EulerOrder} (h : order ∈ EulerOrder.all) :
    order = EulerOrder.XYZ ∨ order = EulerOrder.XZY ∨ order = EulerOrder.YXZ ∨
      order = EulerOrder.YZX ∨ order = EulerOrder.ZXY ∨ order = EulerOrder.ZYX := by
  simpa [EulerOrder.all] using h

/-- `(A * B) * v = A * (B * v)`. -/
theorem RotationMatrix.mul_mulVec [CommRing α] (a b : RotationMatrix α) (v : Vector3 α) :
    (a * b) * v = a * (b * v) := by
  simp only [RotationMatrix.mat_mul_def, RotationMatrix.mulVec_def, RotationMatrix.mul,
    RotationMatrix.mulVec]
  ext <;> simp only <;> ring

/-- Rotating by a product rotates by the right factor first. -/
theorem Quaternion.rotate_mul [CommRing α] (p q : Quaternion α) (v : Vector3 α) :
    (p * q).rotate v = p.rotate (q.rotate v) := by
  simp only [Quaternion.rotate, Quaternion.quat_mul_def, Quaternion.mul, Quaternion.conjugate]
  ext <;> simp only <;> ring

/-- The quaternion matrix applied to a vector differs from `rotate` by the defect of the
norm. -/
theorem Quaternion.toRotationMatrix_mulVec_sub {α : Type} [LinearOrderedField α]
    (q : Quaternion α) (v : Vector3 α) :
    q.toRotationMatrix * v =
      ⟨(q.rotate v).x + (q.x ^ 2 + q.y ^ 2 + q.z ^ 2 + q.w ^ 2 - 1) * v.x,
       (q.rotate v).y + (q.x ^ 2 + q.y ^ 2 + q.z ^ 2 + q.w ^ 2 - 1) * v.y,
       (q.rotate v).z + (q.x ^ 2 + q.y ^ 2 + q.z ^ 2 + q.w ^ 2 - 1) * v.z⟩ := by
  simp only [Quaternion.toRotationMatrix, RotationMatrix.mulVec_def, RotationMatrix.mulVec,
    Quaternion.rotate, Quaternion.quat_mul_def, Quaternion.mul, Quaternion.conjugate]
  ext <;> simp only <;> ring

/-- For a unit quaternion the matrix path and `rotate` agree. -/
theorem Quaternion.toRotationMatrix_mulVec_of_isUnit {α : Type} [LinearOrderedField α]
    {q : Quaternion α} (hq : q.IsUnit) (v : Vector3 α) :
    q.toRotationMatrix * v = q.rotate v := by
  rw [Quaternion.toRotationMatrix_mulVec_sub]
  have h : q.x ^ 2 + q.y ^ 2 + q.z ^ 2 + q.w ^ 2 - 1 = 0 := by
    rw [Quaternion.IsUnit] at hq; rw [hq]; ring
  ext <;> simp [h]

end Basic

/-! ## Real trigonometry of the axis rotations -/

section RealTrig

theorem cos_eq_half (t : ℝ) : Real.cos t = 2 * Real.cos (1 / 2 * t) ^ 2 - 1 := by
  rw [← Real.cos_two_mul]; congr 1; ring

theorem sin_eq_half (t : ℝ) : Real.sin t = 2 * Real.sin (1 / 2 * t) * Real.cos (1 / 2 * t) := by
  rw [← Real.sin_two_mul]; congr 1; ring

theorem Quaternion.rotationX_isUnit {M : CMath ℝ} (hM : M.IsReal) (t : ℝ) :
    (Quaternion.rotationX M t).IsUnit := by
  obtain ⟨hs, hc, -⟩ := hM
  simp only [Quaternion.IsUnit, Quaternion.rotationX, hs, hc]
  linear_combination Real.sin_sq_add_cos_sq (1 / 2 * t)

theorem Quaternion.rotationY_isUnit {M : CMath ℝ} (hM : M.IsReal) (t : ℝ) :
    (Quaternion.rotationY M t).IsUnit := by
  obtain ⟨hs, hc, -⟩ := hM
  simp only [Quaternion.IsUnit, Quaternion.rotationY, hs, hc]
  linear_combination Real.sin_sq_add_cos_sq (1 / 2 * t)

theorem Quaternion.rotationZ_isUnit {M : CMath ℝ} (hM : M.IsReal) (t : ℝ) :
    (Quaternion.rotationZ M t).IsUnit := by
  obtain ⟨hs, hc, -⟩ := hM
  simp only [Quaternion.IsUnit, Quaternion.rotationZ, hs, hc]
  linear_combination Real.sin_sq_add_cos_sq (1 / 2 * t)

theorem Quaternion.toRotationMatrix_rotationX {M : CMath ℝ} (hM : M.IsReal) (t : ℝ) :
    (Quaternion.rotationX M t).toRotationMatrix = RotationMatrix.rotationX M t := by
  obtain ⟨hs, hc, -⟩ := hM
  have h1 := Real.sin_sq_add_cos_sq (1 / 2 * t)
  simp only [Quaternion.toRotationMatrix, Quaternion.rotationX, RotationMatrix.rotationX, hs, hc,
    cos_eq_half t, sin_eq_half t]
  ext <;> simp only <;> first | ring1 | linear_combination 2 * h1

theorem Quaternion.toRotationMatrix_rotationY {M : CMath ℝ} (hM : M.IsReal) (t : ℝ) :
    (Quaternion.rotationY M t).toRotationMatrix = RotationMatrix.rotationY M t := by
  obtain ⟨hs, hc, -⟩ := hM
  have h1 := Real.sin_sq_add_cos_sq (1 / 2 * t)
  simp only [Quaternion.toRotationMatrix, Quaternion.rotationY, RotationMatrix.rotationY, hs, hc,
    cos_eq_half t, sin_eq_half t]
  ext <;> simp only <;> first | ring1 | linear_combination 2 * h1

theorem Quaternion.toRotationMatrix_rotationZ {M : CMath ℝ} (hM : M.IsReal) (t : ℝ) :
    (Quaternion.rotationZ M t).toRotationMatrix = RotationMatrix.rotationZ M t := by
  obtain ⟨hs, hc, -⟩ := hM
  have h1 := Real.sin_sq_add_cos_sq (1 / 2 * t)
  simp only [Quaternion.toRotationMatrix, Quaternion.rotationZ, RotationMatrix.rotationZ, hs, hc,
    cos_eq_half t, sin_eq_half t]
  ext <;> simp only <;> first | ring1 | linear_combination 2 * h1

end RealTrig

/-! ## Composition of rotations -/

section Composition

variable {α : Type} [LinearOrderedField α]

/-- A matrix is determined by its action on vectors. -/
theorem RotationMatrix.ext_of_mulVec {a b : RotationMatrix α}
    (h : ∀ v : Vector3 α, a * v = b * v) : a = b := by
  have h1 := h ⟨1, 0, 0⟩
  have h2 := h ⟨0, 1, 0⟩
  have h3 := h ⟨0, 0, 1⟩
  simp only [RotationMatrix.mulVec_def, RotationMatrix.mulVec, Vector3.mk.injEq, mul_one,
    mul_zero, add_zero, zero_add] at h1 h2 h3
  ext
  · exact h1.1
  · exact h1.2.1
  · exact h1.2.2
  · exact h2.1
  · exact h2.2.1
  · exact h2.2.2
  · exact h3.1
  · exact h3.2.1
  · exact h3.2.2

/-- The product of two unit quaternions is a unit quaternion. -/
theorem Quaternion.IsUnit.mul {p q : Quaternion α} (hp : p.IsUnit) (hq : q.IsUnit) :
    (p * q).IsUnit := by
  simp only [Quaternion.IsUnit, Quaternion.quat_mul_def, Quaternion.mul] at *
  linear_combination (q.x ^ 2 + q.y ^ 2 + q.z ^ 2 + q.w ^ 2) * hp + hq

/-- On unit quaternions the conversion to a matrix turns products into products. -/
theorem Quaternion.toRotationMatrix_mul {p q : Quaternion α} (hp : p.IsUnit) (hq : q.IsUnit) :
    (p * q).toRotationMatrix = p.toRotationMatrix * q.toRotationMatrix := by
  apply RotationMatrix.ext_of_mulVec
  intro v
  rw [Quaternion.toRotationMatrix_mulVec_of_isUnit (hp.mul hq), Quaternion.rotate_mul,
    RotationMatrix.mul_mulVec, Quaternion.toRotationMatrix_mulVec_of_isUnit hq,
    Quaternion.toRotationMatrix_mulVec_of_isUnit hp]

/-- The closed form of `toRotationMatrix(EulerAngle)` is the product computed by
`calculateRotationMatrix`. -/
theorem EulerAngle.toRotationMatrix_eq_calculate (M : CMath α) (e : EulerAngle α) :
    e.toRotationMatrix M = (calculateRotationMatrix M e).mapError
      (fun _ => "conversion of euler angle to rotation matrix is failed.") := by
  simp only [EulerAngle.toRotationMatrix, calculateRotationMatrix]
  split_ifs <;> simp only [Except.mapError] <;> congr 1 <;>
    simp only [RotationMatrix.mat_mul_def, RotationMatrix.mul, RotationMatrix.rotationX,
      RotationMatrix.rotationY, RotationMatrix.rotationZ] <;>
    ext <;> simp only <;> ring

/-- The closed form of `toQuaternion(EulerAngle)` is the product computed by
`calculateQuaternion`. -/
theorem EulerAngle.toQuaternion_eq_calculate (M : CMath α) (e : EulerAngle α) :
    e.toQuaternion M = (calculateQuaternion M e).mapError
      (fun _ => "conversion of euler angle to quaterion is failed.") := by
  simp only [EulerAngle.toQuaternion, calculateQuaternion]
  split_ifs <;> simp only [Except.mapError] <;> congr 1 <;>
    simp only [Quaternion.quat_mul_def, Quaternion.mul, Quaternion.rotationX,
      Quaternion.rotationY, Quaternion.rotationZ] <;>
    ext <;> simp only <;> ring

end Composition

/-- Converting the quaternion of an Euler triple gives the matrix of the triple. -/
theorem EulerAngle.toRotationMatrix_toQuaternion {M : CMath ℝ} (hM : M.IsReal)
    (e : EulerAngle ℝ) (he : e.order ∈ EulerOrder.all) :
    ∃ q R, e.toQuaternion M = .ok q ∧ e.toRotationMatrix M = .ok R ∧
      q.toRotationMatrix = R := by
  have ux := Quaternion.rotationX_isUnit hM e.x
  have uy := Quaternion.rotationY_isUnit hM e.y
  have uz := Quaternion.rotationZ_isUnit hM e.z
  have mx := Quaternion.toRotationMatrix_rotationX hM e.x
  have my := Quaternion.toRotationMatrix_rotationY hM e.y
  have mz := Quaternion.toRotationMatrix_rotationZ hM e.z
  rw [EulerAngle.toQuaternion_eq_calculate, EulerAngle.toRotationMatrix_eq_calculate]
  rcases EulerOrder.mem_all he with h | h | h | h | h | h <;>
    simp +decide only [calculateQuaternion, calculateRotationMatrix, h, if_true, if_false,
      Except.mapError] <;>
    refine ⟨_, _, rfl, rfl, ?_⟩
  · rw [Quaternion.toRotationMatrix_mul (ux.mul uy) uz, Quaternion.toRotationMatrix_mul ux uy,
      mx, my, mz]
  · rw [Quaternion.toRotationMatrix_mul (ux.mul uz) uy, Quaternion.toRotationMatrix_mul ux uz,
      mx, my, mz]
  · rw [Quaternion.toRotationMatrix_mul (uy.mul ux) uz, Quaternion.toRotationMatrix_mul uy ux,
      mx, my, mz]
  · rw [Quaternion.toRotationMatrix_mul (uy.mul uz) ux, Quaternion.toRotationMatrix_mul uy uz,
      mx, my, mz]
  · rw [Quaternion.toRotationMatrix_mul (uz.mul ux) uy, Quaternion.toRotationMatrix_mul uz ux,
      mx, my, mz]
  · rw [Quaternion.toRotationMatrix_mul (uz.mul uy) ux, Quaternion.toRotationMatrix_mul uz uy,
      mx, my, mz]

/-! ## Euler angles to matrix and quaternion: the closed forms are the products -/

/-- C1: for all real angles and each of the six orders, `toRotationMatrix(EulerAngle)`
returns, entry for entry, the product of the three per-axis matrices taken in the sequence
of the order. -/
theorem toRotationMatrix_euler_eq_axis_product (M : CMath ℝ) (x y z : ℝ) :
    EulerAngle.toRotationMatrix M ⟨x, y, z, EulerOrder.XYZ⟩
        = .ok (RotationMatrix.rotationX M x * RotationMatrix.rotationY M y
            * RotationMatrix.rotationZ M z) ∧
    EulerAngle.toRotationMatrix M ⟨x, y, z, EulerOrder.XZY⟩
        = .ok (RotationMatrix.rotationX M x * RotationMatrix.rotationZ M z
            * RotationMatrix.rotationY M y) ∧
    EulerAngle.toRotationMatrix M ⟨x, y, z, EulerOrder.YXZ⟩
        = .ok (RotationMatrix.rotationY M y * RotationMatrix.rotationX M x
            * RotationMatrix.rotationZ M z) ∧
    EulerAngle.toRotationMatrix M ⟨x, y, z, EulerOrder.YZX⟩
        = .ok (RotationMatrix.rotationY M y * RotationMatrix.rotationZ M z
            * RotationMatrix.rotationX M x) ∧
    EulerAngle.toRotationMatrix M ⟨x, y, z, EulerOrder.ZXY⟩
        = .ok (RotationMatrix.rotationZ M z * RotationMatrix.rotationX M x
            * RotationMatrix.rotationY M y) ∧
    EulerAngle.toRotationMatrix M ⟨x, y, z, EulerOrder.ZYX⟩
        = .ok (RotationMatrix.rotationZ M z * RotationMatrix.rotationY M y
            * RotationMatrix.rotationX M x) := by
  refine ⟨?_, ?_, ?_, ?_, ?_, ?_⟩ <;>
  · simp +decide only [EulerAngle.toRotationMatrix, RotationMatrix.mat_mul_def,
      RotationMatrix.mul, RotationMatrix.rotationX, RotationMatrix.rotationY,
      RotationMatrix.rotationZ, if_true, if_false]
    congr 1
    ext <;> simp only <;> ring

/-- C2: for all real angles and each of the six orders, `toQuaternion(EulerAngle)` returns,
component for component, the Hamilton product of the three per-axis quaternions taken in
the sequence of the order. -/
theorem toQuaternion_euler_eq_axis_product (M : CMath ℝ) (x y z : ℝ) :
    EulerAngle.toQuaternion M ⟨x, y, z, EulerOrder.XYZ⟩
        = .ok (Quaternion.rotationX M x * Quaternion.rotationY M y
            * Quaternion.rotationZ M z) ∧
    EulerAngle.toQuaternion M ⟨x, y, z, EulerOrder.XZY⟩
        = .ok (Quaternion.rotationX M x * Quaternion.rotationZ M z
            * Quaternion.rotationY M y) ∧
    EulerAngle.toQuaternion M ⟨x, y, z, EulerOrder.YXZ⟩
        = .ok (Quaternion.rotationY M y * Quaternion.rotationX M x
            * Quaternion.rotationZ M z) ∧
    EulerAngle.toQuaternion M ⟨x, y, z, EulerOrder.YZX⟩
        = .ok (Quaternion.rotationY M y * Quaternion.rotationZ M z
            * Quaternion.rotationX M x) ∧
    EulerAngle.toQuaternion M ⟨x, y, z, EulerOrder.ZXY⟩
        = .ok (Quaternion.rotationZ M z * Quaternion.rotationX M x
            * Quaternion.rotationY M y) ∧
    EulerAngle.toQuaternion M ⟨x, y, z, EulerOrder.ZYX⟩
        = .ok (Quaternion.rotationZ M z * Quaternion.rotationY M y
            * Quaternion.rotationX M x) := by
  refine ⟨?_, ?_, ?_, ?_, ?_, ?_⟩ <;>
  · simp +decide only [EulerAngle.toQuaternion, Quaternion.quat_mul_def, Quaternion.mul,
      Quaternion.rotationX, Quaternion.rotationY, Quaternion.rotationZ, if_true, if_false]
    congr 1
    ext <;> simp only <;> ring

/-! ## Quaternion and matrix: the two ways to rotate a vector -/

/-- C3: for every unit quaternion `q` and every vector `v`, the matrix of `q` applied to
`v` is exactly `q.rotate(v)`. -/
theorem toRotationMatrix_quaternion_mulVec_eq_rotate (q : Quaternion ℝ) (hq : q.IsUnit)
    (v : Vector3 ℝ) : q.toRotationMatrix * v = q.rotate v :=
  Quaternion.toRotationMatrix_mulVec_of_isUnit hq v

/-- Witness of C3 at the unit quaternion `(1/2, 1/2, 1/2, 1/2)` and the vector
`(2, 3, 5)`. -/
theorem toRotationMatrix_quaternion_mulVec_eq_rotate_witness :
    (⟨1 / 2, 1 / 2, 1 / 2, 1 / 2⟩ : Quaternion ℝ).IsUnit ∧
      (⟨1 / 2, 1 / 2, 1 / 2, 1 / 2⟩ : Quaternion ℝ).toRotationMatrix * (⟨2, 3, 5⟩ : Vector3 ℝ)
        = (⟨1 / 2, 1 / 2, 1 / 2, 1 / 2⟩ : Quaternion ℝ).rotate ⟨2, 3, 5⟩ :=
  ⟨by norm_num [Quaternion.IsUnit],
   toRotationMatrix_quaternion_mulVec_eq_rotate ⟨1 / 2, 1 / 2, 1 / 2, 1 / 2⟩
     (by norm_num [Quaternion.IsUnit]) ⟨2, 3, 5⟩⟩

/-- C10: for every Euler triple of real angles in any of the six orders and every vector
`v`, the matrix of `toQuaternion(e)` and the matrix `toRotationMatrix(e)` send `v` to the
same vector. -/
theorem toRotationMatrix_toQuaternion_mulVec_eq (M : CMath ℝ) (hM : M.IsReal)
    (e : EulerAngle ℝ) (he : e.order ∈ EulerOrder.all) (v : Vector3 ℝ) :
    ∃ q R, e.toQuaternion M = .ok q ∧ e.toRotationMatrix M = .ok R ∧
      q.toRotationMatrix * v = R * v := by
  obtain ⟨q, R, hq, hR, h⟩ := EulerAngle.toRotationMatrix_toQuaternion hM e he
  exact ⟨q, R, hq, hR, by rw [h]⟩

/-- Witness of C10 at the real math functions, the triple `(1, 2, 3)` in order ZXY and
the vector `(2, 3, 5)`. -/
theorem toRotationMatrix_toQuaternion_mulVec_eq_witness :
    ∃ q R,
      EulerAngle.toQuaternion
          ⟨Real.sin, Real.cos, Real.arcsin, fun y x => Complex.arg ⟨x, y⟩, Real.sqrt⟩
          (⟨1, 2, 3, EulerOrder.ZXY⟩ : EulerAngle ℝ) = .ok q ∧
      EulerAngle.toRotationMatrix
          ⟨Real.sin, Real.cos, Real.arcsin, fun y x => Complex.arg ⟨x, y⟩, Real.sqrt⟩
          (⟨1, 2, 3, EulerOrder.ZXY⟩ : EulerAngle ℝ) = .ok R ∧
      q.toRotationMatrix * (⟨2, 3, 5⟩ : Vector3 ℝ) = R * (⟨2, 3, 5⟩ : Vector3 ℝ) :=
  toRotationMatrix_toQuaternion_mulVec_eq
    ⟨Real.sin, Real.cos, Real.arcsin, fun y x => Complex.arg ⟨x, y⟩, Real.sqrt⟩
    ⟨rfl, rfl, rfl, rfl, rfl⟩ ⟨1, 2, 3, EulerOrder.ZXY⟩ (by decide) ⟨2, 3, 5⟩

/-! ## The locked and the unlocked branch of toEulerAngle -/

section AsinArg
variable {α : Type} [LinearOrderedField α]

/-- The middle angle returned by the quaternion overload is `asin` of `asinArg`. -/
theorem Quaternion.quat_toEulerAngle_middleAngle (M : CMath α) (q : Quaternion α)
    (order : EulerOrder) (h : order ∈ EulerOrder.all) :
    ∃ e, q.toEulerAngle M order = .ok e ∧ e.order = order ∧
      e.middleAngle = M.asin (q.asinArg order) := by
  rcases EulerOrder.mem_all h with h | h | h | h | h | h <;> subst h <;>
    exact ⟨_, rfl, rfl, rfl⟩

/-- The middle angle returned by the matrix overload is `asin` of `asinArg`. -/
theorem RotationMatrix.toEulerAngle_middleAngle (M : CMath α) (m : RotationMatrix α)
    (order : EulerOrder) (h : order ∈ EulerOrder.all) :
    ∃ e, m.toEulerAngle M order = .ok e ∧ e.order = order ∧
      e.middleAngle = M.asin (m.asinArg order) := by
  rcases EulerOrder.mem_all h with h | h | h | h | h | h <;> subst h <;>
    exact ⟨_, rfl, rfl, rfl⟩

theorem RotationMatrix.toEulerAngle_locked (M : CMath α) (m : RotationMatrix α)
    (order : EulerOrder) (h : order ∈ EulerOrder.all)
    (hl : 2097131 / 2097152 ≤ |m.asinArg order|) :
    ∃ e, m.toEulerAngle M order = .ok e ∧ e.lastAngle = 0 := by
  rcases EulerOrder.mem_all h with h | h | h | h | h | h <;> subst h <;>
    simp +decide only [RotationMatrix.asinArg, if_true, if_false] at hl <;>
    refine ⟨_, rfl, ?_⟩ <;>
    simp +decide only [EulerAngle.lastAngle, if_true, if_false, or_true, true_or, or_false,
      decide_eq_false (not_lt.mpr hl), Bool.false_eq_true]

end AsinArg

section Proper
variable {α : Type} [LinearOrderedField α]

/-- A proper rotation matrix, spelled out on the nine stored entries: the three columns
`(e0, e1, e2)`, `(e3, e4, e5)`, `(e6, e7, e8)` are orthonormal and the determinant is one. -/
theorem RotationMatrix.isProper_iff (m : RotationMatrix α) :
    m.IsProper ↔
      (m.e0 * m.e0 + m.e1 * m.e1 + m.e2 * m.e2 = 1 ∧
       m.e3 * m.e3 + m.e4 * m.e4 + m.e5 * m.e5 = 1 ∧
       m.e6 * m.e6 + m.e7 * m.e7 + m.e8 * m.e8 = 1 ∧
       m.e0 * m.e3 + m.e1 * m.e4 + m.e2 * m.e5 = 0 ∧
       m.e0 * m.e6 + m.e1 * m.e7 + m.e2 * m.e8 = 0 ∧
       m.e3 * m.e6 + m.e4 * m.e7 + m.e5 * m.e8 = 0) ∧
      m.e0 * (m.e4 * m.e8 - m.e7 * m.e5) - m.e3 * (m.e1 * m.e8 - m.e7 * m.e2)
        + m.e6 * (m.e1 * m.e5 - m.e4 * m.e2) = 1 := by
  unfold RotationMatrix.IsProper
  rw [← Matrix.ext_iff, Matrix.det_fin_three]
  simp only [Fin.forall_fin_succ, Matrix.mul_apply, Fin.sum_univ_three, Matrix.transpose_apply,
    RotationMatrix.toMatrix, Matrix.of_apply, Matrix.one_apply]
  simp
  constructor
  · rintro ⟨⟨⟨h00, h01, h02⟩, ⟨h10, h11, h12⟩, ⟨h20, h21, h22⟩⟩, hd⟩
    refine ⟨⟨h00, h11, h22, h01, h02, h12⟩, ?_⟩
    linear_combination hd
  · rintro ⟨⟨h00, h11, h22, h01, h02, h12⟩, hd⟩
    refine ⟨⟨⟨h00, h01, h02⟩, ⟨?_, h11, h12⟩, ⟨?_, ?_, h22⟩⟩, ?_⟩
    · linear_combination h01
    · linear_combination h02
    · linear_combination h12
    · linear_combination hd

/-- A proper rotation matrix satisfies all the relations. -/
theorem RotationMatrix.IsProper.relations {m : RotationMatrix α} (h : m.IsProper) :
    m.Relations := by
  obtain ⟨⟨c00, c11, c22, c01, c02, c12⟩, hd⟩ := (RotationMatrix.isProper_iff m).1 h
  have k0 : m.e0 = m.e4 * m.e8 - m.e5 * m.e7 := by
    linear_combination (m.e4 * m.e8 - m.e5 * m.e7) * c00 + (-m.e1 * m.e8 + m.e2 * m.e7) * c01
      + (m.e1 * m.e5 - m.e2 * m.e4) * c02 + (-m.e0) * hd
  have k1 : m.e1 = m.e5 * m.e6 - m.e3 * m.e8 := by
    linear_combination (-m.e3 * m.e8 + m.e5 * m.e6) * c00 + (m.e0 * m.e8 - m.e2 * m.e6) * c01
      + (-m.e0 * m.e5 + m.e2 * m.e3) * c02 + (-m.e1) * hd
  have k2 : m.e2 = m.e3 * m.e7 - m.e4 * m.e6 := by
    linear_combination (m.e3 * m.e7 - m.e4 * m.e6) * c00 + (-m.e0 * m.e7 + m.e1 * m.e6) * c01
      + (m.e0 * m.e4 - m.e1 * m.e3) * c02 + (-m.e2) * hd
  have k3 : m.e3 = m.e7 * m.e2 - m.e8 * m.e1 := by
    linear_combination (-m.e1 * m.e8 + m.e2 * m.e7) * c11 + (m.e4 * m.e8 - m.e5 * m.e7) * c01
      + (m.e1 * m.e5 - m.e2 * m.e4) * c12 + (-m.e3) * hd
  have k4 : m.e4 = m.e8 * m.e0 - m.e6 * m.e2 := by
    linear_combination (m.e0 * m.e8 - m.e2 * m.e6) * c11 + (-m.e3 * m.e8 + m.e5 * m.e6) * c01
      + (-m.e0 * m.e5 + m.e2 * m.e3) * c12 + (-m.e4) * hd
  have k5 : m.e5 = m.e6 * m.e1 - m.e7 * m.e0 := by
    linear_combination (-m.e0 * m.e7 + m.e1 * m.e6) * c11 + (m.e3 * m.e7 - m.e4 * m.e6) * c01
      + (m.e0 * m.e4 - m.e1 * m.e3) * c12 + (-m.e5) * hd
  have k6 : m.e6 = m.e1 * m.e5 - m.e2 * m.e4 := by
    linear_combination (m.e1 * m.e5 - m.e2 * m.e4) * c22 + (m.e4 * m.e8 - m.e5 * m.e7) * c02
      + (-m.e1 * m.e8 + m.e2 * m.e7) * c12 + (-m.e6) * hd
  have k7 : m.e7 = m.e2 * m.e3 - m.e0 * m.e5 := by
    linear_combination (-m.e0 * m.e5 + m.e2 * m.e3) * c22 + (-m.e3 * m.e8 + m.e5 * m.e6) * c02
      + (m.e0 * m.e8 - m.e2 * m.e6) * c12 + (-m.e7) * hd
  have k8 : m.e8 = m.e0 * m.e4 - m.e1 * m.e3 := by
    linear_combination (m.e0 * m.e4 - m.e1 * m.e3) * c22 + (m.e3 * m.e7 - m.e4 * m.e6) * c02
      + (-m.e0 * m.e7 + m.e1 * m.e6) * c12 + (-m.e8) * hd
  have r00 : m.e0 * m.e0 + m.e3 * m.e3 + m.e6 * m.e6 = 1 := by
    linear_combination (1) * c00 + (-m.e1) * k1 + (-m.e2) * k2 + (m.e3) * k3 + (m.e6) * k6
  have r11 : m.e1 * m.e1 + m.e4 * m.e4 + m.e7 * m.e7 = 1 := by
    linear_combination (1) * c00 + (-m.e0) * k0 + (-m.e2) * k2 + (m.e4) * k4 + (m.e7) * k7
  have r22 : m.e2 * m.e2 + m.e5 * m.e5 + m.e8 * m.e8 = 1 := by
    linear_combination (-1) * c00 + (1) * c11 + (1) * c22 + (m.e0) * k0 + (m.e1) * k1
      + (2 * m.e2) * k2 + (-m.e3) * k3 + (-m.e4) * k4 + (-m.e6) * k6 + (-m.e7) * k7
  have r01 : m.e0 * m.e1 + m.e3 * m.e4 + m.e6 * m.e7 = 0 := by
    linear_combination (m.e1) * k0 + (m.e4) * k3 + (m.e7) * k6
  have r02 : m.e0 * m.e2 + m.e3 * m.e5 + m.e6 * m.e8 = 0 := by
    linear_combination (m.e2) * k0 + (m.e5) * k3 + (m.e8) * k6
  have r12 : m.e1 * m.e2 + m.e4 * m.e5 + m.e7 * m.e8 = 0 := by
    linear_combination (m.e2) * k1 + (m.e5) * k4 + (m.e8) * k7
  exact ⟨c00, c11, c22, c01, c02, c12, r00, r11, r22, r01, r02, r12, k0, k1, k2, k3, k4, k5, k6,
    k7, k8⟩

end Proper

/-! ## The quaternion of a proper rotation matrix -/

section QuaternionOfMatrix
variable {α : Type} [LinearOrderedField α]

/-- A quaternion whose ten pairwise products are the ones read off a matrix is a unit
quaternion and converts to that matrix. -/
theorem Quaternion.isUnit_and_toRotationMatrix_eq {m : RotationMatrix α} {q : Quaternion α}
    (hx2 : 4 * q.x ^ 2 = m.e0 - m.e4 - m.e8 + 1)
    (hy2 : 4 * q.y ^ 2 = -m.e0 + m.e4 - m.e8 + 1)
    (hz2 : 4 * q.z ^ 2 = -m.e0 - m.e4 + m.e8 + 1)
    (hw2 : 4 * q.w ^ 2 = m.e0 + m.e4 + m.e8 + 1)
    (hxy : 4 * q.x * q.y = m.e1 + m.e3)
    (hxz : 4 * q.x * q.z = m.e6 + m.e2)
    (hyz : 4 * q.y * q.z = m.e5 + m.e7)
    (hxw : 4 * q.x * q.w = m.e5 - m.e7)
    (hyw : 4 * q.y * q.w = m.e6 - m.e2)
    (hzw : 4 * q.z * q.w = m.e1 - m.e3) :
    q.IsUnit ∧ q.toRotationMatrix = m := by
  constructor
  · rw [Quaternion.IsUnit]
    linear_combination (1 / 4 : α) * hx2 + (1 / 4 : α) * hy2 + (1 / 4 : α) * hz2
      + (1 / 4 : α) * hw2
  · simp only [Quaternion.toRotationMatrix]
    ext <;> simp only
    · linear_combination (1 / 2 : α) * hw2 + (1 / 2 : α) * hx2
    · linear_combination (1 / 2 : α) * hxy + (1 / 2 : α) * hzw
    · linear_combination (1 / 2 : α) * hxz - (1 / 2 : α) * hyw
    · linear_combination (1 / 2 : α) * hxy - (1 / 2 : α) * hzw
    · linear_combination (1 / 2 : α) * hw2 + (1 / 2 : α) * hy2
    · linear_combination (1 / 2 : α) * hyz + (1 / 2 : α) * hxw
    · linear_combination (1 / 2 : α) * hxz + (1 / 2 : α) * hyw
    · linear_combination (1 / 2 : α) * hyz - (1 / 2 : α) * hxw
    · linear_combination (1 / 2 : α) * hw2 + (1 / 2 : α) * hz2

/-- The case where the `x` component is computed directly: the four defining equations
of that case give the representation of the matrix by the quaternion. -/
theorem RotationMatrix.Relations.quaternion_of_x {m : RotationMatrix α} (r : m.Relations)
    {q : Quaternion α} (hx : q.x ≠ 0)
    (hx2 : 4 * q.x ^ 2 = m.e0 - m.e4 - m.e8 + 1)
    (hxy : 4 * q.x * q.y = m.e1 + m.e3)
    (hxz : 4 * q.x * q.z = m.e6 + m.e2)
    (hxw : 4 * q.x * q.w = m.e5 - m.e7) :
    q.IsUnit ∧ q.toRotationMatrix = m := by
  have hc : (4 : α) * q.x ^ 2 ≠ 0 := mul_ne_zero (by norm_num) (pow_ne_zero 2 hx)
  have hy2 : 4 * q.y ^ 2 = -m.e0 + m.e4 - m.e8 + 1 := by
    apply mul_left_cancel₀ hc
    linear_combination (-1 + m.e0 - m.e4 + m.e8) * hx2 + (m.e1 + m.e3 + 4 * q.x * q.y) * hxy
      - r.c22 + r.r00 + r.r11 + 2 * r.k8
  have hz2 : 4 * q.z ^ 2 = -m.e0 - m.e4 + m.e8 + 1 := by
    apply mul_left_cancel₀ hc
    linear_combination (-1 + m.e0 + m.e4 - m.e8) * hx2 + (m.e2 + m.e6 + 4 * q.x * q.z) * hxz
      + r.c00 + r.c22 - r.r11 + 2 * r.k4
  have hw2 : 4 * q.w ^ 2 = m.e0 + m.e4 + m.e8 + 1 := by
    apply mul_left_cancel₀ hc
    linear_combination (-1 - m.e0 - m.e4 - m.e8) * hx2 + (m.e5 - m.e7 + 4 * q.w * q.x) * hxw
      + r.c11 + r.c22 - r.r00 - 2 * r.k0
  have hyz : 4 * q.y * q.z = m.e5 + m.e7 := by
    apply mul_left_cancel₀ hc
    linear_combination (-m.e5 - m.e7) * hx2 + 4 * q.x * q.z * hxy + (m.e1 + m.e3) * hxz + r.c12
      + r.r12 - r.k5 - r.k7
  have hyw : 4 * q.y * q.w = m.e6 - m.e2 := by
    apply mul_left_cancel₀ hc
    linear_combination (m.e2 - m.e6) * hx2 + 4 * q.w * q.x * hxy + (m.e1 + m.e3) * hxw - r.c02
      + r.r02 + r.k2 - r.k6
  have hzw : 4 * q.z * q.w = m.e1 - m.e3 := by
    apply mul_left_cancel₀ hc
    linear_combination (-m.e1 + m.e3) * hx2 + 4 * q.w * q.x * hxz + (m.e2 + m.e6) * hxw + r.c01
      - r.r01 - r.k1 + r.k3
  exact Quaternion.isUnit_and_toRotationMatrix_eq hx2 hy2 hz2 hw2 hxy hxz hyz hxw hyw hzw

/-- The case where the `y` component is computed directly: the four defining equations
of that case give the representation of the matrix by the quaternion. -/
theorem RotationMatrix.Relations.quaternion_of_y {m : RotationMatrix α} (r : m.Relations)
    {q : Quaternion α} (hy : q.y ≠ 0)
    (hy2 : 4 * q.y ^ 2 = -m.e0 + m.e4 - m.e8 + 1)
    (hxy : 4 * q.x * q.y = m.e1 + m.e3)
    (hyz : 4 * q.y * q.z = m.e5 + m.e7)
    (hyw : 4 * q.y * q.w = m.e6 - m.e2) :
    q.IsUnit ∧ q.toRotationMatrix = m := by
  have hc : (4 : α) * q.y ^ 2 ≠ 0 := mul_ne_zero (by norm_num) (pow_ne_zero 2 hy)
  have hx2 : 4 * q.x ^ 2 = m.e0 - m.e4 - m.e8 + 1 := by
    apply mul_left_cancel₀ hc
    linear_combination (-1 - m.e0 + m.e4 + m.e8) * hy2 + (m.e1 + m.e3 + 4 * q.x * q.y) * hxy
      - r.c22 + r.r00 + r.r11 + 2 * r.k8
  have hz2 : 4 * q.z ^ 2 = -m.e0 - m.e4 + m.e8 + 1 := by
    apply mul_left_cancel₀ hc
    linear_combination (-1 + m.e0 + m.e4 - m.e8) * hy2 + (m.e5 + m.e7 + 4 * q.y * q.z) * hyz
      + r.c11 + r.c22 - r.r00 + 2 * r.k0
  have hw2 : 4 * q.w ^ 2 = m.e0 + m.e4 + m.e8 + 1 := by
    apply mul_left_cancel₀ hc
    linear_combination (-1 - m.e0 - m.e4 - m.e8) * hy2 + (-m.e2 + m.e6 + 4 * q.w * q.y) * hyw
      + r.c00 + r.c22 - r.r11 - 2 * r.k4
  have hxz : 4 * q.x * q.z = m.e6 + m.e2 := by
    apply mul_left_cancel₀ hc
    linear_combination (-m.e2 - m.e6) * hy2 + 4 * q.y * q.z * hxy + (m.e1 + m.e3) * hyz + r.c02
      + r.r02 - r.k2 - r.k6
  have hxw : 4 * q.x * q.w = m.e5 - m.e7 := by
    apply mul_left_cancel₀ hc
    linear_combination (-m.e5 + m.e7) * hy2 + 4 * q.w * q.y * hxy + (m.e1 + m.e3) * hyw + r.c12
      - r.r12 - r.k5 + r.k7
  have hzw : 4 * q.z * q.w = m.e1 - m.e3 := by
    apply mul_left_cancel₀ hc
    linear_combination (-m.e1 + m.e3) * hy2 + 4 * q.w * q.y * hyz + (m.e5 + m.e7) * hyw - r.c01
      + r.r01 - r.k1 + r.k3
  exact Quaternion.isUnit_and_toRotationMatrix_eq hx2 hy2 hz2 hw2 hxy hxz hyz hxw hyw hzw

/-- The case where the `z` component is computed directly: the four defining equations
of that case give the representation of the matrix by the quaternion. -/
theorem RotationMatrix.Relations.quaternion_of_z {m : RotationMatrix α} (r : m.Relations)
    {q : Quaternion α} (hz : q.z ≠ 0)
    (hz2 : 4 * q.z ^ 2 = -m.e0 - m.e4 + m.e8 + 1)
    (hxz : 4 * q.x * q.z = m.e6 + m.e2)
    (hyz : 4 * q.y * q.z = m.e5 + m.e7)
    (hzw : 4 * q.z * q.w = m.e1 - m.e3) :
    q.IsUnit ∧ q.toRotationMatrix = m := by
  have hc : (4 : α) * q.z ^ 2 ≠ 0 := mul_ne_zero (by norm_num) (pow_ne_zero 2 hz)
  have hx2 : 4 * q.x ^ 2 = m.e0 - m.e4 - m.e8 + 1 := by
    apply mul_left_cancel₀ hc
    linear_combination (-1 - m.e0 + m.e4 + m.e8) * hz2 + (m.e2 + m.e6 + 4 * q.x * q.z) * hxz
      + r.c00 + r.c22 - r.r11 + 2 * r.k4
  have hy2 : 4 * q.y ^ 2 = -m.e0 + m.e4 - m.e8 + 1 := by
    apply mul_left_cancel₀ hc
    linear_combination (-1 + m.e0 - m.e4 + m.e8) * hz2 + (m.e5 + m.e7 + 4 * q.y * q.z) * hyz
      + r.c11 + r.c22 - r.r00 + 2 * r.k0
  have hw2 : 4 * q.w ^ 2 = m.e0 + m.e4 + m.e8 + 1 := by
    apply mul_left_cancel₀ hc
    linear_combination (-1 - m.e0 - m.e4 - m.e8) * hz2 + (m.e1 - m.e3 + 4 * q.w * q.z) * hzw
      - r.c22 + r.r00 + r.r11 - 2 * r.k8
  have hxy : 4 * q.x * q.y = m.e1 + m.e3 := by
    apply mul_left_cancel₀ hc
    linear_combination (-m.e1 - m.e3) * hz2 + 4 * q.y * q.z * hxz + (m.e2 + m.e6) * hyz + r.c01
      + r.r01 - r.k1 - r.k3
  have hxw : 4 * q.x * q.w = m.e5 - m.e7 := by
    apply mul_left_cancel₀ hc
    linear_combination (-m.e5 + m.e7) * hz2 + 4 * q.w * q.z * hxz + (m.e2 + m.e6) * hzw - r.c12
      + r.r12 - r.k5 + r.k7
  have hyw : 4 * q.y * q.w = m.e6 - m.e2 := by
    apply mul_left_cancel₀ hc
    linear_combination (m.e2 - m.e6) * hz2 + 4 * q.w * q.z * hyz + (m.e5 + m.e7) * hzw + r.c02
      - r.r02 + r.k2 - r.k6
  exact Quaternion.isUnit_and_toRotationMatrix_eq hx2 hy2 hz2 hw2 hxy hxz hyz hxw hyw hzw

/-- The case where the `w` component is computed directly: the four defining equations
of that case give the representation of the matrix by the quaternion. -/
theorem RotationMatrix.Relations.quaternion_of_w {m : RotationMatrix α} (r : m.Relations)
    {q : Quaternion α} (hw : q.w ≠ 0)
    (hw2 : 4 * q.w ^ 2 = m.e0 + m.e4 + m.e8 + 1)
    (hxw : 4 * q.x * q.w = m.e5 - m.e7)
    (hyw : 4 * q.y * q.w = m.e6 - m.e2)
    (hzw : 4 * q.z * q.w = m.e1 - m.e3) :
    q.IsUnit ∧ q.toRotationMatrix = m := by
  have hc : (4 : α) * q.w ^ 2 ≠ 0 := mul_ne_zero (by norm_num) (pow_ne_zero 2 hw)
  have hx2 : 4 * q.x ^ 2 = m.e0 - m.e4 - m.e8 + 1 := by
    apply mul_left_cancel₀ hc
    linear_combination (-1 - m.e0 + m.e4 + m.e8) * hw2 + (m.e5 - m.e7 + 4 * q.w * q.x) * hxw
      + r.c11 + r.c22 - r.r00 - 2 * r.k0
  have hy2 : 4 * q.y ^ 2 = -m.e0 + m.e4 - m.e8 + 1 := by
    apply mul_left_cancel₀ hc
    linear_combination (-1 + m.e0 - m.e4 + m.e8) * hw2 + (-m.e2 + m.e6 + 4 * q.w * q.y) * hyw
      + r.c00 + r.c22 - r.r11 - 2 * r.k4
  have hz2 : 4 * q.z ^ 2 = -m.e0 - m.e4 + m.e8 + 1 := by
    apply mul_left_cancel₀ hc
    linear_combination (-1 + m.e0 + m.e4 - m.e8) * hw2 + (m.e1 - m.e3 + 4 * q.w * q.z) * hzw
      - r.c22 + r.r00 + r.r11 - 2 * r.k8
  have hxy : 4 * q.x * q.y = m.e1 + m.e3 := by
    apply mul_left_cancel₀ hc
    linear_combination (-m.e1 - m.e3) * hw2 + 4 * q.w * q.y * hxw + (m.e5 - m.e7) * hyw - r.c01
      - r.r01 - r.k1 - r.k3
  have hxz : 4 * q.x * q.z = m.e6 + m.e2 := by
    apply mul_left_cancel₀ hc
    linear_combination (-m.e2 - m.e6) * hw2 + 4 * q.w * q.z * hxw + (m.e5 - m.e7) * hzw - r.c02
      - r.r02 - r.k2 - r.k6
  have hyz : 4 * q.y * q.z = m.e5 + m.e7 := by
    apply mul_left_cancel₀ hc
    linear_combination (-m.e5 - m.e7) * hw2 + 4 * q.w * q.z * hyw + (-m.e2 + m.e6) * hzw
      - r.c12 - r.r12 - r.k5 - r.k7
  exact Quaternion.isUnit_and_toRotationMatrix_eq hx2 hy2 hz2 hw2 hxy hxz hyz hxw hyw hzw

end QuaternionOfMatrix

section ToQuaternion

/-- The directly computed component: for `p ≥ 1` the value `c = sqrt(p) * (1/2)` is not
zero, `4c² = p`, and multiplying by `1 / (4c)` divides by `4c`. -/
theorem sqrt_half_spec {p : ℝ} (hp : 1 ≤ p) :
    Real.sqrt p * (1 / 2) ≠ 0 ∧ 4 * (Real.sqrt p * (1 / 2)) ^ 2 = p ∧
      ∀ a : ℝ, 4 * (Real.sqrt p * (1 / 2)) * (a * (1 / (4 * (Real.sqrt p * (1 / 2))))) = a := by
  have h0 : (0 : ℝ) ≤ p := by linarith
  have hs : 0 < Real.sqrt p := Real.sqrt_pos.mpr (by linarith)
  have hsq : Real.sqrt p ^ 2 = p := Real.sq_sqrt h0
  refine ⟨by positivity, by linear_combination hsq, fun a => ?_⟩
  field_simp
  ring

/-- For a proper rotation matrix `toQuaternion` returns a unit quaternion whose matrix is
the input.  The four candidates sum to `4`, so the selected one is at least `1`. -/
theorem RotationMatrix.IsProper.toQuaternion_spec {M : CMath ℝ} (hM : M.IsReal)
    {m : RotationMatrix ℝ} (h : m.IsProper) :
    ∃ q, m.toQuaternion M = .ok q ∧ q.IsUnit ∧ q.toRotationMatrix = m := by
  have r := h.relations
  obtain ⟨-, -, -, -, hsqrt⟩ := hM
  simp only [RotationMatrix.toQuaternion, RotationMatrix.at_0_0, RotationMatrix.at_1_0,
    RotationMatrix.at_2_0, RotationMatrix.at_0_1, RotationMatrix.at_1_1, RotationMatrix.at_2_1,
    RotationMatrix.at_0_2, RotationMatrix.at_1_2, RotationMatrix.at_2_2, hsqrt]
  by_cases h1 : m.e0 - m.e4 - m.e8 + 1 < -m.e0 + m.e4 - m.e8 + 1
  · by_cases h2 : -m.e0 + m.e4 - m.e8 + 1 < -m.e0 - m.e4 + m.e8 + 1
    · by_cases h3 : -m.e0 - m.e4 + m.e8 + 1 < m.e0 + m.e4 + m.e8 + 1
      · simp +decide only [h1, h2, h3, if_true, if_false]
        obtain ⟨a, b, c⟩ := sqrt_half_spec (p := m.e0 + m.e4 + m.e8 + 1) (by linarith)
        refine ⟨_, rfl, r.quaternion_of_w a b ?_ ?_ ?_⟩ <;>
          first | exact c _ | (rw [mul_right_comm]; exact c _)
      · simp +decide only [h1, h2, h3, if_true, if_false]
        obtain ⟨a, b, c⟩ := sqrt_half_spec (p := -m.e0 - m.e4 + m.e8 + 1) (by linarith)
        refine ⟨_, rfl, r.quaternion_of_z a b ?_ ?_ ?_⟩ <;>
          first | exact c _ | (rw [mul_right_comm]; exact c _)
    · by_cases h3 : -m.e0 + m.e4 - m.e8 + 1 < m.e0 + m.e4 + m.e8 + 1
      · simp +decide only [h1, h2, h3, if_true, if_false]
        obtain ⟨a, b, c⟩ := sqrt_half_spec (p := m.e0 + m.e4 + m.e8 + 1) (by linarith)
        refine ⟨_, rfl, r.quaternion_of_w a b ?_ ?_ ?_⟩ <;>
          first | exact c _ | (rw [mul_right_comm]; exact c _)
      · simp +decide only [h1, h2, h3, if_true, if_false]
        obtain ⟨a, b, c⟩ := sqrt_half_spec (p := -m.e0 + m.e4 - m.e8 + 1) (by linarith)
        refine ⟨_, rfl, r.quaternion_of_y a b ?_ ?_ ?_⟩ <;>
          first | exact c _ | (rw [mul_right_comm]; exact c _)
  · by_cases h2 : m.e0 - m.e4 - m.e8 + 1 < -m.e0 - m.e4 + m.e8 + 1
    · by_cases h3 : -m.e0 - m.e4 + m.e8 + 1 < m.e0 + m.e4 + m.e8 + 1
      · simp +decide only [h1, h2, h3, if_true, if_false]
        obtain ⟨a, b, c⟩ := sqrt_half_spec (p := m.e0 + m.e4 + m.e8 + 1) (by linarith)
        refine ⟨_, rfl, r.quaternion_of_w a b ?_ ?_ ?_⟩ <;>
          first | exact c _ | (rw [mul_right_comm]; exact c _)
      · simp +decide only [h1, h2, h3, if_true, if_false]
        obtain ⟨a, b, c⟩ := sqrt_half_spec (p := -m.e0 - m.e4 + m.e8 + 1) (by linarith)
        refine ⟨_, rfl, r.quaternion_of_z a b ?_ ?_ ?_⟩ <;>
          first | exact c _ | (rw [mul_right_comm]; exact c _)
    · by_cases h3 : m.e0 - m.e4 - m.e8 + 1 < m.e0 + m.e4 + m.e8 + 1
      · simp +decide only [h1, h2, h3, if_true, if_false]
        obtain ⟨a, b, c⟩ := sqrt_half_spec (p := m.e0 + m.e4 + m.e8 + 1) (by linarith)
        refine ⟨_, rfl, r.quaternion_of_w a b ?_ ?_ ?_⟩ <;>
          first | exact c _ | (rw [mul_right_comm]; exact c _)
      · simp +decide only [h1, h2, h3, if_true, if_false]
        obtain ⟨a, b, c⟩ := sqrt_half_spec (p := m.e0 - m.e4 - m.e8 + 1) (by linarith)
        refine ⟨_, rfl, r.quaternion_of_x a b ?_ ?_ ?_⟩ <;>
          exact c _

end ToQuaternion

section AxisProper

theorem RotationMatrix.rotationX_isProper {M : CMath ℝ} (hM : M.IsReal) (t : ℝ) :
    (RotationMatrix.rotationX M t).IsProper := by
  obtain ⟨hs, hc, -⟩ := hM
  have h1 := Real.sin_sq_add_cos_sq t
  rw [RotationMatrix.isProper_iff]
  simp only [RotationMatrix.rotationX, hs, hc]
  refine ⟨⟨?_, ?_, ?_, ?_, ?_, ?_⟩, ?_⟩ <;> first | ring1 | linear_combination h1

theorem RotationMatrix.rotationY_isProper {M : CMath ℝ} (hM : M.IsReal) (t : ℝ) :
    (RotationMatrix.rotationY M t).IsProper := by
  obtain ⟨hs, hc, -⟩ := hM
  have h1 := Real.sin_sq_add_cos_sq t
  rw [RotationMatrix.isProper_iff]
  simp only [RotationMatrix.rotationY, hs, hc]
  refine ⟨⟨?_, ?_, ?_, ?_, ?_, ?_⟩, ?_⟩ <;> first | ring1 | linear_combination h1

theorem RotationMatrix.rotationZ_isProper {M : CMath ℝ} (hM : M.IsReal) (t : ℝ) :
    (RotationMatrix.rotationZ M t).IsProper := by
  obtain ⟨hs, hc, -⟩ := hM
  have h1 := Real.sin_sq_add_cos_sq t
  rw [RotationMatrix.isProper_iff]
  simp only [RotationMatrix.rotationZ, hs, hc]
  refine ⟨⟨?_, ?_, ?_, ?_, ?_, ?_⟩, ?_⟩ <;> first | ring1 | linear_combination h1

/-- The quaternion of a proper rotation matrix rotates vectors as the matrix does. -/
theorem RotationMatrix.IsProper.toQuaternion_rotate {M : CMath ℝ} (hM : M.IsReal)
    {m : RotationMatrix ℝ} (h : m.IsProper) (v : Vector3 ℝ) :
    ∃ q, m.toQuaternion M = .ok q ∧ q.rotate v = m * v := by
  obtain ⟨q, hq, hu, hm⟩ := h.toQuaternion_spec hM
  refine ⟨q, hq, ?_⟩
  rw [← Quaternion.toRotationMatrix_mulVec_of_isUnit hu, hm]

/-- The half turn about an axis: the only positive candidate is the one of that axis, and
the `w` component of the result is `0`. -/
theorem RotationMatrix.toQuaternion_rotationX_pi {M : CMath ℝ} (hM : M.IsReal) :
    ∃ q, (RotationMatrix.rotationX M Real.pi).toQuaternion M = .ok q ∧ q.w = 0 := by
  obtain ⟨hs, hc, -⟩ := hM
  simp only [RotationMatrix.toQuaternion, RotationMatrix.rotationX, hs, hc, Real.cos_pi,
    Real.sin_pi, RotationMatrix.at_0_0, RotationMatrix.at_1_0,
    RotationMatrix.at_2_0, RotationMatrix.at_0_1, RotationMatrix.at_1_1, RotationMatrix.at_2_1,
    RotationMatrix.at_0_2, RotationMatrix.at_1_2, RotationMatrix.at_2_2]
  norm_num

theorem RotationMatrix.toQuaternion_rotationY_pi {M : CMath ℝ} (hM : M.IsReal) :
    ∃ q, (RotationMatrix.rotationY M Real.pi).toQuaternion M = .ok q ∧ q.w = 0 := by
  obtain ⟨hs, hc, -⟩ := hM
  simp only [RotationMatrix.toQuaternion, RotationMatrix.rotationY, hs, hc, Real.cos_pi,
    Real.sin_pi, RotationMatrix.at_0_0, RotationMatrix.at_1_0,
    RotationMatrix.at_2_0, RotationMatrix.at_0_1, RotationMatrix.at_1_1, RotationMatrix.at_2_1,
    RotationMatrix.at_0_2, RotationMatrix.at_1_2, RotationMatrix.at_2_2]
  norm_num

theorem RotationMatrix.toQuaternion_rotationZ_pi {M : CMath ℝ} (hM : M.IsReal) :
    ∃ q, (RotationMatrix.rotationZ M Real.pi).toQuaternion M = .ok q ∧ q.w = 0 := by
  obtain ⟨hs, hc, -⟩ := hM
  simp only [RotationMatrix.toQuaternion, RotationMatrix.rotationZ, hs, hc, Real.cos_pi,
    Real.sin_pi, RotationMatrix.at_0_0, RotationMatrix.at_1_0,
    RotationMatrix.at_2_0, RotationMatrix.at_0_1, RotationMatrix.at_1_1, RotationMatrix.at_2_1,
    RotationMatrix.at_0_2, RotationMatrix.at_1_2, RotationMatrix.at_2_2]
  norm_num

end AxisProper

/-- C4: for every proper rotation matrix `m` (columns orthonormal, determinant `+1`) and
every vector `v`, `toQuaternion(m)` returns a quaternion and `toQuaternion(m).rotate(v)` is
`m * v`; in particular for `rotationX(θ)`, `rotationY(θ)` and `rotationZ(θ)` at every angle
`θ`, the half turns `θ = π` included, where the `w` component of the result is `0`. -/
theorem toQuaternion_matrix_rotate_eq_mulVec (M : CMath ℝ) (hM : M.IsReal) :
    (∀ m : RotationMatrix ℝ, m.IsProper → ∀ v : Vector3 ℝ,
      ∃ q, m.toQuaternion M = .ok q ∧ q.rotate v = m * v) ∧
    (∀ (t : ℝ) (v : Vector3 ℝ), ∃ q, (RotationMatrix.rotationX M t).toQuaternion M = .ok q ∧
      q.rotate v = RotationMatrix.rotationX M t * v) ∧
    (∀ (t : ℝ) (v : Vector3 ℝ), ∃ q, (RotationMatrix.rotationY M t).toQuaternion M = .ok q ∧
      q.rotate v = RotationMatrix.rotationY M t * v) ∧
    (∀ (t : ℝ) (v : Vector3 ℝ), ∃ q, (RotationMatrix.rotationZ M t).toQuaternion M = .ok q ∧
      q.rotate v = RotationMatrix.rotationZ M t * v) ∧
    (∃ q, (RotationMatrix.rotationX M Real.pi).toQuaternion M = .ok q ∧ q.w = 0) ∧
    (∃ q, (RotationMatrix.rotationY M Real.pi).toQuaternion M = .ok q ∧ q.w = 0) ∧
    (∃ q, (RotationMatrix.rotationZ M Real.pi).toQuaternion M = .ok q ∧ q.w = 0) :=
  ⟨fun _ h v => h.toQuaternion_rotate hM v,
   fun t v => (RotationMatrix.rotationX_isProper hM t).toQuaternion_rotate hM v,
   fun t v => (RotationMatrix.rotationY_isProper hM t).toQuaternion_rotate hM v,
   fun t v => (RotationMatrix.rotationZ_isProper hM t).toQuaternion_rotate hM v,
   RotationMatrix.toQuaternion_rotationX_pi hM,
   RotationMatrix.toQuaternion_rotationY_pi hM,
   RotationMatrix.toQuaternion_rotationZ_pi hM⟩

/-- Witness of C4 at the real math functions: the matrix `(0,1,0, 0,0,1, 1,0,0)` of the
rotation that permutes the axes is proper, and its quaternion rotates `(2, 3, 5)` as the
matrix does. -/
theorem toQuaternion_matrix_rotate_eq_mulVec_witness :
    (⟨0, 1, 0, 0, 0, 1, 1, 0, 0⟩ : RotationMatrix ℝ).IsProper ∧
    ∃ q, (⟨0, 1, 0, 0, 0, 1, 1, 0, 0⟩ : RotationMatrix ℝ).toQuaternion
          ⟨Real.sin, Real.cos, Real.arcsin, fun y x => Complex.arg ⟨x, y⟩, Real.sqrt⟩ = .ok q ∧
      q.rotate ⟨2, 3, 5⟩ = (⟨0, 1, 0, 0, 0, 1, 1, 0, 0⟩ : RotationMatrix ℝ) * (⟨2, 3, 5⟩ : Vector3 ℝ) :=
  ⟨by rw [RotationMatrix.isProper_iff]; norm_num,
   (toQuaternion_matrix_rotate_eq_mulVec
      ⟨Real.sin, Real.cos, Real.arcsin, fun y x => Complex.arg ⟨x, y⟩, Real.sqrt⟩
      ⟨rfl, rfl, rfl, rfl, rfl⟩).1 ⟨0, 1, 0, 0, 0, 1, 1, 0, 0⟩
      (by rw [RotationMatrix.isProper_iff]; norm_num) ⟨2, 3, 5⟩⟩

section DoubleCover

/-- The matrix of a unit quaternion is a proper rotation matrix. -/
theorem Quaternion.IsUnit.toRotationMatrix_isProper {q : Quaternion ℝ} (hq : q.IsUnit) :
    q.toRotationMatrix.IsProper := by
  rw [Quaternion.IsUnit] at hq
  rw [RotationMatrix.isProper_iff]
  simp only [Quaternion.toRotationMatrix]
  refine ⟨⟨?_, ?_, ?_, ?_, ?_, ?_⟩, ?_⟩
  · linear_combination (4 * q.w ^ 2 + 4 * q.x ^ 2) * hq
  · linear_combination (4 * q.w ^ 2 + 4 * q.y ^ 2) * hq
  · linear_combination (4 * q.w ^ 2 + 4 * q.z ^ 2) * hq
  · linear_combination 4 * q.x * q.y * hq
  · linear_combination 4 * q.x * q.z * hq
  · linear_combination 4 * q.y * q.z * hq
  · linear_combination (2 - 4 * q.w ^ 2 + 8 * q.w ^ 2 * q.x ^ 2 + 8 * q.w ^ 2 * q.y ^ 2
      + 8 * q.w ^ 2 * q.z ^ 2 + 8 * q.w ^ 4) * hq

/-- Four reals whose products with a pivot agree with those of four other reals agree with
them up to one common sign. -/
theorem eq_or_neg_of_pivot {a b c d a' b' c' d' : ℝ} (hd : d' ≠ 0)
    (hdd : d * d = d' * d') (had : a * d = a' * d') (hbd : b * d = b' * d')
    (hcd : c * d = c' * d') :
    (a = a' ∧ b = b' ∧ c = c' ∧ d = d') ∨ (a = -a' ∧ b = -b' ∧ c = -c' ∧ d = -d') := by
  rcases mul_self_eq_mul_self_iff.mp hdd with h | h
  · left
    subst h
    exact ⟨mul_right_cancel₀ hd had, mul_right_cancel₀ hd hbd, mul_right_cancel₀ hd hcd, rfl⟩
  · right
    subst h
    have hd' : -d' ≠ 0 := neg_ne_zero.mpr hd
    refine ⟨mul_right_cancel₀ hd' ?_, mul_right_cancel₀ hd' ?_, mul_right_cancel₀ hd' ?_, rfl⟩
    · linear_combination had
    · linear_combination hbd
    · linear_combination hcd

/-- Two unit quaternions with the same matrix are equal or antipodal. -/
theorem Quaternion.eq_or_eq_neg_of_toRotationMatrix_eq {p q : Quaternion ℝ} (hp : p.IsUnit)
    (hq : q.IsUnit) (h : p.toRotationMatrix = q.toRotationMatrix) :
    p = q ∨ p = ⟨-q.x, -q.y, -q.z, -q.w⟩ := by
  rw [Quaternion.IsUnit] at hp hq
  have h0 := congrArg RotationMatrix.e0 h
  have h1 := congrArg RotationMatrix.e1 h
  have h2 := congrArg RotationMatrix.e2 h
  have h3 := congrArg RotationMatrix.e3 h
  have h4 := congrArg RotationMatrix.e4 h
  have h5 := congrArg RotationMatrix.e5 h
  have h6 := congrArg RotationMatrix.e6 h
  have h7 := congrArg RotationMatrix.e7 h
  have h8 := congrArg RotationMatrix.e8 h
  simp only [Quaternion.toRotationMatrix] at h0 h1 h2 h3 h4 h5 h6 h7 h8
  have hww : p.w * p.w = q.w * q.w := by
    linear_combination (1 / 4 : ℝ) * h0 + (1 / 4 : ℝ) * h4 + (1 / 4 : ℝ) * h8
      - (1 / 2 : ℝ) * hp + (1 / 2 : ℝ) * hq
  have hxx : p.x * p.x = q.x * q.x := by linear_combination (1 / 2 : ℝ) * h0 - hww
  have hyy : p.y * p.y = q.y * q.y := by linear_combination (1 / 2 : ℝ) * h4 - hww
  have hzz : p.z * p.z = q.z * q.z := by linear_combination (1 / 2 : ℝ) * h8 - hww
  have hxy : p.x * p.y = q.x * q.y := by linear_combination (1 / 4 : ℝ) * h1 + (1 / 4 : ℝ) * h3
  have hzw : p.z * p.w = q.z * q.w := by linear_combination (1 / 4 : ℝ) * h1 - (1 / 4 : ℝ) * h3
  have hxz : p.x * p.z = q.x * q.z := by linear_combination (1 / 4 : ℝ) * h6 + (1 / 4 : ℝ) * h2
  have hyw : p.y * p.w = q.y * q.w := by linear_combination (1 / 4 : ℝ) * h6 - (1 / 4 : ℝ) * h2
  have hyz : p.y * p.z = q.y * q.z := by linear_combination (1 / 4 : ℝ) * h5 + (1 / 4 : ℝ) * h7
  have hxw : p.x * p.w = q.x * q.w := by linear_combination (1 / 4 : ℝ) * h5 - (1 / 4 : ℝ) * h7
  have hne : q.w ≠ 0 ∨ q.x ≠ 0 ∨ q.y ≠ 0 ∨ q.z ≠ 0 := by
    by_contra hcon
    push_neg at hcon
    obtain ⟨a, b, c, d⟩ := hcon
    rw [a, b, c, d] at hq
    norm_num at hq
  rcases hne with hw | hx | hy | hz
  · rcases eq_or_neg_of_pivot hw hww hxw hyw hzw with ⟨a, b, c, d⟩ | ⟨a, b, c, d⟩
    · left; ext <;> assumption
    · right; ext <;> assumption
  · rcases eq_or_neg_of_pivot hx hxx (show p.w * p.x = q.w * q.x by linear_combination hxw)
        (show p.y * p.x = q.y * q.x by linear_combination hxy)
        (show p.z * p.x = q.z * q.x by linear_combination hxz) with ⟨a, b, c, d⟩ | ⟨a, b, c, d⟩
    · left; ext <;> assumption
    · right; ext <;> assumption
  · rcases eq_or_neg_of_pivot hy hyy hxy (show p.w * p.y = q.w * q.y by linear_combination hyw)
        (show p.z * p.y = q.z * q.y by linear_combination hyz) with ⟨a, b, c, d⟩ | ⟨a, b, c, d⟩
    · left; ext <;> assumption
    · right; ext <;> assumption
  · rcases eq_or_neg_of_pivot hz hzz hxz hyz
        (show p.w * p.z = q.w * q.z by linear_combination hzw) with ⟨a, b, c, d⟩ | ⟨a, b, c, d⟩
    · left; ext <;> assumption
    · right; ext <;> assumption

end DoubleCover

/-- C5: for every unit quaternion `q`, `toQuaternion(toRotationMatrix(q))` returns `q` or
the quaternion with all four components negated. -/
theorem toQuaternion_toRotationMatrix_eq_or_neg (M : CMath ℝ) (hM : M.IsReal)
    (q : Quaternion ℝ) (hq : q.IsUnit) :
    q.toRotationMatrix.toQuaternion M = .ok q ∨
      q.toRotationMatrix.toQuaternion M = .ok ⟨-q.x, -q.y, -q.z, -q.w⟩ := by
  obtain ⟨p, hp, hu, hm⟩ := hq.toRotationMatrix_isProper.toQuaternion_spec hM
  rcases Quaternion.eq_or_eq_neg_of_toRotationMatrix_eq hu hq hm with h | h
  · left; rw [hp, h]
  · right; rw [hp, h]

/-- Witness of C5 at the real math functions and the unit quaternion
`(1/2, -1/2, 1/2, -1/2)`. -/
theorem toQuaternion_toRotationMatrix_eq_or_neg_witness :
    (⟨1 / 2, -1 / 2, 1 / 2, -1 / 2⟩ : Quaternion ℝ).IsUnit ∧
    ((⟨1 / 2, -1 / 2, 1 / 2, -1 / 2⟩ : Quaternion ℝ).toRotationMatrix.toQuaternion
        ⟨Real.sin, Real.cos, Real.arcsin, fun y x => Complex.arg ⟨x, y⟩, Real.sqrt⟩
          = .ok ⟨1 / 2, -1 / 2, 1 / 2, -1 / 2⟩ ∨
      (⟨1 / 2, -1 / 2, 1 / 2, -1 / 2⟩ : Quaternion ℝ).toRotationMatrix.toQuaternion
        ⟨Real.sin, Real.cos, Real.arcsin, fun y x => Complex.arg ⟨x, y⟩, Real.sqrt⟩
          = .ok ⟨-(1 / 2), -(-1 / 2), -(1 / 2), -(-1 / 2)⟩) :=
  ⟨by norm_num [Quaternion.IsUnit],
   toQuaternion_toRotationMatrix_eq_or_neg
     ⟨Real.sin, Real.cos, Real.arcsin, fun y x => Complex.arg ⟨x, y⟩, Real.sqrt⟩
     ⟨rfl, rfl, rfl, rfl, rfl⟩ ⟨1 / 2, -1 / 2, 1 / 2, -1 / 2⟩ (by norm_num [Quaternion.IsUnit])⟩

/-! ## Matrix to Euler angles and back: the unlocked branch -/

section Rebuild

end Rebuild

section Unlocked

/-- The real `atan2`: for a point `(x, y)` at distance `r > 0` from the origin, the cosine
and the sine of `atan2(y, x)` are `x / r` and `y / r`. -/
theorem atan2_spec {x y r : ℝ} (hr : 0 < r) (h : x ^ 2 + y ^ 2 = r ^ 2) :
    r * Real.cos (Complex.arg ⟨x, y⟩) = x ∧ r * Real.sin (Complex.arg ⟨x, y⟩) = y := by
  have habs : Complex.abs ⟨x, y⟩ = r := by
    rw [Complex.abs_apply, Complex.normSq_mk, ← sq, ← sq, h, Real.sqrt_sq hr.le]
  have hne : (⟨x, y⟩ : ℂ) ≠ 0 := by
    intro h0
    rw [h0, map_zero] at habs
    exact hr.ne habs
  rw [Complex.cos_arg hne, Complex.sin_arg, habs]
  constructor <;> field_simp

end Unlocked

/-! ## Euler angles of a rotation: the unlocked branch rebuilds the rotation -/

section QuaternionOverload

variable {α : Type} [LinearOrderedField α]

/-- The quaternion overload hands to `asin` the value the matrix overload reads from the
matrix of the quaternion. -/
theorem Quaternion.asinArg_eq_matrix (q : Quaternion α) (order : EulerOrder) :
    q.asinArg order = q.toRotationMatrix.asinArg order := by
  simp only [Quaternion.asinArg, RotationMatrix.asinArg, Quaternion.toRotationMatrix,
    RotationMatrix.at_0_0, RotationMatrix.at_1_0, RotationMatrix.at_2_0,
    RotationMatrix.at_0_1, RotationMatrix.at_1_1, RotationMatrix.at_2_1, RotationMatrix.at_0_2,
    RotationMatrix.at_1_2, RotationMatrix.at_2_2]
  split_ifs <;> ring

/-- The quaternion overload of `toEulerAngle` computes what the matrix overload computes on
the matrix of the quaternion. -/
theorem Quaternion.toEulerAngle_eq_matrix (M : CMath α) (q : Quaternion α)
    {order : EulerOrder} (ho : order ∈ EulerOrder.all) :
    q.toEulerAngle M order = q.toRotationMatrix.toEulerAngle M order := by
  have h2 : ∀ a b : α, a * b * 2 = 2 * a * b := fun a b => by ring
  rcases EulerOrder.mem_all ho with ho | ho | ho | ho | ho | ho <;> subst ho <;>
    simp +decide only [Quaternion.toEulerAngle, RotationMatrix.toEulerAngle,
      Quaternion.toRotationMatrix, if_true, if_false,
      RotationMatrix.at_0_0, RotationMatrix.at_1_0, RotationMatrix.at_2_0,
      RotationMatrix.at_0_1, RotationMatrix.at_1_1, RotationMatrix.at_2_1,
      RotationMatrix.at_0_2, RotationMatrix.at_1_2, RotationMatrix.at_2_2, h2]

/-- When `toRotationMatrix(EulerAngle)` returns a matrix, `calculateRotationMatrix` returns
the same matrix. -/
theorem calculateRotationMatrix_eq_of_toRotationMatrix {M : CMath α} {e : EulerAngle α}
    {R : RotationMatrix α} (h : e.toRotationMatrix M = .ok R) :
    calculateRotationMatrix M e = .ok R := by
  rw [EulerAngle.toRotationMatrix_eq_calculate] at h
  cases hc : calculateRotationMatrix M e with
  | error s => rw [hc] at h; simp [Except.mapError] at h
  | ok R' => rw [hc] at h; simpa [Except.mapError] using h

end QuaternionOverload

section BandExample

/-- The point `(-1, 0)` has argument `π`. -/
theorem arg_neg_one_zero : Complex.arg ⟨-1, 0⟩ = Real.pi := by
  have h : (⟨-1, 0⟩ : ℂ) = -1 := by
    apply Complex.ext <;> simp
  rw [h, Complex.arg_neg_one]

/-- The cosine of `asin(249999/250001)` is `1000/250001`. -/
theorem cos_arcsin_band :
    Real.cos (Real.arcsin (249999 / 250001)) = 1000 / 250001 := by
  rw [Real.cos_arcsin]
  have h : (1 : ℝ) - (249999 / 250001) ^ 2 = (1000 / 250001) ^ 2 := by norm_num
  rw [h, Real.sqrt_sq (by norm_num)]

end BandExample

/-- C8, counterexample: the proper rotation matrix with `m.at(0,2) = 249999/250001`
(about `0.999992`, inside the locked branch of order XYZ) and the test vector
`(-17, -19, 23)`.  The matrix rebuilt from the returned angles moves the vector to a point
whose `x` component differs from the original image by `34000/250001`, about `0.136`,
so the test comparison `equals` with tolerance `0.02` fails. -/
theorem locked_band_rebuild_not_within_tolerance :
    (⟨-(1000 / 250001), 0, 249999 / 250001, 0, -1, 0, 249999 / 250001, 0, 1000 / 250001⟩ :
        RotationMatrix ℝ).IsProper ∧
    99999 / 100000 ≤
      |(⟨-(1000 / 250001), 0, 249999 / 250001, 0, -1, 0, 249999 / 250001, 0, 1000 / 250001⟩ :
        RotationMatrix ℝ).asinArg EulerOrder.XYZ| ∧
    ∃ e R,
      (⟨-(1000 / 250001), 0, 249999 / 250001, 0, -1, 0, 249999 / 250001, 0, 1000 / 250001⟩ :
        RotationMatrix ℝ).toEulerAngle
          ⟨Real.sin, Real.cos, Real.arcsin, fun y x => Complex.arg ⟨x, y⟩, Real.sqrt⟩
          EulerOrder.XYZ = .ok e ∧
      calculateRotationMatrix
          ⟨Real.sin, Real.cos, Real.arcsin, fun y x => Complex.arg ⟨x, y⟩, Real.sqrt⟩ e = .ok R ∧
      equals
        ((⟨-(1000 / 250001), 0, 249999 / 250001, 0, -1, 0, 249999 / 250001, 0, 1000 / 250001⟩ :
          RotationMatrix ℝ) * (⟨-17, -19, 23⟩ : Vector3 ℝ))
        (R * (⟨-17, -19, 23⟩ : Vector3 ℝ)) (2 / 100) = false := by
  refine ⟨by rw [RotationMatrix.isProper_iff]; norm_num, ?_, ?_⟩
  · simp +decide only [RotationMatrix.asinArg, if_true, RotationMatrix.at_0_2]
    rw [abs_of_pos (by norm_num)]
    norm_num
  · have hl : ¬ (|(249999 / 250001 : ℝ)| < 2097131 / 2097152) := by
      rw [abs_of_pos (by norm_num)]
      norm_num
    refine ⟨_, _, rfl, rfl, ?_⟩
    simp +decide only [RotationMatrix.at_0_0, RotationMatrix.at_1_0, RotationMatrix.at_2_0,
      RotationMatrix.at_0_1, RotationMatrix.at_1_1, RotationMatrix.at_2_1,
      RotationMatrix.at_0_2, RotationMatrix.at_1_2, RotationMatrix.at_2_2,
      decide_eq_false hl, Bool.false_eq_true, if_false,
      RotationMatrix.rotationX, RotationMatrix.rotationY, RotationMatrix.rotationZ,
      arg_neg_one_zero, Real.cos_pi, Real.sin_pi, cos_arcsin_band,
      Real.sin_arcsin (show (-1 : ℝ) ≤ 249999 / 250001 by norm_num)
        (show (249999 / 250001 : ℝ) ≤ 1 by norm_num),
      Real.cos_zero, Real.sin_zero, RotationMatrix.mat_mul_def, RotationMatrix.mul,
      RotationMatrix.mulVec_def, RotationMatrix.mulVec, equals]
    norm_num [abs_lt]

/-! ## The locked branch: distance of the rebuilt matrix to the given one -/

section LockedAlgebra

/-- Order XYZ, locked branch, the algebra: a matrix `R` with the entries that
`toRotationMatrix` computes from the extracted angles (the last angle being zero) is within
squared entrywise distance `10 c²` of the proper rotation matrix `m`, where `c` is the
cosine of the middle angle and `(cx, sx)` are the cosine and sine of the first angle. -/
theorem RotationMatrix.Relations.locked_distSq_XYZ {m : RotationMatrix ℝ} (rel : m.Relations)
    {R : RotationMatrix ℝ} {c rho cx sx : ℝ}
    (hc2 : c ^ 2 = 1 - (m.e6) ^ 2) (hcs : c ^ 2 ≤ 1 / 2)
    (hrho : 0 < rho) (hrho2 : rho ^ 2 = 1 - (m.e3) ^ 2)
    (hA : rho * cx = m.e4) (hB : rho * sx = m.e5)
    (hab : sx ^ 2 + cx ^ 2 = 1)
    (h0 : R.e0 = c)
    (h1 : R.e1 = m.e6 * sx)
    (h2 : R.e2 = -cx * m.e6)
    (h3 : R.e3 = 0)
    (h4 : R.e4 = cx)
    (h5 : R.e5 = sx)
    (h6 : R.e6 = m.e6)
    (h7 : R.e7 = -c * sx)
    (h8 : R.e8 = c * cx) :
    RotationMatrix.distSq R m ≤ 10 * c ^ 2 := by
  have hrow := rel.r00
  have ha : -(c ^ 2) ≤ c * m.e0 := by
    linarith [sq_nonneg (c + m.e0), sq_nonneg (m.e3)]
  have hr2 : 1 / 2 ≤ rho ^ 2 := by linarith [sq_nonneg (m.e0)]
  have hr1 : rho ≤ 1 := by
    by_contra hh
    push_neg at hh
    linarith [sq_nonneg (m.e3), mul_pos (sub_pos.mpr hh) hrho]
  have hr3 : 2 / 3 ≤ rho := by
    by_contra hh
    push_neg at hh
    linarith [mul_pos (sub_pos.mpr hh) hrho]
  have key : rho * RotationMatrix.distSq R m
      = 6 * rho - 2 * ((c * m.e0 + m.e6 ^ 2) * (rho + 1) + rho ^ 2) := by
    simp only [RotationMatrix.distSq, h0, h1, h2, h3, h4, h5, h6, h7, h8]
    have c00 := rel.c00
    have c11 := rel.c11
    have c22 := rel.c22
    have r00 := rel.r00
    have k0 := rel.k0
    have k1 := rel.k1
    have k2 := rel.k2
    have k3 := rel.k3
    linear_combination (-2 * c * m.e8 + 2 * m.e2 * m.e6 - 2 * m.e4) * hA + (2 * c * m.e7
      - 2 * m.e1 * m.e6 - 2 * m.e5) * hB + (c ^ 2 * rho + m.e6 ^ 2 * rho + rho) * hab
      + 2 * rho * hc2 + 2 * hrho2 + (-2 + rho) * c00 + (-2 + rho) * c11 + rho * c22 + 2 * r00
      + 2 * c * k0 + 2 * m.e1 * k1 + 2 * m.e2 * k2 - 2 * m.e3 * k3
  have hmul : (1 - 2 * c ^ 2) * (rho + 1) ≤ (c * m.e0 + m.e6 ^ 2) * (rho + 1) := by
    apply mul_le_mul_of_nonneg_right _ (by linarith)
    linarith
  have hfin : rho * RotationMatrix.distSq R m ≤ rho * (10 * c ^ 2) := by
    rw [key]
    linarith [sq_nonneg (1 - rho), mul_nonneg (sq_nonneg c) (sub_nonneg.mpr hr3)]
  exact le_of_mul_le_mul_left hfin hrho

/-- Order XZY, locked branch, the algebra: a matrix `R` with the entries that
`toRotationMatrix` computes from the extracted angles (the last angle being zero) is within
squared entrywise distance `10 c²` of the proper rotation matrix `m`, where `c` is the
cosine of the middle angle and `(cx, sx)` are the cosine and sine of the first angle. -/
theorem RotationMatrix.Relations.locked_distSq_XZY {m : RotationMatrix ℝ} (rel : m.Relations)
    {R : RotationMatrix ℝ} {c rho cx sx : ℝ}
    (hc2 : c ^ 2 = 1 - (-m.e3) ^ 2) (hcs : c ^ 2 ≤ 1 / 2)
    (hrho : 0 < rho) (hrho2 : rho ^ 2 = 1 - (m.e6) ^ 2)
    (hA : rho * cx = m.e8) (hB : rho * sx = -m.e7)
    (hab : sx ^ 2 + cx ^ 2 = 1)
    (h0 : R.e0 = c)
    (h1 : R.e1 = -cx * m.e3)
    (h2 : R.e2 = -m.e3 * sx)
    (h3 : R.e3 = m.e3)
    (h4 : R.e4 = c * cx)
    (h5 : R.e5 = c * sx)
    (h6 : R.e6 = 0)
    (h7 : R.e7 = -sx)
    (h8 : R.e8 = cx) :
    RotationMatrix.distSq R m ≤ 10 * c ^ 2 := by
  have hrow := rel.r00
  have ha : -(c ^ 2) ≤ c * m.e0 := by
    linarith [sq_nonneg (c + m.e0), sq_nonneg (m.e6)]
  have hr2 : 1 / 2 ≤ rho ^ 2 := by linarith [sq_nonneg (m.e0)]
  have hr1 : rho ≤ 1 := by
    by_contra hh
    push_neg at hh
    linarith [sq_nonneg (m.e6), mul_pos (sub_pos.mpr hh) hrho]
  have hr3 : 2 / 3 ≤ rho := by
    by_contra hh
    push_neg at hh
    linarith [mul_pos (sub_pos.mpr hh) hrho]
  have key : rho * RotationMatrix.distSq R m
      = 6 * rho - 2 * ((c * m.e0 + (-m.e3) ^ 2) * (rho + 1) + rho ^ 2) := by
    simp only [RotationMatrix.distSq, h0, h1, h2, h3, h4, h5, h6, h7, h8]
    have c00 := rel.c00
    have c11 := rel.c11
    have c22 := rel.c22
    have k0 := rel.k0
    have k3 := rel.k3
    linear_combination (-2 * c * m.e4 + 2 * m.e1 * m.e3 - 2 * m.e8) * hA + (-2 * c * m.e5
      + 2 * m.e2 * m.e3 + 2 * m.e7) * hB + (c ^ 2 * rho + m.e3 ^ 2 * rho + rho) * hab
      + 2 * rho * hc2 + 2 * hrho2 + rho * c00 + rho * c11 + (-2 + rho) * c22 + 2 * c * k0
      + 2 * m.e3 * k3
  have hmul : (1 - 2 * c ^ 2) * (rho + 1) ≤ (c * m.e0 + (-m.e3) ^ 2) * (rho + 1) := by
    apply mul_le_mul_of_nonneg_right _ (by linarith)
    linarith
  have hfin : rho * RotationMatrix.distSq R m ≤ rho * (10 * c ^ 2) := by
    rw [key]
    linarith [sq_nonneg (1 - rho), mul_nonneg (sq_nonneg c) (sub_nonneg.mpr hr3)]
  exact le_of_mul_le_mul_left hfin hrho

/-- Order YXZ, locked branch, the algebra: a matrix `R` with the entries that
`toRotationMatrix` computes from the extracted angles (the last angle being zero) is within
squared entrywise distance `10 c²` of the proper rotation matrix `m`, where `c` is the
cosine of the middle angle and `(cy, sy)` are the cosine and sine of the first angle. -/
theorem RotationMatrix.Relations.locked_distSq_YXZ {m : RotationMatrix ℝ} (rel : m.Relations)
    {R : RotationMatrix ℝ} {c rho cy sy : ℝ}
    (hc2 : c ^ 2 = 1 - (-m.e7) ^ 2) (hcs : c ^ 2 ≤ 1 / 2)
    (hrho : 0 < rho) (hrho2 : rho ^ 2 = 1 - (m.e1) ^ 2)
    (hA : rho * cy = m.e0) (hB : rho * sy = -m.e2)
    (hab : sy ^ 2 + cy ^ 2 = 1)
    (h0 : R.e0 = cy)
    (h1 : R.e1 = 0)
    (h2 : R.e2 = -sy)
    (h3 : R.e3 = -m.e7 * sy)
    (h4 : R.e4 = c)
    (h5 : R.e5 = -cy * m.e7)
    (h6 : R.e6 = c * sy)
    (h7 : R.e7 = m.e7)
    (h8 : R.e8 = c * cy) :
    RotationMatrix.distSq R m ≤ 10 * c ^ 2 := by
  have hrow := rel.r11
  have ha : -(c ^ 2) ≤ c * m.e4 := by
    linarith [sq_nonneg (c + m.e4), sq_nonneg (m.e1)]
  have hr2 : 1 / 2 ≤ rho ^ 2 := by linarith [sq_nonneg (m.e4)]
  have hr1 : rho ≤ 1 := by
    by_contra hh
    push_neg at hh
    linarith [sq_nonneg (m.e1), mul_pos (sub_pos.mpr hh) hrho]
  have hr3 : 2 / 3 ≤ rho := by
    by_contra hh
    push_neg at hh
    linarith [mul_pos (sub_pos.mpr hh) hrho]
  have key : rho * RotationMatrix.distSq R m
      = 6 * rho - 2 * ((c * m.e4 + (-m.e7) ^ 2) * (rho + 1) + rho ^ 2) := by
    simp only [RotationMatrix.distSq, h0, h1, h2, h3, h4, h5, h6, h7, h8]
    have c00 := rel.c00
    have c11 := rel.c11
    have c22 := rel.c22
    have r11 := rel.r11
    have k0 := rel.k0
    have k2 := rel.k2
    have k4 := rel.k4
    linear_combination (-2 * c * m.e8 - 2 * m.e0 + 2 * m.e5 * m.e7) * hA + (-2 * c * m.e6
      + 2 * m.e2 + 2 * m.e3 * m.e7) * hB + (c ^ 2 * rho + m.e7 ^ 2 * rho + rho) * hab
      + 2 * rho * hc2 + 2 * hrho2 + (-4 + rho) * c00 + rho * c11 + rho * c22 + 2 * r11
      + 2 * m.e0 * k0 + 2 * m.e2 * k2 + (2 * c - 2 * m.e4) * k4
  have hmul : (1 - 2 * c ^ 2) * (rho + 1) ≤ (c * m.e4 + (-m.e7) ^ 2) * (rho + 1) := by
    apply mul_le_mul_of_nonneg_right _ (by linarith)
    linarith
  have hfin : rho * RotationMatrix.distSq R m ≤ rho * (10 * c ^ 2) := by
    rw [key]
    linarith [sq_nonneg (1 - rho), mul_nonneg (sq_nonneg c) (sub_nonneg.mpr hr3)]
  exact le_of_mul_le_mul_left hfin hrho

/-- Order YZX, locked branch, the algebra: a matrix `R` with the entries that
`toRotationMatrix` computes from the extracted angles (the last angle being zero) is within
squared entrywise distance `10 c²` of the proper rotation matrix `m`, where `c` is the
cosine of the middle angle and `(cy, sy)` are the cosine and sine of the first angle. -/
theorem RotationMatrix.Relations.locked_distSq_YZX {m : RotationMatrix ℝ} (rel : m.Relations)
    {R : RotationMatrix ℝ} {c rho cy sy : ℝ}
    (hc2 : c ^ 2 = 1 - (m.e1) ^ 2) (hcs : c ^ 2 ≤ 1 / 2)
    (hrho : 0 < rho) (hrho2 : rho ^ 2 = 1 - (m.e7) ^ 2)
    (hA : rho * cy = m.e8) (hB : rho * sy = m.e6)
    (hab : sy ^ 2 + cy ^ 2 = 1)
    (h0 : R.e0 = c * cy)
    (h1 : R.e1 = m.e1)
    (h2 : R.e2 = -c * sy)
    (h3 : R.e3 = -cy * m.e1)
    (h4 : R.e4 = c)
    (h5 : R.e5 = m.e1 * sy)
    (h6 : R.e6 = sy)
    (h7 : R.e7 = 0)
    (h8 : R.e8 = cy) :
    RotationMatrix.distSq R m ≤ 10 * c ^ 2 := by
  have hrow := rel.r11
  have ha : -(c ^ 2) ≤ c * m.e4 := by
    linarith [sq_nonneg (c + m.e4), sq_nonneg (m.e7)]
  have hr2 : 1 / 2 ≤ rho ^ 2 := by linarith [sq_nonneg (m.e4)]
  have hr1 : rho ≤ 1 := by
    by_contra hh
    push_neg at hh
    linarith [sq_nonneg (m.e7), mul_pos (sub_pos.mpr hh) hrho]
  have hr3 : 2 / 3 ≤ rho := by
    by_contra hh
    push_neg at hh
    linarith [mul_pos (sub_pos.mpr hh) hrho]
  have key : rho * RotationMatrix.distSq R m
      = 6 * rho - 2 * ((c * m.e4 + m.e1 ^ 2) * (rho + 1) + rho ^ 2) := by
    simp only [RotationMatrix.distSq, h0, h1, h2, h3, h4, h5, h6, h7, h8]
    have c00 := rel.c00
    have c11 := rel.c11
    have c22 := rel.c22
    have k1 := rel.k1
    have k4 := rel.k4
    linear_combination (-2 * c * m.e0 + 2 * m.e1 * m.e3 - 2 * m.e8) * hA + (2 * c * m.e2
      - 2 * m.e1 * m.e5 - 2 * m.e6) * hB + (c ^ 2 * rho + m.e1 ^ 2 * rho + rho) * hab
      + 2 * rho * hc2 + 2 * hrho2 + rho * c00 + rho * c11 + (-2 + rho) * c22 + 2 * m.e1 * k1
      + 2 * c * k4
  have hmul : (1 - 2 * c ^ 2) * (rho + 1) ≤ (c * m.e4 + m.e1 ^ 2) * (rho + 1) := by
    apply mul_le_mul_of_nonneg_right _ (by linarith)
    linarith
  have hfin : rho * RotationMatrix.distSq R m ≤ rho * (10 * c ^ 2) := by
    rw [key]
    linarith [sq_nonneg (1 - rho), mul_nonneg (sq_nonneg c) (sub_nonneg.mpr hr3)]
  exact le_of_mul_le_mul_left hfin hrho

/-- Order ZXY, locked branch, the algebra: a matrix `R` with the entries that
`toRotationMatrix` computes from the extracted angles (the last angle being zero) is within
squared entrywise distance `10 c²` of the proper rotation matrix `m`, where `c` is the
cosine of the middle angle and `(cz, sz)` are the cosine and sine of the first angle. -/
theorem RotationMatrix.Relations.locked_distSq_ZXY {m : RotationMatrix ℝ} (rel : m.Relations)
    {R : RotationMatrix ℝ} {c rho cz sz : ℝ}
    (hc2 : c ^ 2 = 1 - (m.e5) ^ 2) (hcs : c ^ 2 ≤ 1 / 2)
    (hrho : 0 < rho) (hrho2 : rho ^ 2 = 1 - (m.e2) ^ 2)
    (hA : rho * cz = m.e0) (hB : rho * sz = m.e1)
    (hab : sz ^ 2 + cz ^ 2 = 1)
    (h0 : R.e0 = cz)
    (h1 : R.e1 = sz)
    (h2 : R.e2 = 0)
    (h3 : R.e3 = -c * sz)
    (h4 : R.e4 = c * cz)
    (h5 : R.e5 = m.e5)
    (h6 : R.e6 = m.e5 * sz)
    (h7 : R.e7 = -cz * m.e5)
    (h8 : R.e8 = c) :
    RotationMatrix.distSq R m ≤ 10 * c ^ 2 := by
  have hrow := rel.r22
  have ha : -(c ^ 2) ≤ c * m.e8 := by
    linarith [sq_nonneg (c + m.e8), sq_nonneg (m.e2)]
  have hr2 : 1 / 2 ≤ rho ^ 2 := by linarith [sq_nonneg (m.e8)]
  have hr1 : rho ≤ 1 := by
    by_contra hh
    push_neg at hh
    linarith [sq_nonneg (m.e2), mul_pos (sub_pos.mpr hh) hrho]
  have hr3 : 2 / 3 ≤ rho := by
    by_contra hh
    push_neg at hh
    linarith [mul_pos (sub_pos.mpr hh) hrho]
  have key : rho * RotationMatrix.distSq R m
      = 6 * rho - 2 * ((c * m.e8 + m.e5 ^ 2) * (rho + 1) + rho ^ 2) := by
    simp only [RotationMatrix.distSq, h0, h1, h2, h3, h4, h5, h6, h7, h8]
    have c00 := rel.c00
    have c11 := rel.c11
    have c22 := rel.c22
    have k0 := rel.k0
    have k1 := rel.k1
    have k2 := rel.k2
    have k3 := rel.k3
    have k4 := rel.k4
    have k8 := rel.k8
    linear_combination (-2 * c * m.e4 - 2 * m.e0 + 2 * m.e5 * m.e7) * hA + (2 * c * m.e3
      - 2 * m.e1 - 2 * m.e5 * m.e6) * hB + (c ^ 2 * rho + m.e5 ^ 2 * rho + rho) * hab
      + 2 * rho * hc2 + 2 * hrho2 + (-4 + rho) * c00 + (2 + rho) * c11 + rho * c22
      + 2 * m.e0 * k0 + 2 * m.e1 * k1 + 2 * m.e2 * k2 - 2 * m.e3 * k3 - 2 * m.e4 * k4 + 2 * c * k8
  have hmul : (1 - 2 * c ^ 2) * (rho + 1) ≤ (c * m.e8 + m.e5 ^ 2) * (rho + 1) := by
    apply mul_le_mul_of_nonneg_right _ (by linarith)
    linarith
  have hfin : rho * RotationMatrix.distSq R m ≤ rho * (10 * c ^ 2) := by
    rw [key]
    linarith [sq_nonneg (1 - rho), mul_nonneg (sq_nonneg c) (sub_nonneg.mpr hr3)]
  exact le_of_mul_le_mul_left hfin hrho

/-- Order ZYX, locked branch, the algebra: a matrix `R` with the entries that
`toRotationMatrix` computes from the extracted angles (the last angle being zero) is within
squared entrywise distance `10 c²` of the proper rotation matrix `m`, where `c` is the
cosine of the middle angle and `(cz, sz)` are the cosine and sine of the first angle. -/
theorem RotationMatrix.Relations.locked_distSq_ZYX {m : RotationMatrix ℝ} (rel : m.Relations)
    {R : RotationMatrix ℝ} {c rho cz sz : ℝ}
    (hc2 : c ^ 2 = 1 - (-m.e2) ^ 2) (hcs : c ^ 2 ≤ 1 / 2)
    (hrho : 0 < rho) (hrho2 : rho ^ 2 = 1 - (m.e5) ^ 2)
    (hA : rho * cz = m.e4) (hB : rho * sz = -m.e3)
    (hab : sz ^ 2 + cz ^ 2 = 1)
    (h0 : R.e0 = c * cz)
    (h1 : R.e1 = c * sz)
    (h2 : R.e2 = m.e2)
    (h3 : R.e3 = -sz)
    (h4 : R.e4 = cz)
    (h5 : R.e5 = 0)
    (h6 : R.e6 = -cz * m.e2)
    (h7 : R.e7 = -m.e2 * sz)
    (h8 : R.e8 = c) :
    RotationMatrix.distSq R m ≤ 10 * c ^ 2 := by
  have hrow := rel.r22
  have ha : -(c ^ 2) ≤ c * m.e8 := by
    linarith [sq_nonneg (c + m.e8), sq_nonneg (m.e5)]
  have hr2 : 1 / 2 ≤ rho ^ 2 := by linarith [sq_nonneg (m.e8)]
  have hr1 : rho ≤ 1 := by
    by_contra hh
    push_neg at hh
    linarith [sq_nonneg (m.e5), mul_pos (sub_pos.mpr hh) hrho]
  have hr3 : 2 / 3 ≤ rho := by
    by_contra hh
    push_neg at hh
    linarith [mul_pos (sub_pos.mpr hh) hrho]
  have key : rho * RotationMatrix.distSq R m
      = 6 * rho - 2 * ((c * m.e8 + (-m.e2) ^ 2) * (rho + 1) + rho ^ 2) := by
    simp only [RotationMatrix.distSq, h0, h1, h2, h3, h4, h5, h6, h7, h8]
    have c00 := rel.c00
    have c11 := rel.c11
    have c22 := rel.c22
    have k2 := rel.k2
    have k8 := rel.k8
    linear_combination (-2 * c * m.e0 + 2 * m.e2 * m.e6 - 2 * m.e4) * hA + (-2 * c * m.e1
      + 2 * m.e2 * m.e7 + 2 * m.e3) * hB + (c ^ 2 * rho + m.e2 ^ 2 * rho + rho) * hab
      + 2 * rho * hc2 + 2 * hrho2 + rho * c00 + (-2 + rho) * c11 + rho * c22 + 2 * m.e2 * k2
      + 2 * c * k8
  have hmul : (1 - 2 * c ^ 2) * (rho + 1) ≤ (c * m.e8 + (-m.e2) ^ 2) * (rho + 1) := by
    apply mul_le_mul_of_nonneg_right _ (by linarith)
    linarith
  have hfin : rho * RotationMatrix.distSq R m ≤ rho * (10 * c ^ 2) := by
    rw [key]
    linarith [sq_nonneg (1 - rho), mul_nonneg (sq_nonneg c) (sub_nonneg.mpr hr3)]
  exact le_of_mul_le_mul_left hfin hrho

end LockedAlgebra

section LockedMain

/-- The real `asin` on an argument of magnitude at most one: the cosine of the angle is
the root `c` of `1 - s²` and its sine is `s`. -/
theorem arcsin_spec_le {s : ℝ} (hs : s ^ 2 ≤ 1) :
    Real.sqrt (1 - s ^ 2) ^ 2 = 1 - s ^ 2 ∧
      Real.cos (Real.arcsin s) = Real.sqrt (1 - s ^ 2) ∧ Real.sin (Real.arcsin s) = s := by
  obtain ⟨h1, h2⟩ := abs_le.mp ((sq_le_one_iff_abs_le_one s).mp hs)
  exact ⟨Real.sq_sqrt (by linarith), Real.cos_arcsin s, Real.sin_arcsin h1 h2⟩

/-- In the locked branch the square of the `asin` argument is at least the square of the
bound `0.99999f`. -/
theorem sq_ge_of_locked {s : ℝ} (hl : 2097131 / 2097152 ≤ |s|) :
    (2097131 / 2097152 : ℝ) ^ 2 ≤ s ^ 2 := by
  rw [← sq_abs s]
  exact pow_le_pow_left₀ (by norm_num) hl 2

/-- Order XYZ: in the locked branch the matrix rebuilt from the extracted angles is within
squared entrywise distance `10 (1 - s²)` of the proper rotation matrix that was given, `s`
being the value handed to `asin`. -/
theorem RotationMatrix.IsProper.toEulerAngle_locked_XYZ {M : CMath ℝ} (hM : M.IsReal)
    {m : RotationMatrix ℝ} (h : m.IsProper)
    (hl : 2097131 / 2097152 ≤ |m.asinArg EulerOrder.XYZ|) :
    ∃ e R, m.toEulerAngle M EulerOrder.XYZ = .ok e ∧ e.toRotationMatrix M = .ok R ∧
      RotationMatrix.distSq R m ≤ 10 * (1 - (m.asinArg EulerOrder.XYZ) ^ 2) := by
  have rel := h.relations
  obtain ⟨hsin, hcos, hasin, hatan, -⟩ := hM
  simp +decide only [RotationMatrix.asinArg, if_true, if_false, RotationMatrix.at_0_0,
    RotationMatrix.at_1_0, RotationMatrix.at_2_0,
    RotationMatrix.at_0_1, RotationMatrix.at_1_1, RotationMatrix.at_2_1, RotationMatrix.at_0_2,
    RotationMatrix.at_1_2, RotationMatrix.at_2_2] at hl ⊢
  have hrow := rel.r00
  have hcol := rel.c11
  have hge := sq_ge_of_locked hl
  obtain ⟨hc2, hc, hs⟩ := arcsin_spec_le (s := m.e6)
    (by linarith [sq_nonneg (m.e0), sq_nonneg (m.e3)])
  have hcs : Real.sqrt (1 - (m.e6) ^ 2) ^ 2 ≤ 1 / 2 := by
    rw [hc2]
    norm_num at hge
    linarith
  have hpos : 0 < 1 - (m.e3) ^ 2 := by linarith [sq_nonneg (m.e0)]
  have hrho := Real.sqrt_pos.mpr hpos
  have hrho2 := Real.sq_sqrt hpos.le
  obtain ⟨hA, hB⟩ := atan2_spec (x := m.e4) (y := m.e5) hrho (by linear_combination hcol - hrho2)
  have hab := Real.sin_sq_add_cos_sq (Complex.arg ⟨m.e4, m.e5⟩)
  refine ⟨_, _, rfl, rfl, ?_⟩
  refine (rel.locked_distSq_XYZ hc2 hcs hrho hrho2 hA hB hab
    ?_ ?_ ?_ ?_ ?_ ?_ ?_ ?_ ?_).trans (le_of_eq (by rw [hc2])) <;>
  simp only [RotationMatrix.at_0_0, RotationMatrix.at_1_0, RotationMatrix.at_2_0,
    RotationMatrix.at_0_1, RotationMatrix.at_1_1, RotationMatrix.at_2_1, RotationMatrix.at_0_2,
    RotationMatrix.at_1_2, RotationMatrix.at_2_2, decide_eq_false (not_lt.mpr hl),
      Bool.false_eq_true, if_false, hsin,
    hcos, hasin, hatan, hc, hs, Real.cos_zero, Real.sin_zero] <;>
  ring

/-- Order XZY: in the locked branch the matrix rebuilt from the extracted angles is within
squared entrywise distance `10 (1 - s²)` of the proper rotation matrix that was given, `s`
being the value handed to `asin`. -/
theorem RotationMatrix.IsProper.toEulerAngle_locked_XZY {M : CMath ℝ} (hM : M.IsReal)
    {m : RotationMatrix ℝ} (h : m.IsProper)
    (hl : 2097131 / 2097152 ≤ |m.asinArg EulerOrder.XZY|) :
    ∃ e R, m.toEulerAngle M EulerOrder.XZY = .ok e ∧ e.toRotationMatrix M = .ok R ∧
      RotationMatrix.distSq R m ≤ 10 * (1 - (m.asinArg EulerOrder.XZY) ^ 2) := by
  have rel := h.relations
  obtain ⟨hsin, hcos, hasin, hatan, -⟩ := hM
  simp +decide only [RotationMatrix.asinArg, if_true, if_false, RotationMatrix.at_0_0,
    RotationMatrix.at_1_0, RotationMatrix.at_2_0,
    RotationMatrix.at_0_1, RotationMatrix.at_1_1, RotationMatrix.at_2_1, RotationMatrix.at_0_2,
    RotationMatrix.at_1_2, RotationMatrix.at_2_2] at hl ⊢
  have hrow := rel.r00
  have hcol := rel.c22
  have hge := sq_ge_of_locked hl
  obtain ⟨hc2, hc, hs⟩ := arcsin_spec_le (s := -m.e3)
    (by linarith [sq_nonneg (m.e0), sq_nonneg (m.e6)])
  have hcs : Real.sqrt (1 - (-m.e3) ^ 2) ^ 2 ≤ 1 / 2 := by
    rw [hc2]
    norm_num at hge
    linarith
  have hpos : 0 < 1 - (m.e6) ^ 2 := by linarith [sq_nonneg (m.e0)]
  have hrho := Real.sqrt_pos.mpr hpos
  have hrho2 := Real.sq_sqrt hpos.le
  obtain ⟨hA, hB⟩ := atan2_spec (x := m.e8) (y := -m.e7) hrho (by linear_combination hcol - hrho2)
  have hab := Real.sin_sq_add_cos_sq (Complex.arg ⟨m.e8, -m.e7⟩)
  refine ⟨_, _, rfl, rfl, ?_⟩
  refine (rel.locked_distSq_XZY hc2 hcs hrho hrho2 hA hB hab
    ?_ ?_ ?_ ?_ ?_ ?_ ?_ ?_ ?_).trans (le_of_eq (by rw [hc2])) <;>
  simp only [RotationMatrix.at_0_0, RotationMatrix.at_1_0, RotationMatrix.at_2_0,
    RotationMatrix.at_0_1, RotationMatrix.at_1_1, RotationMatrix.at_2_1, RotationMatrix.at_0_2,
    RotationMatrix.at_1_2, RotationMatrix.at_2_2, decide_eq_false (not_lt.mpr hl),
      Bool.false_eq_true, if_false, hsin,
    hcos, hasin, hatan, hc, hs, Real.cos_zero, Real.sin_zero] <;>
  ring

/-- Order YXZ: in the locked branch the matrix rebuilt from the extracted angles is within
squared entrywise distance `10 (1 - s²)` of the proper rotation matrix that was given, `s`
being the value handed to `asin`. -/
theorem RotationMatrix.IsProper.toEulerAngle_locked_YXZ {M : CMath ℝ} (hM : M.IsReal)
    {m : RotationMatrix ℝ} (h : m.IsProper)
    (hl : 2097131 / 2097152 ≤ |m.asinArg EulerOrder.YXZ|) :
    ∃ e R, m.toEulerAngle M EulerOrder.YXZ = .ok e ∧ e.toRotationMatrix M = .ok R ∧
      RotationMatrix.distSq R m ≤ 10 * (1 - (m.asinArg EulerOrder.YXZ) ^ 2) := by
  have rel := h.relations
  obtain ⟨hsin, hcos, hasin, hatan, -⟩ := hM
  simp +decide only [RotationMatrix.asinArg, if_true, if_false, RotationMatrix.at_0_0,
    RotationMatrix.at_1_0, RotationMatrix.at_2_0,
    RotationMatrix.at_0_1, RotationMatrix.at_1_1, RotationMatrix.at_2_1, RotationMatrix.at_0_2,
    RotationMatrix.at_1_2, RotationMatrix.at_2_2] at hl ⊢
  have hrow := rel.r11
  have hcol := rel.c00
  have hge := sq_ge_of_locked hl
  obtain ⟨hc2, hc, hs⟩ := arcsin_spec_le (s := -m.e7)
    (by linarith [sq_nonneg (m.e4), sq_nonneg (m.e1)])
  have hcs : Real.sqrt (1 - (-m.e7) ^ 2) ^ 2 ≤ 1 / 2 := by
    rw [hc2]
    norm_num at hge
    linarith
  have hpos : 0 < 1 - (m.e1) ^ 2 := by linarith [sq_nonneg (m.e4)]
  have hrho := Real.sqrt_pos.mpr hpos
  have hrho2 := Real.sq_sqrt hpos.le
  obtain ⟨hA, hB⟩ := atan2_spec (x := m.e0) (y := -m.e2) hrho (by linear_combination hcol - hrho2)
  have hab := Real.sin_sq_add_cos_sq (Complex.arg ⟨m.e0, -m.e2⟩)
  refine ⟨_, _, rfl, rfl, ?_⟩
  refine (rel.locked_distSq_YXZ hc2 hcs hrho hrho2 hA hB hab
    ?_ ?_ ?_ ?_ ?_ ?_ ?_ ?_ ?_).trans (le_of_eq (by rw [hc2])) <;>
  simp only [RotationMatrix.at_0_0, RotationMatrix.at_1_0, RotationMatrix.at_2_0,
    RotationMatrix.at_0_1, RotationMatrix.at_1_1, RotationMatrix.at_2_1, RotationMatrix.at_0_2,
    RotationMatrix.at_1_2, RotationMatrix.at_2_2, decide_eq_false (not_lt.mpr hl),
      Bool.false_eq_true, if_false, hsin,
    hcos, hasin, hatan, hc, hs, Real.cos_zero, Real.sin_zero] <;>
  ring

/-- Order YZX: in the locked branch the matrix rebuilt from the extracted angles is within
squared entrywise distance `10 (1 - s²)` of the proper rotation matrix that was given, `s`
being the value handed to `asin`. -/
theorem RotationMatrix.IsProper.toEulerAngle_locked_YZX {M : CMath ℝ} (hM : M.IsReal)
    {m : RotationMatrix ℝ} (h : m.IsProper)
    (hl : 2097131 / 2097152 ≤ |m.asinArg EulerOrder.YZX|) :
    ∃ e R, m.toEulerAngle M EulerOrder.YZX = .ok e ∧ e.toRotationMatrix M = .ok R ∧
      RotationMatrix.distSq R m ≤ 10 * (1 - (m.asinArg EulerOrder.YZX) ^ 2) := by
  have rel := h.relations
  obtain ⟨hsin, hcos, hasin, hatan, -⟩ := hM
  simp +decide only [RotationMatrix.asinArg, if_true, if_false, RotationMatrix.at_0_0,
    RotationMatrix.at_1_0, RotationMatrix.at_2_0,
    RotationMatrix.at_0_1, RotationMatrix.at_1_1, RotationMatrix.at_2_1, RotationMatrix.at_0_2,
    RotationMatrix.at_1_2, RotationMatrix.at_2_2] at hl ⊢
  have hrow := rel.r11
  have hcol := rel.c22
  have hge := sq_ge_of_locked hl
  obtain ⟨hc2, hc, hs⟩ := arcsin_spec_le (s := m.e1)
    (by linarith [sq_nonneg (m.e4), sq_nonneg (m.e7)])
  have hcs : Real.sqrt (1 - (m.e1) ^ 2) ^ 2 ≤ 1 / 2 := by
    rw [hc2]
    norm_num at hge
    linarith
  have hpos : 0 < 1 - (m.e7) ^ 2 := by linarith [sq_nonneg (m.e4)]
  have hrho := Real.sqrt_pos.mpr hpos
  have hrho2 := Real.sq_sqrt hpos.le
  obtain ⟨hA, hB⟩ := atan2_spec (x := m.e8) (y := m.e6) hrho (by linear_combination hcol - hrho2)
  have hab := Real.sin_sq_add_cos_sq (Complex.arg ⟨m.e8, m.e6⟩)
  refine ⟨_, _, rfl, rfl, ?_⟩
  refine (rel.locked_distSq_YZX hc2 hcs hrho hrho2 hA hB hab
    ?_ ?_ ?_ ?_ ?_ ?_ ?_ ?_ ?_).trans (le_of_eq (by rw [hc2])) <;>
  simp only [RotationMatrix.at_0_0, RotationMatrix.at_1_0, RotationMatrix.at_2_0,
    RotationMatrix.at_0_1, RotationMatrix.at_1_1, RotationMatrix.at_2_1, RotationMatrix.at_0_2,
    RotationMatrix.at_1_2, RotationMatrix.at_2_2, decide_eq_false (not_lt.mpr hl),
      Bool.false_eq_true, if_false, hsin,
    hcos, hasin, hatan, hc, hs, Real.cos_zero, Real.sin_zero] <;>
  ring

/-- Order ZXY: in the locked branch the matrix rebuilt from the extracted angles is within
squared entrywise distance `10 (1 - s²)` of the proper rotation matrix that was given, `s`
being the value handed to `asin`. -/
theorem RotationMatrix.IsProper.toEulerAngle_locked_ZXY {M : CMath ℝ} (hM : M.IsReal)
    {m : RotationMatrix ℝ} (h : m.IsProper)
    (hl : 2097131 / 2097152 ≤ |m.asinArg EulerOrder.ZXY|) :
    ∃ e R, m.toEulerAngle M EulerOrder.ZXY = .ok e ∧ e.toRotationMatrix M = .ok R ∧
      RotationMatrix.distSq R m ≤ 10 * (1 - (m.asinArg EulerOrder.ZXY) ^ 2) := by
  have rel := h.relations
  obtain ⟨hsin, hcos, hasin, hatan, -⟩ := hM
  simp +decide only [RotationMatrix.asinArg, if_true, if_false, RotationMatrix.at_0_0,
    RotationMatrix.at_1_0, RotationMatrix.at_2_0,
    RotationMatrix.at_0_1, RotationMatrix.at_1_1, RotationMatrix.at_2_1, RotationMatrix.at_0_2,
    RotationMatrix.at_1_2, RotationMatrix.at_2_2] at hl ⊢
  have hrow := rel.r22
  have hcol := rel.c00
  have hge := sq_ge_of_locked hl
  obtain ⟨hc2, hc, hs⟩ := arcsin_spec_le (s := m.e5)
    (by linarith [sq_nonneg (m.e8), sq_nonneg (m.e2)])
  have hcs : Real.sqrt (1 - (m.e5) ^ 2) ^ 2 ≤ 1 / 2 := by
    rw [hc2]
    norm_num at hge
    linarith
  have hpos : 0 < 1 - (m.e2) ^ 2 := by linarith [sq_nonneg (m.e8)]
  have hrho := Real.sqrt_pos.mpr hpos
  have hrho2 := Real.sq_sqrt hpos.le
  obtain ⟨hA, hB⟩ := atan2_spec (x := m.e0) (y := m.e1) hrho (by linear_combination hcol - hrho2)
  have hab := Real.sin_sq_add_cos_sq (Complex.arg ⟨m.e0, m.e1⟩)
  refine ⟨_, _, rfl, rfl, ?_⟩
  refine (rel.locked_distSq_ZXY hc2 hcs hrho hrho2 hA hB hab
    ?_ ?_ ?_ ?_ ?_ ?_ ?_ ?_ ?_).trans (le_of_eq (by rw [hc2])) <;>
  simp only [RotationMatrix.at_0_0, RotationMatrix.at_1_0, RotationMatrix.at_2_0,
    RotationMatrix.at_0_1, RotationMatrix.at_1_1, RotationMatrix.at_2_1, RotationMatrix.at_0_2,
    RotationMatrix.at_1_2, RotationMatrix.at_2_2, decide_eq_false (not_lt.mpr hl),
      Bool.false_eq_true, if_false, hsin,
    hcos, hasin, hatan, hc, hs, Real.cos_zero, Real.sin_zero] <;>
  ring

/-- Order ZYX: in the locked branch the matrix rebuilt from the extracted angles is within
squared entrywise distance `10 (1 - s²)` of the proper rotation matrix that was given, `s`
being the value handed to `asin`. -/
theorem RotationMatrix.IsProper.toEulerAngle_locked_ZYX {M : CMath ℝ} (hM : M.IsReal)
    {m : RotationMatrix ℝ} (h : m.IsProper)
    (hl : 2097131 / 2097152 ≤ |m.asinArg EulerOrder.ZYX|) :
    ∃ e R, m.toEulerAngle M EulerOrder.ZYX = .ok e ∧ e.toRotationMatrix M = .ok R ∧
      RotationMatrix.distSq R m ≤ 10 * (1 - (m.asinArg EulerOrder.ZYX) ^ 2) := by
  have rel := h.relations
  obtain ⟨hsin, hcos, hasin, hatan, -⟩ := hM
  simp +decide only [RotationMatrix.asinArg, if_true, if_false, RotationMatrix.at_0_0,
    RotationMatrix.at_1_0, RotationMatrix.at_2_0,
    RotationMatrix.at_0_1, RotationMatrix.at_1_1, RotationMatrix.at_2_1, RotationMatrix.at_0_2,
    RotationMatrix.at_1_2, RotationMatrix.at_2_2] at hl ⊢
  have hrow := rel.r22
  have hcol := rel.c11
  have hge := sq_ge_of_locked hl
  obtain ⟨hc2, hc, hs⟩ := arcsin_spec_le (s := -m.e2)
    (by linarith [sq_nonneg (m.e8), sq_nonneg (m.e5)])
  have hcs : Real.sqrt (1 - (-m.e2) ^ 2) ^ 2 ≤ 1 / 2 := by
    rw [hc2]
    norm_num at hge
    linarith
  have hpos : 0 < 1 - (m.e5) ^ 2 := by linarith [sq_nonneg (m.e8)]
  have hrho := Real.sqrt_pos.mpr hpos
  have hrho2 := Real.sq_sqrt hpos.le
  obtain ⟨hA, hB⟩ := atan2_spec (x := m.e4) (y := -m.e3) hrho (by linear_combination hcol - hrho2)
  have hab := Real.sin_sq_add_cos_sq (Complex.arg ⟨m.e4, -m.e3⟩)
  refine ⟨_, _, rfl, rfl, ?_⟩
  refine (rel.locked_distSq_ZYX hc2 hcs hrho hrho2 hA hB hab
    ?_ ?_ ?_ ?_ ?_ ?_ ?_ ?_ ?_).trans (le_of_eq (by rw [hc2])) <;>
  simp only [RotationMatrix.at_0_0, RotationMatrix.at_1_0, RotationMatrix.at_2_0,
    RotationMatrix.at_0_1, RotationMatrix.at_1_1, RotationMatrix.at_2_1, RotationMatrix.at_0_2,
    RotationMatrix.at_1_2, RotationMatrix.at_2_2, decide_eq_false (not_lt.mpr hl),
      Bool.false_eq_true, if_false, hsin,
    hcos, hasin, hatan, hc, hs, Real.cos_zero, Real.sin_zero] <;>
  ring

/-- Every order: in the locked branch the matrix rebuilt from the extracted angles is
within squared entrywise distance `10 (1 - s²)` of the proper rotation matrix that was
given, `s` being the value handed to `asin`. -/
theorem RotationMatrix.IsProper.toEulerAngle_locked_distSq {M : CMath ℝ} (hM : M.IsReal)
    {m : RotationMatrix ℝ} (h : m.IsProper) {order : EulerOrder}
    (ho : order ∈ EulerOrder.all) (hl : 2097131 / 2097152 ≤ |m.asinArg order|) :
    ∃ e R, m.toEulerAngle M order = .ok e ∧ e.toRotationMatrix M = .ok R ∧
      RotationMatrix.distSq R m ≤ 10 * (1 - (m.asinArg order) ^ 2) := by
  rcases EulerOrder.mem_all ho with ho | ho | ho | ho | ho | ho <;> subst ho
  · exact h.toEulerAngle_locked_XYZ hM hl
  · exact h.toEulerAngle_locked_XZY hM hl
  · exact h.toEulerAngle_locked_YXZ hM hl
  · exact h.toEulerAngle_locked_YZX hM hl
  · exact h.toEulerAngle_locked_ZXY hM hl
  · exact h.toEulerAngle_locked_ZYX hM hl

end LockedMain

section Distance

/-- Two matrices at squared entrywise distance zero are equal. -/
theorem RotationMatrix.eq_of_distSq_le_zero {a b : RotationMatrix ℝ}
    (h : RotationMatrix.distSq a b ≤ 0) : a = b := by
  rw [RotationMatrix.distSq] at h
  have s0 := sq_nonneg (a.e0 - b.e0)
  have s1 := sq_nonneg (a.e1 - b.e1)
  have s2 := sq_nonneg (a.e2 - b.e2)
  have s3 := sq_nonneg (a.e3 - b.e3)
  have s4 := sq_nonneg (a.e4 - b.e4)
  have s5 := sq_nonneg (a.e5 - b.e5)
  have s6 := sq_nonneg (a.e6 - b.e6)
  have s7 := sq_nonneg (a.e7 - b.e7)
  have s8 := sq_nonneg (a.e8 - b.e8)
  ext <;> apply sub_eq_zero.mp <;> apply pow_eq_zero_iff (two_ne_zero) |>.mp <;> linarith

/-- Every entry of two matrices differs by less than the root of a bound on their squared
entrywise distance. -/
theorem RotationMatrix.abs_sub_lt_of_distSq_lt {a b : RotationMatrix ℝ} {t : ℝ} (ht : 0 ≤ t)
    (h : RotationMatrix.distSq a b < t ^ 2) :
    |a.e0 - b.e0| < t ∧ |a.e1 - b.e1| < t ∧ |a.e2 - b.e2| < t ∧ |a.e3 - b.e3| < t ∧
      |a.e4 - b.e4| < t ∧ |a.e5 - b.e5| < t ∧ |a.e6 - b.e6| < t ∧ |a.e7 - b.e7| < t ∧
      |a.e8 - b.e8| < t := by
  rw [RotationMatrix.distSq] at h
  have s0 := sq_nonneg (a.e0 - b.e0)
  have s1 := sq_nonneg (a.e1 - b.e1)
  have s2 := sq_nonneg (a.e2 - b.e2)
  have s3 := sq_nonneg (a.e3 - b.e3)
  have s4 := sq_nonneg (a.e4 - b.e4)
  have s5 := sq_nonneg (a.e5 - b.e5)
  have s6 := sq_nonneg (a.e6 - b.e6)
  have s7 := sq_nonneg (a.e7 - b.e7)
  have s8 := sq_nonneg (a.e8 - b.e8)
  refine ⟨?_, ?_, ?_, ?_, ?_, ?_, ?_, ?_, ?_⟩ <;>
    exact abs_lt_of_sq_lt_sq (by linarith) ht

/-- The test comparison `equals` succeeds on the images of the zero vector and of the three
basis vectors under two matrices whose squared entrywise distance is below the square of
the tolerance. -/
theorem equals_mulVec_of_distSq_lt {a b : RotationMatrix ℝ} {t : ℝ} (ht : 0 < t)
    (h : RotationMatrix.distSq a b < t ^ 2) (v : Vector3 ℝ)
    (hv : v ∈ [(⟨0, 0, 0⟩ : Vector3 ℝ), ⟨1, 0, 0⟩, ⟨0, 1, 0⟩, ⟨0, 0, 1⟩]) :
    equals (a * v) (b * v) t = true := by
  obtain ⟨h0, h1, h2, h3, h4, h5, h6, h7, h8⟩ := RotationMatrix.abs_sub_lt_of_distSq_lt ht.le h
  simp only [List.mem_cons, List.mem_singleton, List.not_mem_nil, or_false] at hv
  rcases hv with hv | hv | hv | hv <;> subst hv <;>
    simp only [equals, RotationMatrix.mulVec_def, RotationMatrix.mulVec, mul_zero, mul_one,
      add_zero, zero_add, sub_self, abs_zero, Bool.and_eq_true, decide_eq_true_eq] <;>
    exact ⟨⟨by assumption, by assumption⟩, by assumption⟩

/-- The squared entrywise distance is symmetric. -/
theorem RotationMatrix.distSq_comm (a b : RotationMatrix ℝ) :
    RotationMatrix.distSq a b = RotationMatrix.distSq b a := by
  simp only [RotationMatrix.distSq]
  ring

/-- In the locked branch the squared entrywise distance of the rebuilt matrix to the given
one is below the square of the test tolerance `0.02`. -/
theorem locked_bound_lt_tolerance {s d : ℝ} (hl : 2097131 / 2097152 ≤ |s|)
    (hd : d ≤ 10 * (1 - s ^ 2)) : d < (2 / 100 : ℝ) ^ 2 := by
  have h := sq_ge_of_locked hl
  norm_num at h ⊢
  linarith

/-- At exact lock the bound on the squared entrywise distance is zero. -/
theorem locked_bound_zero {s d : ℝ} (hl : |s| = 1) (hd : d ≤ 10 * (1 - s ^ 2)) : d ≤ 0 := by
  have h : s ^ 2 = 1 := by rw [← sq_abs, hl]; norm_num
  rw [h] at hd
  linarith

end Distance

/-- C8, amended: for each of the six orders and every rotation (proper rotation matrix `m`
or unit quaternion `q`) whose `asin` argument has magnitude at least `0.99999`, the matrix
rebuilt from the result of `toEulerAngle` (`calculateRotationMatrix`) reproduces the action
of the rotation on `(0,0,0)`, `(1,0,0)`, `(0,1,0)`, `(0,0,1)` to within `0.02` on every
component (the test comparison `equals` succeeds); and when the magnitude is exactly `1` the
rebuilt matrix is the matrix of the rotation, so every vector, the test vectors `(2,3,5)`,
`(-7,11,13)`, `(-17,-19,23)` among them, is reproduced exactly. -/
theorem locked_rebuild_within_tolerance_on_basis (M : CMath ℝ) (hM : M.IsReal)
    (order : EulerOrder) (ho : order ∈ EulerOrder.all) :
    (∀ m : RotationMatrix ℝ, m.IsProper → 99999 / 100000 ≤ |m.asinArg order| →
      ∃ e R, m.toEulerAngle M order = .ok e ∧ calculateRotationMatrix M e = .ok R ∧
        (∀ v ∈ [(⟨0, 0, 0⟩ : Vector3 ℝ), ⟨1, 0, 0⟩, ⟨0, 1, 0⟩, ⟨0, 0, 1⟩],
          equals (m * v) (R * v) (2 / 100) = true) ∧
        (|m.asinArg order| = 1 → R = m)) ∧
    (∀ q : Quaternion ℝ, q.IsUnit → 99999 / 100000 ≤ |q.asinArg order| →
      ∃ e R, q.toEulerAngle M order = .ok e ∧ calculateRotationMatrix M e = .ok R ∧
        (∀ v ∈ [(⟨0, 0, 0⟩ : Vector3 ℝ), ⟨1, 0, 0⟩, ⟨0, 1, 0⟩, ⟨0, 0, 1⟩],
          equals (q.rotate v) (R * v) (2 / 100) = true) ∧
        (|q.asinArg order| = 1 → ∀ v : Vector3 ℝ, R * v = q.rotate v)) := by
  have main : ∀ m : RotationMatrix ℝ, m.IsProper → 99999 / 100000 ≤ |m.asinArg order| →
      ∃ e R, m.toEulerAngle M order = .ok e ∧ calculateRotationMatrix M e = .ok R ∧
        (∀ v ∈ [(⟨0, 0, 0⟩ : Vector3 ℝ), ⟨1, 0, 0⟩, ⟨0, 1, 0⟩, ⟨0, 0, 1⟩],
          equals (m * v) (R * v) (2 / 100) = true) ∧
        (|m.asinArg order| = 1 → R = m) := by
    intro m hm hl0
    have hl : (2097131 / 2097152 : ℝ) ≤ |m.asinArg order| := le_trans (by norm_num) hl0
    obtain ⟨e, R, he, hR, hd⟩ := hm.toEulerAngle_locked_distSq hM ho hl
    refine ⟨e, R, he, calculateRotationMatrix_eq_of_toRotationMatrix hR, ?_, ?_⟩
    · intro v hv
      rw [RotationMatrix.distSq_comm] at hd
      exact equals_mulVec_of_distSq_lt (by norm_num) (locked_bound_lt_tolerance hl hd) v hv
    · intro h1
      exact RotationMatrix.eq_of_distSq_le_zero (locked_bound_zero h1 hd)
  refine ⟨main, ?_⟩
  intro q hq hl
  rw [Quaternion.asinArg_eq_matrix] at hl
  obtain ⟨e, R, he, hR, hv, h1⟩ := main q.toRotationMatrix hq.toRotationMatrix_isProper hl
  refine ⟨e, R, ?_, hR, ?_, ?_⟩
  · rw [Quaternion.toEulerAngle_eq_matrix M q ho, he]
  · intro v hmem
    rw [← Quaternion.toRotationMatrix_mulVec_of_isUnit hq]
    exact hv v hmem
  · intro h v
    rw [Quaternion.asinArg_eq_matrix] at h
    rw [h1 h, Quaternion.toRotationMatrix_mulVec_of_isUnit hq]

/-- Witness of the amended C8 at the real math functions and the order XYZ: the matrix of
the counterexample, with `asin` argument `249999/250001`, is proper and in the locked
branch; the rebuilt matrix reproduces the images of the zero vector and of the three basis
vectors within `0.02`. -/
theorem locked_rebuild_within_tolerance_on_basis_witness :
    ∃ e R,
      (⟨-(1000 / 250001), 0, 249999 / 250001, 0, -1, 0, 249999 / 250001, 0, 1000 / 250001⟩ :
        RotationMatrix ℝ).toEulerAngle
          ⟨Real.sin, Real.cos, Real.arcsin, fun y x => Complex.arg ⟨x, y⟩, Real.sqrt⟩
          EulerOrder.XYZ = .ok e ∧
      calculateRotationMatrix
          ⟨Real.sin, Real.cos, Real.arcsin, fun y x => Complex.arg ⟨x, y⟩, Real.sqrt⟩ e = .ok R ∧
      (∀ v ∈ [(⟨0, 0, 0⟩ : Vector3 ℝ), ⟨1, 0, 0⟩, ⟨0, 1, 0⟩, ⟨0, 0, 1⟩],
        equals
          ((⟨-(1000 / 250001), 0, 249999 / 250001, 0, -1, 0, 249999 / 250001, 0,
            1000 / 250001⟩ : RotationMatrix ℝ) * v) (R * v) (2 / 100) = true) ∧
      (|(⟨-(1000 / 250001), 0, 249999 / 250001, 0, -1, 0, 249999 / 250001, 0,
            1000 / 250001⟩ : RotationMatrix ℝ).asinArg EulerOrder.XYZ| = 1 →
        R = ⟨-(1000 / 250001), 0, 249999 / 250001, 0, -1, 0, 249999 / 250001, 0,
            1000 / 250001⟩) :=
  (locked_rebuild_within_tolerance_on_basis
    ⟨Real.sin, Real.cos, Real.arcsin, fun y x => Complex.arg ⟨x, y⟩, Real.sqrt⟩
    ⟨rfl, rfl, rfl, rfl, rfl⟩ EulerOrder.XYZ (by decide)).1
    ⟨-(1000 / 250001), 0, 249999 / 250001, 0, -1, 0, 249999 / 250001, 0, 1000 / 250001⟩
    (by rw [RotationMatrix.isProper_iff]; norm_num)
    (by
      simp +decide only [RotationMatrix.asinArg, if_true, RotationMatrix.at_0_2]
      rw [abs_of_pos (by norm_num)]
      norm_num)

/-! ## Quaternion algebra: composition and the Hamilton product -/

/-- C11: for all quaternions `q1`, `q2` (unit or not) and every vector `v`,
`(q1 * q2).rotate(v) = q1.rotate(q2.rotate(v))`: the product applies `q2` first, then
`q1`. -/
theorem rotate_mul_eq_rotate_rotate (q1 q2 : Quaternion ℝ) (v : Vector3 ℝ) :
    (q1 * q2).rotate v = q1.rotate (q2.rotate v) :=
  Quaternion.rotate_mul q1 q2 v

section Hamilton

/-- The correspondence with the quaternion algebra turns `operator*` into the
multiplication of the algebra. -/
theorem Quaternion.toHamilton_mul (p q : Quaternion ℝ) :
    (p * q).toHamilton = p.toHamilton * q.toHamilton := by
  simp only [Quaternion.toHamilton, Quaternion.quat_mul_def, Quaternion.mul,
    QuaternionAlgebra.mk_mul_mk]
  congr 1 <;> ring

/-- The correspondence with the quaternion algebra is a bijection. -/
theorem Quaternion.toHamilton_bijective :
    Function.Bijective (Quaternion.toHamilton : Quaternion ℝ → QuaternionAlgebra ℝ (-1) (-1)) := by
  constructor
  · intro p q h
    simp only [Quaternion.toHamilton, QuaternionAlgebra.mk.injEq] at h
    ext
    · exact h.2.1
    · exact h.2.2.1
    · exact h.2.2.2
    · exact h.1
  · intro a
    exact ⟨⟨a.imI, a.imJ, a.imK, a.re⟩, rfl⟩

end Hamilton

/-- C12: `Quaternion::operator*` is the Hamilton product: the correspondence
`(x, y, z, w) ↔ w + x·i + y·j + z·k` is a bijection onto the real quaternion algebra that
turns `operator*` into the multiplication of the algebra; so with `i = (1,0,0,0)`,
`j = (0,1,0,0)`, `k = (0,0,1,0)`: `i*j = k`, `j*k = i`, `k*i = j`,
`i*i = j*j = k*k = (0,0,0,-1)`, and `(0,0,0,1)` is a two-sided identity. -/
theorem mul_is_hamilton_product :
    Function.Bijective (Quaternion.toHamilton : Quaternion ℝ → QuaternionAlgebra ℝ (-1) (-1)) ∧
    (∀ p q : Quaternion ℝ, (p * q).toHamilton = p.toHamilton * q.toHamilton) ∧
    (⟨0, 0, 0, 1⟩ : Quaternion ℝ).toHamilton = 1 ∧
    ((⟨1, 0, 0, 0⟩ : Quaternion ℝ) * ⟨0, 1, 0, 0⟩ = ⟨0, 0, 1, 0⟩) ∧
    ((⟨0, 1, 0, 0⟩ : Quaternion ℝ) * ⟨0, 0, 1, 0⟩ = ⟨1, 0, 0, 0⟩) ∧
    ((⟨0, 0, 1, 0⟩ : Quaternion ℝ) * ⟨1, 0, 0, 0⟩ = ⟨0, 1, 0, 0⟩) ∧
    ((⟨1, 0, 0, 0⟩ : Quaternion ℝ) * ⟨1, 0, 0, 0⟩ = ⟨0, 0, 0, -1⟩) ∧
    ((⟨0, 1, 0, 0⟩ : Quaternion ℝ) * ⟨0, 1, 0, 0⟩ = ⟨0, 0, 0, -1⟩) ∧
    ((⟨0, 0, 1, 0⟩ : Quaternion ℝ) * ⟨0, 0, 1, 0⟩ = ⟨0, 0, 0, -1⟩) ∧
    (∀ q : Quaternion ℝ, (⟨0, 0, 0, 1⟩ : Quaternion ℝ) * q = q ∧ q * ⟨0, 0, 0, 1⟩ = q) := by
  refine ⟨Quaternion.toHamilton_bijective, Quaternion.toHamilton_mul, ?_, ?_, ?_, ?_, ?_, ?_,
    ?_, ?_⟩
  · apply QuaternionAlgebra.ext <;> simp [Quaternion.toHamilton]
  all_goals first
    | (simp only [Quaternion.quat_mul_def, Quaternion.mul]; ext <;> simp)
    | (intro q; constructor <;> simp only [Quaternion.quat_mul_def, Quaternion.mul] <;>
        ext <;> simp)

/-! ## Conjugate, norm and antipodal quaternions -/

section Norms

variable {α : Type} [CommRing α]

/-- The product of a quaternion with its conjugate, on either side, is the squared norm in
the `w` slot. -/
theorem Quaternion.mul_conjugate (q : Quaternion α) :
    q * Quaternion.conjugate q = ⟨0, 0, 0, q.normSq⟩ ∧
      Quaternion.conjugate q * q = ⟨0, 0, 0, q.normSq⟩ := by
  constructor <;>
    simp only [Quaternion.quat_mul_def, Quaternion.mul, Quaternion.conjugate,
      Quaternion.normSq] <;>
    ext <;> simp only <;> ring

/-- Rotating by the conjugate after rotating by `q` multiplies the vector by the square of
the squared norm of `q`. -/
theorem Quaternion.rotate_conjugate_rotate (q : Quaternion α) (v : Vector3 α) :
    (Quaternion.conjugate q).rotate (q.rotate v)
      = ⟨q.normSq ^ 2 * v.x, q.normSq ^ 2 * v.y, q.normSq ^ 2 * v.z⟩ := by
  simp only [Quaternion.rotate, Quaternion.quat_mul_def, Quaternion.mul, Quaternion.conjugate,
    Quaternion.normSq]
  ext <;> simp only <;> ring

/-- The squared length of a rotated vector is the squared length of the vector times the
square of the squared norm of the quaternion. -/
theorem Quaternion.normSq_rotate (q : Quaternion α) (v : Vector3 α) :
    (q.rotate v).normSq = q.normSq ^ 2 * v.normSq := by
  simp only [Quaternion.rotate, Quaternion.quat_mul_def, Quaternion.mul, Quaternion.conjugate,
    Quaternion.normSq, Vector3.normSq]
  ring

/-- A quaternion is a unit quaternion when its squared norm is one. -/
theorem Quaternion.isUnit_iff_normSq (q : Quaternion α) : q.IsUnit ↔ q.normSq = 1 :=
  Iff.rfl

/-- Negating all four components does not change `rotate`. -/
theorem Quaternion.rotate_negate (q : Quaternion α) (v : Vector3 α) :
    q.negate.rotate v = q.rotate v := by
  simp only [Quaternion.rotate, Quaternion.quat_mul_def, Quaternion.mul, Quaternion.conjugate,
    Quaternion.negate]
  ext <;> simp only <;> ring

end Norms

section Negate

variable {α : Type} [LinearOrderedField α]

/-- Negating all four components does not change the matrix of the quaternion. -/
theorem Quaternion.toRotationMatrix_negate (q : Quaternion α) :
    q.negate.toRotationMatrix = q.toRotationMatrix := by
  simp only [Quaternion.toRotationMatrix, Quaternion.negate]
  ext <;> simp only <;> ring

/-- Negating all four components does not change the result of `toEulerAngle`, for any
order tag. -/
theorem Quaternion.toEulerAngle_negate (M : CMath α) (q : Quaternion α) (order : EulerOrder) :
    q.negate.toEulerAngle M order = q.toEulerAngle M order := by
  simp only [Quaternion.toEulerAngle, Quaternion.negate, mul_neg, neg_mul, neg_neg]

end Negate

/-- C13: for every unit quaternion `q`, `q * conjugate(q) = conjugate(q) * q = (0,0,0,1)`,
and `conjugate(q).rotate(q.rotate(v)) = v` for every vector `v`. -/
theorem conjugate_is_inverse_of_unit (q : Quaternion ℝ) (hq : q.IsUnit) :
    q * Quaternion.conjugate q = ⟨0, 0, 0, 1⟩ ∧ Quaternion.conjugate q * q = ⟨0, 0, 0, 1⟩ ∧
      ∀ v : Vector3 ℝ, (Quaternion.conjugate q).rotate (q.rotate v) = v := by
  have h1 : q.normSq = 1 := hq
  obtain ⟨ha, hb⟩ := Quaternion.mul_conjugate q
  refine ⟨by rw [ha, h1], by rw [hb, h1], fun v => ?_⟩
  rw [Quaternion.rotate_conjugate_rotate, h1]
  ext <;> simp

/-- Witness of C13 at the unit quaternion `(1/2, -1/2, 1/2, 1/2)`. -/
theorem conjugate_is_inverse_of_unit_witness :
    (⟨1 / 2, -1 / 2, 1 / 2, 1 / 2⟩ : Quaternion ℝ).IsUnit ∧
    ((⟨1 / 2, -1 / 2, 1 / 2, 1 / 2⟩ : Quaternion ℝ)
        * Quaternion.conjugate ⟨1 / 2, -1 / 2, 1 / 2, 1 / 2⟩ = ⟨0, 0, 0, 1⟩ ∧
      Quaternion.conjugate (⟨1 / 2, -1 / 2, 1 / 2, 1 / 2⟩ : Quaternion ℝ)
        * ⟨1 / 2, -1 / 2, 1 / 2, 1 / 2⟩ = ⟨0, 0, 0, 1⟩ ∧
      ∀ v : Vector3 ℝ, (Quaternion.conjugate (⟨1 / 2, -1 / 2, 1 / 2, 1 / 2⟩ : Quaternion ℝ)).rotate
        ((⟨1 / 2, -1 / 2, 1 / 2, 1 / 2⟩ : Quaternion ℝ).rotate v) = v) :=
  ⟨by norm_num [Quaternion.IsUnit],
   conjugate_is_inverse_of_unit ⟨1 / 2, -1 / 2, 1 / 2, 1 / 2⟩ (by norm_num [Quaternion.IsUnit])⟩

/-- C14: for every real angle, `Quaternion::rotationX(angle)` is
`(sin(angle/2), 0, 0, cos(angle/2))`, `rotationY(angle)` is `(0, sin(angle/2), 0,
cos(angle/2))`, `rotationZ(angle)` is `(0, 0, sin(angle/2), cos(angle/2))`, and each has
`x² + y² + z² + w² = 1`. -/
theorem axis_quaternion_components_and_unit (M : CMath ℝ) (hM : M.IsReal) (angle : ℝ) :
    (Quaternion.rotationX M angle = ⟨Real.sin (angle / 2), 0, 0, Real.cos (angle / 2)⟩ ∧
      (Quaternion.rotationX M angle).IsUnit) ∧
    (Quaternion.rotationY M angle = ⟨0, Real.sin (angle / 2), 0, Real.cos (angle / 2)⟩ ∧
      (Quaternion.rotationY M angle).IsUnit) ∧
    (Quaternion.rotationZ M angle = ⟨0, 0, Real.sin (angle / 2), Real.cos (angle / 2)⟩ ∧
      (Quaternion.rotationZ M angle).IsUnit) := by
  have h2 : 1 / 2 * angle = angle / 2 := by ring
  refine ⟨⟨?_, Quaternion.rotationX_isUnit hM angle⟩, ⟨?_, Quaternion.rotationY_isUnit hM angle⟩,
    ⟨?_, Quaternion.rotationZ_isUnit hM angle⟩⟩ <;>
  · obtain ⟨hs, hc, -⟩ := hM
    simp only [Quaternion.rotationX, Quaternion.rotationY, Quaternion.rotationZ, hs, hc, h2]

/-- Witness of C14 at the real math functions and the angle `1`. -/
theorem axis_quaternion_components_and_unit_witness :
    (Quaternion.rotationX
        ⟨Real.sin, Real.cos, Real.arcsin, fun y x => Complex.arg ⟨x, y⟩, Real.sqrt⟩ (1 : ℝ)
        = ⟨Real.sin (1 / 2), 0, 0, Real.cos (1 / 2)⟩ ∧
      (Quaternion.rotationX
        ⟨Real.sin, Real.cos, Real.arcsin, fun y x => Complex.arg ⟨x, y⟩, Real.sqrt⟩
        (1 : ℝ)).IsUnit) ∧
    (Quaternion.rotationY
        ⟨Real.sin, Real.cos, Real.arcsin, fun y x => Complex.arg ⟨x, y⟩, Real.sqrt⟩ (1 : ℝ)
        = ⟨0, Real.sin (1 / 2), 0, Real.cos (1 / 2)⟩ ∧
      (Quaternion.rotationY
        ⟨Real.sin, Real.cos, Real.arcsin, fun y x => Complex.arg ⟨x, y⟩, Real.sqrt⟩
        (1 : ℝ)).IsUnit) ∧
    (Quaternion.rotationZ
        ⟨Real.sin, Real.cos, Real.arcsin, fun y x => Complex.arg ⟨x, y⟩, Real.sqrt⟩ (1 : ℝ)
        = ⟨0, 0, Real.sin (1 / 2), Real.cos (1 / 2)⟩ ∧
      (Quaternion.rotationZ
        ⟨Real.sin, Real.cos, Real.arcsin, fun y x => Complex.arg ⟨x, y⟩, Real.sqrt⟩
        (1 : ℝ)).IsUnit) :=
  axis_quaternion_components_and_unit
    ⟨Real.sin, Real.cos, Real.arcsin, fun y x => Complex.arg ⟨x, y⟩, Real.sqrt⟩
    ⟨rfl, rfl, rfl, rfl, rfl⟩ 1

/-- C15: for every quaternion `q` and vector `v`, `|q.rotate(v)|² = (x²+y²+z²+w²)² · |v|²`;
so a unit quaternion preserves the squared length and the length, and any quaternion
scales the length of every vector by the factor `|q|² = x²+y²+z²+w²`. -/
theorem rotate_normSq_scaling (q : Quaternion ℝ) (v : Vector3 ℝ) :
    (q.rotate v).normSq = q.normSq ^ 2 * v.normSq ∧
    (q.IsUnit → (q.rotate v).normSq = v.normSq ∧
      Real.sqrt (q.rotate v).normSq = Real.sqrt v.normSq) ∧
    Real.sqrt (q.rotate v).normSq = q.normSq * Real.sqrt v.normSq := by
  have h := Quaternion.normSq_rotate q v
  have hn : 0 ≤ q.normSq := by
    rw [Quaternion.normSq]
    positivity
  refine ⟨h, fun hq => ?_, ?_⟩
  · have h1 : q.normSq = 1 := hq
    rw [h, h1]
    simp
  · rw [h, Real.sqrt_mul (sq_nonneg _), Real.sqrt_sq hn]

/-- C16: for every quaternion `q`, the quaternion with all four components negated has
the same `rotate`, the same matrix, and the same result of `toEulerAngle` for each of the
six orders. -/
theorem negate_quaternion_same_rotation (M : CMath ℝ) (q : Quaternion ℝ) :
    (∀ v : Vector3 ℝ, (⟨-q.x, -q.y, -q.z, -q.w⟩ : Quaternion ℝ).rotate v = q.rotate v) ∧
    (⟨-q.x, -q.y, -q.z, -q.w⟩ : Quaternion ℝ).toRotationMatrix = q.toRotationMatrix ∧
    (∀ order ∈ EulerOrder.all,
      (⟨-q.x, -q.y, -q.z, -q.w⟩ : Quaternion ℝ).toEulerAngle M order
        = q.toEulerAngle M order) :=
  ⟨fun v => Quaternion.rotate_negate q v, Quaternion.toRotationMatrix_negate q,
    fun order _ => Quaternion.toEulerAngle_negate M q order⟩

/-! ## Matrix access, products and the invalid order -/

section MatrixProduct

variable {α : Type} [CommRing α]

/-- Entry `(row, col)` of a product, read through `at`, is the sum over `k` of the products
of the entries `(row, k)` of the left factor and `(k, col)` of the right factor. -/
theorem RotationMatrix.at_mul (a b : RotationMatrix α) (row col : Fin 3) :
    (a * b).at row col = a.at row 0 * b.at 0 col + a.at row 1 * b.at 1 col
      + a.at row 2 * b.at 2 col := by
  fin_cases row <;> fin_cases col <;> rfl

/-- The matrix of a product is the product of the matrices. -/
theorem RotationMatrix.toMatrix_mul (a b : RotationMatrix α) :
    (a * b).toMatrix = a.toMatrix * b.toMatrix := by
  ext i j
  simp only [RotationMatrix.toMatrix, Matrix.of_apply, Matrix.mul_apply, Fin.sum_univ_three]
  exact RotationMatrix.at_mul a b i j

/-- The components of `M * v`, read through `at`. -/
theorem RotationMatrix.mulVec_components (a : RotationMatrix α) (v : Vector3 α) :
    (a * v).x = a.at 0 0 * v.x + a.at 0 1 * v.y + a.at 0 2 * v.z ∧
    (a * v).y = a.at 1 0 * v.x + a.at 1 1 * v.y + a.at 1 2 * v.z ∧
    (a * v).z = a.at 2 0 * v.x + a.at 2 1 * v.y + a.at 2 2 * v.z :=
  ⟨rfl, rfl, rfl⟩

end MatrixProduct

/-- C17: for every real `θ`, read through `at(row, col)`, `rotationX(θ)` has rows
`[1,0,0]`, `[0,cos θ,-sin θ]`, `[0,sin θ,cos θ]`; `rotationY(θ)` has rows `[cos θ,0,sin θ]`,
`[0,1,0]`, `[-sin θ,0,cos θ]`; `rotationZ(θ)` has rows `[cos θ,-sin θ,0]`,
`[sin θ,cos θ,0]`, `[0,0,1]`.  These are the right-handed rotations: the quarter turn about
X sends the Y axis to the Z axis, the one about Y sends Z to X, the one about Z sends X to
Y. -/
theorem axis_matrix_rows (M : CMath ℝ) (hM : M.IsReal) (θ : ℝ) :
    ((RotationMatrix.rotationX M θ).at 0 0 = 1 ∧ (RotationMatrix.rotationX M θ).at 0 1 = 0 ∧
      (RotationMatrix.rotationX M θ).at 0 2 = 0 ∧
      (RotationMatrix.rotationX M θ).at 1 0 = 0 ∧
      (RotationMatrix.rotationX M θ).at 1 1 = Real.cos θ ∧
      (RotationMatrix.rotationX M θ).at 1 2 = -Real.sin θ ∧
      (RotationMatrix.rotationX M θ).at 2 0 = 0 ∧
      (RotationMatrix.rotationX M θ).at 2 1 = Real.sin θ ∧
      (RotationMatrix.rotationX M θ).at 2 2 = Real.cos θ) ∧
    ((RotationMatrix.rotationY M θ).at 0 0 = Real.cos θ ∧
      (RotationMatrix.rotationY M θ).at 0 1 = 0 ∧
      (RotationMatrix.rotationY M θ).at 0 2 = Real.sin θ ∧
      (RotationMatrix.rotationY M θ).at 1 0 = 0 ∧ (RotationMatrix.rotationY M θ).at 1 1 = 1 ∧
      (RotationMatrix.rotationY M θ).at 1 2 = 0 ∧
      (RotationMatrix.rotationY M θ).at 2 0 = -Real.sin θ ∧
      (RotationMatrix.rotationY M θ).at 2 1 = 0 ∧
      (RotationMatrix.rotationY M θ).at 2 2 = Real.cos θ) ∧
    ((RotationMatrix.rotationZ M θ).at 0 0 = Real.cos θ ∧
      (RotationMatrix.rotationZ M θ).at 0 1 = -Real.sin θ ∧
      (RotationMatrix.rotationZ M θ).at 0 2 = 0 ∧
      (RotationMatrix.rotationZ M θ).at 1 0 = Real.sin θ ∧
      (RotationMatrix.rotationZ M θ).at 1 1 = Real.cos θ ∧
      (RotationMatrix.rotationZ M θ).at 1 2 = 0 ∧
      (RotationMatrix.rotationZ M θ).at 2 0 = 0 ∧ (RotationMatrix.rotationZ M θ).at 2 1 = 0 ∧
      (RotationMatrix.rotationZ M θ).at 2 2 = 1) ∧
    (RotationMatrix.rotationX M (Real.pi / 2) * (⟨0, 1, 0⟩ : Vector3 ℝ) = ⟨0, 0, 1⟩ ∧
      RotationMatrix.rotationY M (Real.pi / 2) * (⟨0, 0, 1⟩ : Vector3 ℝ) = ⟨1, 0, 0⟩ ∧
      RotationMatrix.rotationZ M (Real.pi / 2) * (⟨1, 0, 0⟩ : Vector3 ℝ) = ⟨0, 1, 0⟩) := by
  obtain ⟨hs, hc, -⟩ := hM
  refine ⟨?_, ?_, ?_, ?_, ?_, ?_⟩
  · simp only [RotationMatrix.rotationX, hs, hc, RotationMatrix.at_0_0, RotationMatrix.at_1_0,
      RotationMatrix.at_2_0, RotationMatrix.at_0_1, RotationMatrix.at_1_1,
      RotationMatrix.at_2_1, RotationMatrix.at_0_2, RotationMatrix.at_1_2,
      RotationMatrix.at_2_2, and_self]
  · simp only [RotationMatrix.rotationY, hs, hc, RotationMatrix.at_0_0, RotationMatrix.at_1_0,
      RotationMatrix.at_2_0, RotationMatrix.at_0_1, RotationMatrix.at_1_1,
      RotationMatrix.at_2_1, RotationMatrix.at_0_2, RotationMatrix.at_1_2,
      RotationMatrix.at_2_2, and_self]
  · simp only [RotationMatrix.rotationZ, hs, hc, RotationMatrix.at_0_0, RotationMatrix.at_1_0,
      RotationMatrix.at_2_0, RotationMatrix.at_0_1, RotationMatrix.at_1_1,
      RotationMatrix.at_2_1, RotationMatrix.at_0_2, RotationMatrix.at_1_2,
      RotationMatrix.at_2_2, and_self]
  · simp only [RotationMatrix.rotationX, hs, hc, RotationMatrix.mulVec_def,
      RotationMatrix.mulVec, Real.cos_pi_div_two, Real.sin_pi_div_two]
    ext <;> simp
  · simp only [RotationMatrix.rotationY, hs, hc, RotationMatrix.mulVec_def,
      RotationMatrix.mulVec, Real.cos_pi_div_two, Real.sin_pi_div_two]
    ext <;> simp
  · simp only [RotationMatrix.rotationZ, hs, hc, RotationMatrix.mulVec_def,
      RotationMatrix.mulVec, Real.cos_pi_div_two, Real.sin_pi_div_two]
    ext <;> simp

/-- Witness of C17 at the real math functions and the angle `1`: the second row of
`rotationX(1)` is `[0, cos 1, -sin 1]`. -/
theorem axis_matrix_rows_witness :
    (RotationMatrix.rotationX
        ⟨Real.sin, Real.cos, Real.arcsin, fun y x => Complex.arg ⟨x, y⟩, Real.sqrt⟩ (1 : ℝ)).at 1 0 = 0 ∧
    (RotationMatrix.rotationX
        ⟨Real.sin, Real.cos, Real.arcsin, fun y x => Complex.arg ⟨x, y⟩, Real.sqrt⟩ (1 : ℝ)).at 1 1
      = Real.cos 1 ∧
    (RotationMatrix.rotationX
        ⟨Real.sin, Real.cos, Real.arcsin, fun y x => Complex.arg ⟨x, y⟩, Real.sqrt⟩ (1 : ℝ)).at 1 2
      = -Real.sin 1 :=
  have h := (axis_matrix_rows
    ⟨Real.sin, Real.cos, Real.arcsin, fun y x => Complex.arg ⟨x, y⟩, Real.sqrt⟩
    ⟨rfl, rfl, rfl, rfl, rfl⟩ 1).1
  ⟨h.2.2.2.1, h.2.2.2.2.1, h.2.2.2.2.2.1⟩

/-- C18: for all matrices `A`, `B` and all `row`, `col` in `{0,1,2}`,
`(A * B).at(row, col) = A.at(row,0)·B.at(0,col) + A.at(row,1)·B.at(1,col) +
A.at(row,2)·B.at(2,col)`: `operator*` is the standard matrix product `A·B`, the left operand
on the left, under the column-major `at` convention. -/
theorem matrix_mul_at_eq_sum (a b : RotationMatrix ℝ) :
    (∀ row col : Fin 3, (a * b).at row col
      = a.at row 0 * b.at 0 col + a.at row 1 * b.at 1 col + a.at row 2 * b.at 2 col) ∧
    (a * b).toMatrix = a.toMatrix * b.toMatrix :=
  ⟨RotationMatrix.at_mul a b, RotationMatrix.toMatrix_mul a b⟩

/-- C19: for every matrix `M` and vector `v`, the `i`-th component of `M * v` is
`M.at(i,0)·v.x + M.at(i,1)·v.y + M.at(i,2)·v.z`, and `(A * B) * v = A * (B * v)` for all
matrices `A`, `B`. -/
theorem mulVec_components_and_assoc (a b : RotationMatrix ℝ) (v : Vector3 ℝ) :
    ((a * v).x = a.at 0 0 * v.x + a.at 0 1 * v.y + a.at 0 2 * v.z ∧
      (a * v).y = a.at 1 0 * v.x + a.at 1 1 * v.y + a.at 1 2 * v.z ∧
      (a * v).z = a.at 2 0 * v.x + a.at 2 1 * v.y + a.at 2 2 * v.z) ∧
    (a * b) * v = a * (b * v) :=
  ⟨RotationMatrix.mulVec_components a v, RotationMatrix.mul_mulVec a b v⟩

section InvalidOrder

variable {α : Type} [LinearOrderedField α]

/-- A tag outside the six enumerators differs from each of them. -/
theorem EulerOrder.ne_of_not_mem_all {order : EulerOrder} (h : order ∉ EulerOrder.all) :
    order ≠ EulerOrder.XYZ ∧ order ≠ EulerOrder.XZY ∧ order ≠ EulerOrder.YXZ ∧
      order ≠ EulerOrder.YZX ∧ order ≠ EulerOrder.ZXY ∧ order ≠ EulerOrder.ZYX := by
  simpa [EulerOrder.all] using h

/-- On a tag outside the six enumerators the quaternion overload of `toEulerAngle` reaches
its final `throw`. -/
theorem Quaternion.quat_toEulerAngle_invalid (M : CMath α) (q : Quaternion α) {order : EulerOrder}
    (h : order ∉ EulerOrder.all) :
    q.toEulerAngle M order = .error "conversion of quaternion to euler angle is failed." := by
  obtain ⟨h1, h2, h3, h4, h5, h6⟩ := EulerOrder.ne_of_not_mem_all h
  simp only [Quaternion.toEulerAngle, if_neg h1, if_neg h2, if_neg h3, if_neg h4, if_neg h5,
    if_neg h6]

/-- On a tag outside the six enumerators the matrix overload of `toEulerAngle` reaches its
final `throw`. -/
theorem RotationMatrix.toEulerAngle_invalid (M : CMath α) (m : RotationMatrix α)
    {order : EulerOrder} (h : order ∉ EulerOrder.all) :
    m.toEulerAngle M order
      = .error "conversion of rotation matrix to euler angle is failed." := by
  obtain ⟨h1, h2, h3, h4, h5, h6⟩ := EulerOrder.ne_of_not_mem_all h
  simp only [RotationMatrix.toEulerAngle, if_neg h1, if_neg h2, if_neg h3, if_neg h4,
    if_neg h5, if_neg h6]

/-- On a tag outside the six enumerators `toQuaternion(EulerAngle)` reaches its final
`throw`. -/
theorem EulerAngle.toQuaternion_invalid (M : CMath α) (e : EulerAngle α)
    (h : e.order ∉ EulerOrder.all) :
    e.toQuaternion M = .error "conversion of euler angle to quaterion is failed." := by
  obtain ⟨h1, h2, h3, h4, h5, h6⟩ := EulerOrder.ne_of_not_mem_all h
  simp only [EulerAngle.toQuaternion, if_neg h1, if_neg h2, if_neg h3, if_neg h4, if_neg h5,
    if_neg h6]

/-- On a tag outside the six enumerators `toRotationMatrix(EulerAngle)` reaches its final
`throw`. -/
theorem EulerAngle.toRotationMatrix_invalid (M : CMath α) (e : EulerAngle α)
    (h : e.order ∉ EulerOrder.all) :
    e.toRotationMatrix M
      = .error "conversion of euler angle to rotation matrix is failed." := by
  obtain ⟨h1, h2, h3, h4, h5, h6⟩ := EulerOrder.ne_of_not_mem_all h
  simp only [EulerAngle.toRotationMatrix, if_neg h1, if_neg h2, if_neg h3, if_neg h4,
    if_neg h5, if_neg h6]

end InvalidOrder

/-- C20: on an `EulerOrder` tag outside the six enumerators each of the four conversions
that depend on the order (`toEulerAngle` of a quaternion, `toEulerAngle` of a matrix,
`toQuaternion` and `toRotationMatrix` of an Euler triple) ends in its final `throw`, the
invalid-order error, and returns no rotation. -/
theorem invalid_order_is_error (M : CMath ℝ) (order : EulerOrder)
    (h : order ∉ EulerOrder.all) :
    (∀ q : Quaternion ℝ,
      q.toEulerAngle M order = .error "conversion of quaternion to euler angle is failed.") ∧
    (∀ m : RotationMatrix ℝ, m.toEulerAngle M order
      = .error "conversion of rotation matrix to euler angle is failed.") ∧
    (∀ x y z : ℝ, EulerAngle.toQuaternion M ⟨x, y, z, order⟩
      = .error "conversion of euler angle to quaterion is failed.") ∧
    (∀ x y z : ℝ, EulerAngle.toRotationMatrix M ⟨x, y, z, order⟩
      = .error "conversion of euler angle to rotation matrix is failed.") :=
  ⟨fun q => Quaternion.quat_toEulerAngle_invalid M q h,
   fun m => RotationMatrix.toEulerAngle_invalid M m h,
   fun x y z => EulerAngle.toQuaternion_invalid M ⟨x, y, z, order⟩ h,
   fun x y z => EulerAngle.toRotationMatrix_invalid M ⟨x, y, z, order⟩ h⟩

/-- Witness of C20 at the real math functions and the tag `6`, the first integer after the
six enumerators. -/
theorem invalid_order_is_error_witness :
    (⟨6⟩ : EulerOrder) ∉ EulerOrder.all ∧
    ((∀ q : Quaternion ℝ,
      q.toEulerAngle
          ⟨Real.sin, Real.cos, Real.arcsin, fun y x => Complex.arg ⟨x, y⟩, Real.sqrt⟩ ⟨6⟩
        = .error "conversion of quaternion to euler angle is failed.") ∧
    (∀ m : RotationMatrix ℝ,
      m.toEulerAngle
          ⟨Real.sin, Real.cos, Real.arcsin, fun y x => Complex.arg ⟨x, y⟩, Real.sqrt⟩ ⟨6⟩
        = .error "conversion of rotation matrix to euler angle is failed.") ∧
    (∀ x y z : ℝ,
      EulerAngle.toQuaternion
          ⟨Real.sin, Real.cos, Real.arcsin, fun y x => Complex.arg ⟨x, y⟩, Real.sqrt⟩
          ⟨x, y, z, ⟨6⟩⟩
        = .error "conversion of euler angle to quaterion is failed.") ∧
    (∀ x y z : ℝ,
      EulerAngle.toRotationMatrix
          ⟨Real.sin, Real.cos, Real.arcsin, fun y x => Complex.arg ⟨x, y⟩, Real.sqrt⟩
          ⟨x, y, z, ⟨6⟩⟩
        = .error "conversion of euler angle to rotation matrix is failed.")) :=
  ⟨by decide,
   invalid_order_is_error
     ⟨Real.sin, Real.cos, Real.arcsin, fun y x => Complex.arg ⟨x, y⟩, Real.sqrt⟩
     ⟨6⟩ (by decide)⟩

/-! ## Selection of the largest candidate in toQuaternion(RotationMatrix) -/

section Selection

/-- The branch taken by `toQuaternion(RotationMatrix)` is read off from `selection`: the
body of the function is the four-way case split on `selected` below, each branch taking
the square root of its own candidate. -/
theorem RotationMatrix.toQuaternion_eq_selection {α : Type} [LinearOrderedField α]
    (M : CMath α) (m : RotationMatrix α) :
    m.toQuaternion M =
      if m.selection.1 = 0 then
        .ok ⟨M.sqrt m.px * (1 / 2),
          (m.at 1 0 + m.at 0 1) * (1 / (4 * (M.sqrt m.px * (1 / 2)))),
          (m.at 0 2 + m.at 2 0) * (1 / (4 * (M.sqrt m.px * (1 / 2)))),
          (m.at 2 1 - m.at 1 2) * (1 / (4 * (M.sqrt m.px * (1 / 2))))⟩
      else if m.selection.1 = 1 then
        .ok ⟨(m.at 1 0 + m.at 0 1) * (1 / (4 * (M.sqrt m.py * (1 / 2)))),
          M.sqrt m.py * (1 / 2),
          (m.at 2 1 + m.at 1 2) * (1 / (4 * (M.sqrt m.py * (1 / 2)))),
          (m.at 0 2 - m.at 2 0) * (1 / (4 * (M.sqrt m.py * (1 / 2))))⟩
      else if m.selection.1 = 2 then
        .ok ⟨(m.at 0 2 + m.at 2 0) * (1 / (4 * (M.sqrt m.pz * (1 / 2)))),
          (m.at 2 1 + m.at 1 2) * (1 / (4 * (M.sqrt m.pz * (1 / 2)))),
          M.sqrt m.pz * (1 / 2),
          (m.at 1 0 - m.at 0 1) * (1 / (4 * (M.sqrt m.pz * (1 / 2))))⟩
      else if m.selection.1 = 3 then
        .ok ⟨(m.at 2 1 - m.at 1 2) * (1 / (4 * (M.sqrt m.pw * (1 / 2)))),
          (m.at 0 2 - m.at 2 0) * (1 / (4 * (M.sqrt m.pw * (1 / 2)))),
          (m.at 1 0 - m.at 0 1) * (1 / (4 * (M.sqrt m.pw * (1 / 2)))),
          M.sqrt m.pw * (1 / 2)⟩
      else
        .error "conversion of rotation matrix to quaterion is failed." :=
  rfl

/-- The four candidates sum to `4` for every matrix. -/
theorem RotationMatrix.candidates_sum {α : Type} [LinearOrderedField α]
    (m : RotationMatrix α) : m.px + m.py + m.pz + m.pw = 4 := by
  simp only [RotationMatrix.px, RotationMatrix.py, RotationMatrix.pz, RotationMatrix.pw]
  ring

/-- The selection picks the first candidate that attains the maximum: the candidates
checked before the selected one are strictly smaller, those checked after it are not
larger. -/
theorem RotationMatrix.selection_cases {α : Type} [LinearOrderedField α]
    (m : RotationMatrix α) :
    (m.selection = (0, m.px) ∧ m.py ≤ m.px ∧ m.pz ≤ m.px ∧ m.pw ≤ m.px) ∨
    (m.selection = (1, m.py) ∧ m.px < m.py ∧ m.pz ≤ m.py ∧ m.pw ≤ m.py) ∨
    (m.selection = (2, m.pz) ∧ m.px < m.pz ∧ m.py < m.pz ∧ m.pw ≤ m.pz) ∨
    (m.selection = (3, m.pw) ∧ m.px < m.pw ∧ m.py < m.pw ∧ m.pz < m.pw) := by
  by_cases h1 : m.px < m.py
  · by_cases h2 : m.py < m.pz
    · by_cases h3 : m.pz < m.pw
      · have hs : m.selection = (3, m.pw) := by
          simp only [RotationMatrix.selection, h1, h2, h3, if_true]
        exact Or.inr (Or.inr (Or.inr ⟨hs, by linarith, by linarith, h3⟩))
      · have hs : m.selection = (2, m.pz) := by
          simp only [RotationMatrix.selection, h1, h2, h3, if_true, if_false]
        exact Or.inr (Or.inr (Or.inl ⟨hs, by linarith, h2, not_lt.mp h3⟩))
    · by_cases h3 : m.py < m.pw
      · have hs : m.selection = (3, m.pw) := by
          simp only [RotationMatrix.selection, h1, h2, h3, if_true, if_false]
        exact Or.inr (Or.inr (Or.inr ⟨hs, by linarith, h3, by linarith [not_lt.mp h2]⟩))
      · have hs : m.selection = (1, m.py) := by
          simp only [RotationMatrix.selection, h1, h2, h3, if_true, if_false]
        exact Or.inr (Or.inl ⟨hs, h1, not_lt.mp h2, not_lt.mp h3⟩)
  · by_cases h2 : m.px < m.pz
    · by_cases h3 : m.pz < m.pw
      · have hs : m.selection = (3, m.pw) := by
          simp only [RotationMatrix.selection, h1, h2, h3, if_true, if_false]
        exact Or.inr (Or.inr (Or.inr ⟨hs, by linarith, by linarith [not_lt.mp h1], h3⟩))
      · have hs : m.selection = (2, m.pz) := by
          simp only [RotationMatrix.selection, h1, h2, h3, if_true, if_false]
        exact Or.inr (Or.inr (Or.inl ⟨hs, h2, by linarith [not_lt.mp h1], not_lt.mp h3⟩))
    · by_cases h3 : m.px < m.pw
      · have hs : m.selection = (3, m.pw) := by
          simp only [RotationMatrix.selection, h1, h2, h3, if_true, if_false]
        exact Or.inr (Or.inr (Or.inr ⟨hs, h3, by linarith [not_lt.mp h1],
          by linarith [not_lt.mp h2]⟩))
      · have hs : m.selection = (0, m.px) := by
          simp only [RotationMatrix.selection, h1, h2, h3, if_true, if_false]
        exact Or.inl ⟨hs, not_lt.mp h1, not_lt.mp h2, not_lt.mp h3⟩

/-- The selected candidate is the largest of the four, hence at least `1`. -/
theorem RotationMatrix.selection_max {α : Type} [LinearOrderedField α]
    (m : RotationMatrix α) :
    m.px ≤ m.selection.2 ∧ m.py ≤ m.selection.2 ∧ m.pz ≤ m.selection.2 ∧
      m.pw ≤ m.selection.2 ∧ 1 ≤ m.selection.2 := by
  have hs := m.candidates_sum
  rcases m.selection_cases with ⟨h, a, b, c⟩ | ⟨h, a, b, c⟩ | ⟨h, a, b, c⟩ | ⟨h, a, b, c⟩ <;>
    rw [h] <;> simp only <;> refine ⟨?_, ?_, ?_, ?_, ?_⟩ <;> linarith

end Selection

/-! ## Totality for the six orders; safety of the matrix-to-quaternion conversion; element access -/

section Totality

/-- For each of the six orders `toQuaternion(EulerAngle)` returns a quaternion. -/
theorem EulerAngle.toQuaternion_ok {α : Type} [LinearOrderedField α] (M : CMath α)
    (e : EulerAngle α) (he : e.order ∈ EulerOrder.all) : ∃ q, e.toQuaternion M = .ok q := by
  obtain ⟨x, y, z, o⟩ := e
  rcases EulerOrder.mem_all he with h | h | h | h | h | h <;> simp only at h <;> subst h <;>
    exact ⟨_, rfl⟩

/-- For each of the six orders `toRotationMatrix(EulerAngle)` returns a matrix. -/
theorem EulerAngle.toRotationMatrix_ok {α : Type} [LinearOrderedField α] (M : CMath α)
    (e : EulerAngle α) (he : e.order ∈ EulerOrder.all) :
    ∃ R, e.toRotationMatrix M = .ok R := by
  obtain ⟨x, y, z, o⟩ := e
  rcases EulerOrder.mem_all he with h | h | h | h | h | h <;> simp only at h <;> subst h <;>
    exact ⟨_, rfl⟩

/-- For each of the six orders and all real angles `toQuaternion(EulerAngle)` returns a
unit quaternion. -/
theorem EulerAngle.toQuaternion_isUnit {M : CMath ℝ} (hM : M.IsReal) (e : EulerAngle ℝ)
    (he : e.order ∈ EulerOrder.all) : ∃ q, e.toQuaternion M = .ok q ∧ q.IsUnit := by
  have ux := Quaternion.rotationX_isUnit hM e.x
  have uy := Quaternion.rotationY_isUnit hM e.y
  have uz := Quaternion.rotationZ_isUnit hM e.z
  rw [EulerAngle.toQuaternion_eq_calculate]
  rcases EulerOrder.mem_all he with h | h | h | h | h | h <;>
    simp +decide only [calculateQuaternion, h, if_true, if_false, Except.mapError]
  · exact ⟨_, rfl, (ux.mul uy).mul uz⟩
  · exact ⟨_, rfl, (ux.mul uz).mul uy⟩
  · exact ⟨_, rfl, (uy.mul ux).mul uz⟩
  · exact ⟨_, rfl, (uy.mul uz).mul ux⟩
  · exact ⟨_, rfl, (uz.mul ux).mul uy⟩
  · exact ⟨_, rfl, (uz.mul uy).mul ux⟩

end Totality

/-- C21: for each of the six defined orders and every input (any quaternion, any matrix,
any three angles), `toEulerAngle(Quaternion)`, `toEulerAngle(RotationMatrix)`,
`toQuaternion(EulerAngle)` and `toRotationMatrix(EulerAngle)` return a value, not the
error of their last branch; and the Euler angle returned by either `toEulerAngle` overload
has the requested order as its order tag. -/
theorem valid_order_returns_value (M : CMath ℝ) (order : EulerOrder)
    (ho : order ∈ EulerOrder.all) :
    (∀ q : Quaternion ℝ, ∃ e, q.toEulerAngle M order = .ok e ∧ e.order = order) ∧
    (∀ m : RotationMatrix ℝ, ∃ e, m.toEulerAngle M order = .ok e ∧ e.order = order) ∧
    (∀ x y z : ℝ, ∃ q, EulerAngle.toQuaternion M ⟨x, y, z, order⟩ = .ok q) ∧
    (∀ x y z : ℝ, ∃ R, EulerAngle.toRotationMatrix M ⟨x, y, z, order⟩ = .ok R) := by
  refine ⟨fun q => ?_, fun m => ?_, fun x y z => EulerAngle.toQuaternion_ok M _ ho,
    fun x y z => EulerAngle.toRotationMatrix_ok M _ ho⟩
  · obtain ⟨e, h, ht, -⟩ := Quaternion.quat_toEulerAngle_middleAngle M q order ho
    exact ⟨e, h, ht⟩
  · obtain ⟨e, h, ht, -⟩ := RotationMatrix.toEulerAngle_middleAngle M m order ho
    exact ⟨e, h, ht⟩

/-- Witness of C21 at the real math functions and the order `YZX`. -/
theorem valid_order_returns_value_witness :
    EulerOrder.YZX ∈ EulerOrder.all ∧
    ((∀ q : Quaternion ℝ, ∃ e,
      q.toEulerAngle
          ⟨Real.sin, Real.cos, Real.arcsin, fun y x => Complex.arg ⟨x, y⟩, Real.sqrt⟩
          EulerOrder.YZX = .ok e ∧ e.order = EulerOrder.YZX) ∧
    (∀ m : RotationMatrix ℝ, ∃ e,
      m.toEulerAngle
          ⟨Real.sin, Real.cos, Real.arcsin, fun y x => Complex.arg ⟨x, y⟩, Real.sqrt⟩
          EulerOrder.YZX = .ok e ∧ e.order = EulerOrder.YZX) ∧
    (∀ x y z : ℝ, ∃ q,
      EulerAngle.toQuaternion
          ⟨Real.sin, Real.cos, Real.arcsin, fun y x => Complex.arg ⟨x, y⟩, Real.sqrt⟩
          ⟨x, y, z, EulerOrder.YZX⟩ = .ok q) ∧
    (∀ x y z : ℝ, ∃ R,
      EulerAngle.toRotationMatrix
          ⟨Real.sin, Real.cos, Real.arcsin, fun y x => Complex.arg ⟨x, y⟩, Real.sqrt⟩
          ⟨x, y, z, EulerOrder.YZX⟩ = .ok R)) :=
  ⟨by decide,
   valid_order_returns_value
     ⟨Real.sin, Real.cos, Real.arcsin, fun y x => Complex.arg ⟨x, y⟩, Real.sqrt⟩
     EulerOrder.YZX (by decide)⟩

section SelectedComponent

/-- For every matrix `toQuaternion` returns a quaternion whose directly computed component
(the one of the selected candidate) is `sqrt(max) * (1/2)`, where `max` is the selected
candidate. -/
theorem RotationMatrix.toQuaternion_selected {α : Type} [LinearOrderedField α]
    (M : CMath α) (m : RotationMatrix α) :
    ∃ q, m.toQuaternion M = .ok q ∧
      (m.selection.1 = 0 → q.x = M.sqrt m.selection.2 * (1 / 2)) ∧
      (m.selection.1 = 1 → q.y = M.sqrt m.selection.2 * (1 / 2)) ∧
      (m.selection.1 = 2 → q.z = M.sqrt m.selection.2 * (1 / 2)) ∧
      (m.selection.1 = 3 → q.w = M.sqrt m.selection.2 * (1 / 2)) := by
  rw [RotationMatrix.toQuaternion_eq_selection]
  rcases m.selection_cases with ⟨h, -⟩ | ⟨h, -⟩ | ⟨h, -⟩ | ⟨h, -⟩ <;>
    rw [h] <;> simp +decide only [if_true, if_false] <;>
    exact ⟨_, rfl, by simp, by simp, by simp, by simp⟩

/-- For `p ≥ 1` the component `sqrt(p) * (1/2)` is positive and four times it is at
least `2`. -/
theorem sqrt_half_bounds {p : ℝ} (hp : 1 ≤ p) :
    0 < Real.sqrt p * (1 / 2) ∧ 2 ≤ 4 * (Real.sqrt p * (1 / 2)) ∧
      4 * (Real.sqrt p * (1 / 2)) ≠ 0 := by
  have h1 : 1 ≤ Real.sqrt p := by
    rw [← Real.sqrt_one]
    exact Real.sqrt_le_sqrt hp
  refine ⟨by linarith, by linarith, ?_⟩
  have : 0 < 4 * (Real.sqrt p * (1 / 2)) := by linarith
  exact ne_of_gt this

/-- The matrix of the unit quaternion `(1/2, 1/2, 1/2, -1/2)`. -/
theorem Quaternion.toRotationMatrix_half :
    (⟨1 / 2, 1 / 2, 1 / 2, -(1 / 2)⟩ : Quaternion ℝ).toRotationMatrix
      = ⟨0, 0, 1, 1, 0, 0, 0, 1, 0⟩ := by
  simp only [Quaternion.toRotationMatrix]
  ext <;> norm_num

end SelectedComponent

/-- C22: for every matrix `m`, orthonormal or not, the four candidates of
`toQuaternion(m)` sum to `4`; the selection ends in one of its four cases, and the selected
candidate is the largest of the four and at least `1`, so the square root is taken of a
non-negative operand; the divisor `4 × (selected component)` is at least `2` and not zero;
and the function returns a quaternion, whose directly computed component is that selected
component: the final error branch is not reached. -/
theorem toQuaternion_matrix_candidates_and_totality (M : CMath ℝ) (hM : M.IsReal)
    (m : RotationMatrix ℝ) :
    m.px + m.py + m.pz + m.pw = 4 ∧
    (m.selection = (0, m.px) ∨ m.selection = (1, m.py) ∨ m.selection = (2, m.pz) ∨
      m.selection = (3, m.pw)) ∧
    (m.px ≤ m.selection.2 ∧ m.py ≤ m.selection.2 ∧ m.pz ≤ m.selection.2 ∧
      m.pw ≤ m.selection.2) ∧
    1 ≤ m.selection.2 ∧ 0 ≤ m.selection.2 ∧
    2 ≤ 4 * (M.sqrt m.selection.2 * (1 / 2)) ∧ 4 * (M.sqrt m.selection.2 * (1 / 2)) ≠ 0 ∧
    ∃ q, m.toQuaternion M = .ok q ∧
      (m.selection.1 = 0 → q.x = M.sqrt m.selection.2 * (1 / 2)) ∧
      (m.selection.1 = 1 → q.y = M.sqrt m.selection.2 * (1 / 2)) ∧
      (m.selection.1 = 2 → q.z = M.sqrt m.selection.2 * (1 / 2)) ∧
      (m.selection.1 = 3 → q.w = M.sqrt m.selection.2 * (1 / 2)) := by
  obtain ⟨a, b, c, d, h1⟩ := m.selection_max
  obtain ⟨-, h2, h3⟩ := sqrt_half_bounds h1
  have hsqrt : M.sqrt = Real.sqrt := hM.2.2.2.2
  refine ⟨m.candidates_sum, ?_, ⟨a, b, c, d⟩, h1, by linarith, ?_, ?_,
    m.toQuaternion_selected M⟩
  · rcases m.selection_cases with ⟨h, -⟩ | ⟨h, -⟩ | ⟨h, -⟩ | ⟨h, -⟩
    · exact Or.inl h
    · exact Or.inr (Or.inl h)
    · exact Or.inr (Or.inr (Or.inl h))
    · exact Or.inr (Or.inr (Or.inr h))
  · rw [hsqrt]; exact h2
  · rw [hsqrt]; exact h3

/-- Witness of C22 at the real math functions and the matrix with elements `1, …, 9`, which
is not orthonormal. -/
theorem toQuaternion_matrix_candidates_and_totality_witness :
    (⟨1, 2, 3, 4, 5, 6, 7, 8, 9⟩ : RotationMatrix ℝ).px
      + (⟨1, 2, 3, 4, 5, 6, 7, 8, 9⟩ : RotationMatrix ℝ).py
      + (⟨1, 2, 3, 4, 5, 6, 7, 8, 9⟩ : RotationMatrix ℝ).pz
      + (⟨1, 2, 3, 4, 5, 6, 7, 8, 9⟩ : RotationMatrix ℝ).pw = 4 ∧
    ∃ q, (⟨1, 2, 3, 4, 5, 6, 7, 8, 9⟩ : RotationMatrix ℝ).toQuaternion
        ⟨Real.sin, Real.cos, Real.arcsin, fun y x => Complex.arg ⟨x, y⟩, Real.sqrt⟩ = .ok q :=
  have h := toQuaternion_matrix_candidates_and_totality
    ⟨Real.sin, Real.cos, Real.arcsin, fun y x => Complex.arg ⟨x, y⟩, Real.sqrt⟩
    ⟨rfl, rfl, rfl, rfl, rfl⟩ ⟨1, 2, 3, 4, 5, 6, 7, 8, 9⟩
  ⟨h.1, h.2.2.2.2.2.2.2.imp fun _ hq => hq.1⟩

/-- C23: for `row` and `column` in `{0, 1, 2}`, `at(row, column)` is the element
`operator[](row + 3·column)`; the flat index is at most `8`; distinct `(row, column)` pairs
have distinct flat indices; and a write through `at(row, column)` sets that element to the
written value and leaves every other element, read by flat index or through `at`,
unchanged. -/
theorem at_flat_index_and_write_frame (m : RotationMatrix ℝ) (row column : Fin 3) :
    m.at row column = m.get (RotationMatrix.flatIndex row column) ∧
    (RotationMatrix.flatIndex row column).val = row.val + 3 * column.val ∧
    (RotationMatrix.flatIndex row column).val ≤ 8 ∧
    (∀ r c : Fin 3,
      RotationMatrix.flatIndex r c = RotationMatrix.flatIndex row column →
        r = row ∧ c = column) ∧
    ∀ v : ℝ,
      (m.setAt row column v).get (RotationMatrix.flatIndex row column) = v ∧
      (∀ i : Fin 9, i ≠ RotationMatrix.flatIndex row column →
        (m.setAt row column v).get i = m.get i) ∧
      (m.setAt row column v).at row column = v ∧
      (∀ r c : Fin 3, (r, c) ≠ (row, column) → (m.setAt row column v).at r c = m.at r c) := by
  refine ⟨rfl, ?_, ?_, ?_, fun v => ⟨?_, ?_, ?_, ?_⟩⟩
  · simp only [RotationMatrix.flatIndex]
    omega
  · have := (RotationMatrix.flatIndex row column).isLt
    omega
  · intro r c h
    have h1 := congrArg Fin.val h
    simp only [RotationMatrix.flatIndex] at h1
    have hr := r.isLt
    have hc := c.isLt
    have hr1 := row.isLt
    have hc1 := column.isLt
    exact ⟨Fin.ext (by omega), Fin.ext (by omega)⟩
  · fin_cases row <;> fin_cases column <;> rfl
  · intro i hi
    fin_cases row <;> fin_cases column <;> fin_cases i <;>
      first | rfl | exact absurd rfl hi
  · fin_cases row <;> fin_cases column <;> rfl
  · intro r c hrc
    fin_cases row <;> fin_cases column <;> fin_cases r <;> fin_cases c <;>
      first | rfl | exact absurd rfl hrc

/-- C24: quaternion multiplication is not commutative: the two products of
`Quaternion::rotationX(π/2)` and `Quaternion::rotationY(π/2)` differ (their `z` components
are `+1/2` and `-1/2`), so there are quaternions `q1`, `q2` with `q1 * q2 ≠ q2 * q1`. -/
theorem quaternion_mul_not_commutative (M : CMath ℝ) (hM : M.IsReal) :
    Quaternion.rotationX M (Real.pi / 2) * Quaternion.rotationY M (Real.pi / 2)
      ≠ Quaternion.rotationY M (Real.pi / 2) * Quaternion.rotationX M (Real.pi / 2) ∧
    (Quaternion.rotationX M (Real.pi / 2) * Quaternion.rotationY M (Real.pi / 2)).z = 1 / 2 ∧
    (Quaternion.rotationY M (Real.pi / 2) * Quaternion.rotationX M (Real.pi / 2)).z
      = -(1 / 2) ∧
    ∃ q1 q2 : Quaternion ℝ, q1 * q2 ≠ q2 * q1 := by
  obtain ⟨hs, hc, -⟩ := hM
  have h4 : 1 / 2 * (Real.pi / 2) = Real.pi / 4 := by ring
  have hsq : Real.sin (Real.pi / 4) * Real.sin (Real.pi / 4) = 1 / 2 := by
    rw [Real.sin_pi_div_four]
    have := Real.mul_self_sqrt (show (0 : ℝ) ≤ 2 by norm_num)
    linear_combination (1 / 4) * this
  have hz1 : (Quaternion.rotationX M (Real.pi / 2) * Quaternion.rotationY M (Real.pi / 2)).z
      = 1 / 2 := by
    simp only [Quaternion.quat_mul_def, Quaternion.mul, Quaternion.rotationX,
      Quaternion.rotationY, hs, hc, h4]
    linear_combination hsq
  have hz2 : (Quaternion.rotationY M (Real.pi / 2) * Quaternion.rotationX M (Real.pi / 2)).z
      = -(1 / 2) := by
    simp only [Quaternion.quat_mul_def, Quaternion.mul, Quaternion.rotationX,
      Quaternion.rotationY, hs, hc, h4]
    linear_combination -hsq
  have hne : Quaternion.rotationX M (Real.pi / 2) * Quaternion.rotationY M (Real.pi / 2)
      ≠ Quaternion.rotationY M (Real.pi / 2) * Quaternion.rotationX M (Real.pi / 2) := by
    intro h
    have hz := congrArg Quaternion.z h
    rw [hz1, hz2] at hz
    norm_num at hz
  exact ⟨hne, hz1, hz2, _, _, hne⟩

/-- Witness of C24 at the real math functions. -/
theorem quaternion_mul_not_commutative_witness :
    ∃ q1 q2 : Quaternion ℝ, q1 * q2 ≠ q2 * q1 :=
  (quaternion_mul_not_commutative
    ⟨Real.sin, Real.cos, Real.arcsin, fun y x => Complex.arg ⟨x, y⟩, Real.sqrt⟩
    ⟨rfl, rfl, rfl, rfl, rfl⟩).2.2.2

/-- C25, counterexample: for the matrix of the unit quaternion `(1/2, 1/2, 1/2, -1/2)`
all four candidates equal `1`, yet the selection ends at candidate `0` (`px`, the first
one checked), not at `pw`, and the returned quaternion is `(1/2, 1/2, 1/2, -1/2)`: its
directly computed component is `x = +1/2` and its `w` is `-1/2`, not `+1/2`. -/
theorem tie_result_not_computed_from_pw :
    (⟨1 / 2, 1 / 2, 1 / 2, -(1 / 2)⟩ : Quaternion ℝ).IsUnit ∧
    (⟨1 / 2, 1 / 2, 1 / 2, -(1 / 2)⟩ : Quaternion ℝ).toRotationMatrix.px = 1 ∧
    (⟨1 / 2, 1 / 2, 1 / 2, -(1 / 2)⟩ : Quaternion ℝ).toRotationMatrix.py = 1 ∧
    (⟨1 / 2, 1 / 2, 1 / 2, -(1 / 2)⟩ : Quaternion ℝ).toRotationMatrix.pz = 1 ∧
    (⟨1 / 2, 1 / 2, 1 / 2, -(1 / 2)⟩ : Quaternion ℝ).toRotationMatrix.pw = 1 ∧
    (⟨1 / 2, 1 / 2, 1 / 2, -(1 / 2)⟩ : Quaternion ℝ).toRotationMatrix.selection = (0, 1) ∧
    (⟨1 / 2, 1 / 2, 1 / 2, -(1 / 2)⟩ : Quaternion ℝ).toRotationMatrix.toQuaternion
        ⟨Real.sin, Real.cos, Real.arcsin, fun y x => Complex.arg ⟨x, y⟩, Real.sqrt⟩
      = .ok ⟨1 / 2, 1 / 2, 1 / 2, -(1 / 2)⟩ ∧
    ¬ ∃ q, (⟨1 / 2, 1 / 2, 1 / 2, -(1 / 2)⟩ : Quaternion ℝ).toRotationMatrix.toQuaternion
        ⟨Real.sin, Real.cos, Real.arcsin, fun y x => Complex.arg ⟨x, y⟩, Real.sqrt⟩ = .ok q ∧
      q.w = 1 / 2 := by
  have hq : (⟨0, 0, 1, 1, 0, 0, 0, 1, 0⟩ : RotationMatrix ℝ).toQuaternion
        ⟨Real.sin, Real.cos, Real.arcsin, fun y x => Complex.arg ⟨x, y⟩, Real.sqrt⟩
      = .ok ⟨1 / 2, 1 / 2, 1 / 2, -(1 / 2)⟩ := by
    simp only [RotationMatrix.toQuaternion, RotationMatrix.at_0_0, RotationMatrix.at_1_0,
      RotationMatrix.at_2_0, RotationMatrix.at_0_1, RotationMatrix.at_1_1,
      RotationMatrix.at_2_1, RotationMatrix.at_0_2, RotationMatrix.at_1_2,
      RotationMatrix.at_2_2]
    norm_num
  rw [Quaternion.toRotationMatrix_half]
  refine ⟨by norm_num [Quaternion.IsUnit], ?_, ?_, ?_, ?_, ?_, hq, ?_⟩
  · norm_num [RotationMatrix.px]
  · norm_num [RotationMatrix.py]
  · norm_num [RotationMatrix.pz]
  · norm_num [RotationMatrix.pw]
  · norm_num [RotationMatrix.selection, RotationMatrix.px, RotationMatrix.py,
      RotationMatrix.pz, RotationMatrix.pw]
  · rintro ⟨q, h, hw⟩
    rw [hq] at h
    injection h with h
    subst h
    norm_num at hw

/-- C25, amended: a later candidate replaces the running maximum only when it is strictly
larger, so when two or more candidates tie for the largest value the earliest-checked of
them (checking order `px`, `py`, `pz`, `pw`) is the one selected; it is made the positive
directly computed component.  For the matrix of the unit quaternion `(1/2, 1/2, 1/2, -1/2)`,
where all four candidates equal `1`, the result is computed from `px` and has `x = +1/2`
and `w = -1/2`. -/
theorem tie_selects_earliest_candidate (M : CMath ℝ) (hM : M.IsReal) (m : RotationMatrix ℝ) :
    ((m.selection = (0, m.px) ∧ m.py ≤ m.px ∧ m.pz ≤ m.px ∧ m.pw ≤ m.px) ∨
      (m.selection = (1, m.py) ∧ m.px < m.py ∧ m.pz ≤ m.py ∧ m.pw ≤ m.py) ∨
      (m.selection = (2, m.pz) ∧ m.px < m.pz ∧ m.py < m.pz ∧ m.pw ≤ m.pz) ∨
      (m.selection = (3, m.pw) ∧ m.px < m.pw ∧ m.py < m.pw ∧ m.pz < m.pw)) ∧
    (∃ q, m.toQuaternion M = .ok q ∧
      (m.selection.1 = 0 → q.x = M.sqrt m.selection.2 * (1 / 2) ∧ 0 < q.x) ∧
      (m.selection.1 = 1 → q.y = M.sqrt m.selection.2 * (1 / 2) ∧ 0 < q.y) ∧
      (m.selection.1 = 2 → q.z = M.sqrt m.selection.2 * (1 / 2) ∧ 0 < q.z) ∧
      (m.selection.1 = 3 → q.w = M.sqrt m.selection.2 * (1 / 2) ∧ 0 < q.w)) ∧
    (⟨1 / 2, 1 / 2, 1 / 2, -(1 / 2)⟩ : Quaternion ℝ).toRotationMatrix.selection = (0, 1) ∧
    (⟨1 / 2, 1 / 2, 1 / 2, -(1 / 2)⟩ : Quaternion ℝ).toRotationMatrix.toQuaternion M
      = .ok ⟨1 / 2, 1 / 2, 1 / 2, -(1 / 2)⟩ := by
  have hsqrt : M.sqrt = Real.sqrt := hM.2.2.2.2
  refine ⟨m.selection_cases, ?_, ?_, ?_⟩
  · obtain ⟨q, hq, h0, h1, h2, h3⟩ := m.toQuaternion_selected M
    have hp : 0 < M.sqrt m.selection.2 * (1 / 2) := by
      rw [hsqrt]
      exact (sqrt_half_bounds m.selection_max.2.2.2.2).1
    exact ⟨q, hq, fun h => ⟨h0 h, by rw [h0 h]; exact hp⟩,
      fun h => ⟨h1 h, by rw [h1 h]; exact hp⟩, fun h => ⟨h2 h, by rw [h2 h]; exact hp⟩,
      fun h => ⟨h3 h, by rw [h3 h]; exact hp⟩⟩
  · rw [Quaternion.toRotationMatrix_half]
    norm_num [RotationMatrix.selection, RotationMatrix.px, RotationMatrix.py,
      RotationMatrix.pz, RotationMatrix.pw]
  · rw [Quaternion.toRotationMatrix_half]
    simp only [RotationMatrix.toQuaternion, RotationMatrix.at_0_0, RotationMatrix.at_1_0,
      RotationMatrix.at_2_0, RotationMatrix.at_0_1, RotationMatrix.at_1_1,
      RotationMatrix.at_2_1, RotationMatrix.at_0_2, RotationMatrix.at_1_2,
      RotationMatrix.at_2_2, hsqrt]
    norm_num

/-- Witness of the amended C25 at the real math functions and the matrix
`(0, 0, 1, 1, 0, 0, 0, 1, 0)`, whose four candidates all equal `1`. -/
theorem tie_selects_earliest_candidate_witness :
    (⟨1 / 2, 1 / 2, 1 / 2, -(1 / 2)⟩ : Quaternion ℝ).toRotationMatrix.selection = (0, 1) ∧
    (⟨1 / 2, 1 / 2, 1 / 2, -(1 / 2)⟩ : Quaternion ℝ).toRotationMatrix.toQuaternion
        ⟨Real.sin, Real.cos, Real.arcsin, fun y x => Complex.arg ⟨x, y⟩, Real.sqrt⟩
      = .ok ⟨1 / 2, 1 / 2, 1 / 2, -(1 / 2)⟩ :=
  (tie_selects_earliest_candidate
    ⟨Real.sin, Real.cos, Real.arcsin, fun y x => Complex.arg ⟨x, y⟩, Real.sqrt⟩
    ⟨rfl, rfl, rfl, rfl, rfl⟩ ⟨0, 0, 1, 1, 0, 0, 0, 1, 0⟩).2.2

/-! ## Exact gimbal lock -/

section ExactLock

/-- The product of two proper rotation matrices is a proper rotation matrix. -/
theorem RotationMatrix.IsProper.mul_isProper {a b : RotationMatrix ℝ} (ha : a.IsProper)
    (hb : b.IsProper) : (a * b).IsProper := by
  obtain ⟨ha1, ha2⟩ := ha
  obtain ⟨hb1, hb2⟩ := hb
  refine ⟨?_, ?_⟩
  · rw [RotationMatrix.toMatrix_mul, Matrix.transpose_mul, Matrix.mul_assoc,
      ← Matrix.mul_assoc a.toMatrix.transpose, ha1, Matrix.one_mul, hb1]
  · rw [RotationMatrix.toMatrix_mul, Matrix.det_mul, ha2, hb2, mul_one]

/-- For each of the six orders and all real angles `toRotationMatrix(EulerAngle)` returns a
proper rotation matrix. -/
theorem EulerAngle.euler_toRotationMatrix_isProper {M : CMath ℝ} (hM : M.IsReal)
    (e : EulerAngle ℝ) (he : e.order ∈ EulerOrder.all) : ∃ R, e.toRotationMatrix M = .ok R ∧ R.IsProper := by
  have ux := RotationMatrix.rotationX_isProper hM e.x
  have uy := RotationMatrix.rotationY_isProper hM e.y
  have uz := RotationMatrix.rotationZ_isProper hM e.z
  rw [EulerAngle.toRotationMatrix_eq_calculate]
  rcases EulerOrder.mem_all he with h | h | h | h | h | h <;>
    simp +decide only [calculateRotationMatrix, h, if_true, if_false, Except.mapError]
  · exact ⟨_, rfl, (ux.mul_isProper uy).mul_isProper uz⟩
  · exact ⟨_, rfl, (ux.mul_isProper uz).mul_isProper uy⟩
  · exact ⟨_, rfl, (uy.mul_isProper ux).mul_isProper uz⟩
  · exact ⟨_, rfl, (uy.mul_isProper uz).mul_isProper ux⟩
  · exact ⟨_, rfl, (uz.mul_isProper ux).mul_isProper uy⟩
  · exact ⟨_, rfl, (uz.mul_isProper uy).mul_isProper ux⟩

/-- The value that `toEulerAngle(RotationMatrix)` hands to `asin` is, on the matrix of an
Euler triple of the same order, the sine of the middle angle. -/
theorem EulerAngle.toRotationMatrix_asinArg {α : Type} [LinearOrderedField α] (M : CMath α)
    (e : EulerAngle α) (he : e.order ∈ EulerOrder.all) :
    ∃ R, e.toRotationMatrix M = .ok R ∧ R.asinArg e.order = M.sin e.middleAngle := by
  obtain ⟨x, y, z, o⟩ := e
  rcases EulerOrder.mem_all he with h | h | h | h | h | h <;> simp only at h <;> subst h <;>
    refine ⟨_, rfl, ?_⟩ <;>
    simp +decide only [RotationMatrix.asinArg, EulerAngle.middleAngle, if_true, if_false,
      or_true, true_or, or_false, or_self, RotationMatrix.at_0_0, RotationMatrix.at_1_0,
      RotationMatrix.at_2_0, RotationMatrix.at_0_1, RotationMatrix.at_1_1,
      RotationMatrix.at_2_1, RotationMatrix.at_0_2, RotationMatrix.at_1_2,
      RotationMatrix.at_2_2, neg_neg]

/-- The angle `atan2(sin θ, cos θ)` is `θ` reduced to `(-π, π]`. -/
theorem arg_cos_sin (θ : ℝ) :
    Complex.arg ⟨Real.cos θ, Real.sin θ⟩ = toIocMod Real.two_pi_pos (-Real.pi) θ := by
  have h : (⟨Real.cos θ, Real.sin θ⟩ : ℂ) = Complex.cos θ + Complex.sin θ * Complex.I := by
    apply Complex.ext
    · simp [← Complex.ofReal_cos, ← Complex.ofReal_sin]
    · simp [← Complex.ofReal_cos, ← Complex.ofReal_sin]
  rw [h, Complex.arg_cos_add_sin_mul_I_eq_toIocMod]

/-- The reduction of `θ` to `(-π, π]` lies in that interval and differs from `θ` by a whole
number of turns. -/
theorem toIocMod_pi_spec (θ : ℝ) :
    toIocMod Real.two_pi_pos (-Real.pi) θ ∈ Set.Ioc (-Real.pi) Real.pi ∧
      ∃ n : ℤ, toIocMod Real.two_pi_pos (-Real.pi) θ = θ - n * (2 * Real.pi) := by
  refine ⟨?_, toIocDiv Real.two_pi_pos (-Real.pi) θ, ?_⟩
  · have h := toIocMod_mem_Ioc Real.two_pi_pos (-Real.pi) θ
    have e : -Real.pi + 2 * Real.pi = Real.pi := by ring
    rwa [e] at h
  · rw [← self_sub_toIocDiv_zsmul, zsmul_eq_mul]

end ExactLock

/-- C26: for each of the six orders and every Euler triple `e` whose middle angle is
exactly `π/2` or `-π/2`, the outer angles being any reals, with `m = toRotationMatrix(e)`:
`toEulerAngle(m, order)` returns angles whose matrix `toRotationMatrix` is `m` itself,
entry for entry. -/
theorem exact_gimbal_lock_rebuilds_matrix (M : CMath ℝ) (hM : M.IsReal) (e : EulerAngle ℝ)
    (ho : e.order ∈ EulerOrder.all)
    (hmid : e.middleAngle = Real.pi / 2 ∨ e.middleAngle = -(Real.pi / 2)) :
    ∃ m a, e.toRotationMatrix M = .ok m ∧ m.toEulerAngle M e.order = .ok a ∧
      a.lastAngle = 0 ∧ a.toRotationMatrix M = .ok m := by
  obtain ⟨m, hm, hp⟩ := EulerAngle.euler_toRotationMatrix_isProper hM e ho
  obtain ⟨m', hm', hs⟩ := EulerAngle.toRotationMatrix_asinArg M e ho
  rw [hm] at hm'
  injection hm' with hm'
  subst hm'
  have hsin : M.sin = Real.sin := hM.1
  have habs : |m.asinArg e.order| = 1 := by
    rw [hs, hsin]
    rcases hmid with h | h <;> rw [h]
    · rw [Real.sin_pi_div_two, abs_one]
    · rw [Real.sin_neg, Real.sin_pi_div_two, abs_neg, abs_one]
  have hl : (2097131 / 2097152 : ℝ) ≤ |m.asinArg e.order| := by
    rw [habs]
    norm_num
  obtain ⟨a, R, ha, hR, hd⟩ := hp.toEulerAngle_locked_distSq hM ho hl
  obtain ⟨a', ha', hz⟩ := RotationMatrix.toEulerAngle_locked M m e.order ho hl
  rw [ha] at ha'
  injection ha' with ha'
  subst ha'
  have hRm : R = m := RotationMatrix.eq_of_distSq_le_zero (locked_bound_zero habs hd)
  exact ⟨m, a, hm, ha, hz, hRm ▸ hR⟩

/-- Witness of C26 at the real math functions and the triple `(1, 2, π/2)` of order `YZX`,
whose middle angle is `z`. -/
theorem exact_gimbal_lock_rebuilds_matrix_witness :
    ∃ m a,
      EulerAngle.toRotationMatrix
          ⟨Real.sin, Real.cos, Real.arcsin, fun y x => Complex.arg ⟨x, y⟩, Real.sqrt⟩
          ⟨1, 2, Real.pi / 2, EulerOrder.YZX⟩ = .ok m ∧
      m.toEulerAngle
          ⟨Real.sin, Real.cos, Real.arcsin, fun y x => Complex.arg ⟨x, y⟩, Real.sqrt⟩
          EulerOrder.YZX = .ok a ∧
      a.lastAngle = 0 ∧
      a.toRotationMatrix
          ⟨Real.sin, Real.cos, Real.arcsin, fun y x => Complex.arg ⟨x, y⟩, Real.sqrt⟩
        = .ok m :=
  exact_gimbal_lock_rebuilds_matrix
    ⟨Real.sin, Real.cos, Real.arcsin, fun y x => Complex.arg ⟨x, y⟩, Real.sqrt⟩
    ⟨rfl, rfl, rfl, rfl, rfl⟩ ⟨1, 2, Real.pi / 2, EulerOrder.YZX⟩ (by decide)
    (Or.inl (by simp +decide [EulerAngle.middleAngle]))

/-- C27: for order XYZ and all real `x`, `z`: on the matrix of the triple `(x, π/2, z)`,
`toEulerAngle` returns `y = π/2`, `z = 0` and as first angle `x + z` reduced to `(-π, π]`;
on the matrix of `(x, -π/2, z)` it returns `y = -π/2`, `z = 0` and as first angle `x - z`
reduced to `(-π, π]`.  The reduced angle lies in `(-π, π]` and differs from the sum, or the
difference, by a whole number of turns. -/
theorem gimbal_lock_XYZ_first_angle_absorbs (M : CMath ℝ) (hM : M.IsReal) (x z : ℝ) :
    (∃ m a,
      EulerAngle.toRotationMatrix M ⟨x, Real.pi / 2, z, EulerOrder.XYZ⟩ = .ok m ∧
      m.toEulerAngle M EulerOrder.XYZ = .ok a ∧
      a.y = Real.pi / 2 ∧ a.z = 0 ∧
      a.x = toIocMod Real.two_pi_pos (-Real.pi) (x + z) ∧
      a.x ∈ Set.Ioc (-Real.pi) Real.pi ∧ ∃ n : ℤ, a.x = x + z - n * (2 * Real.pi)) ∧
    (∃ m a,
      EulerAngle.toRotationMatrix M ⟨x, -(Real.pi / 2), z, EulerOrder.XYZ⟩ = .ok m ∧
      m.toEulerAngle M EulerOrder.XYZ = .ok a ∧
      a.y = -(Real.pi / 2) ∧ a.z = 0 ∧
      a.x = toIocMod Real.two_pi_pos (-Real.pi) (x - z) ∧
      a.x ∈ Set.Ioc (-Real.pi) Real.pi ∧ ∃ n : ℤ, a.x = x - z - n * (2 * Real.pi)) := by
  obtain ⟨hs, hc, hasin, hatan, -⟩ := hM
  have hl1 : ¬ (|(1 : ℝ)| < 2097131 / 2097152) := by norm_num
  have hl2 : ¬ (|(-1 : ℝ)| < 2097131 / 2097152) := by norm_num
  have key1 : ∃ m a,
      EulerAngle.toRotationMatrix M ⟨x, Real.pi / 2, z, EulerOrder.XYZ⟩ = .ok m ∧
      m.toEulerAngle M EulerOrder.XYZ = .ok a ∧
      a.y = Real.pi / 2 ∧ a.z = 0 ∧
      a.x = toIocMod Real.two_pi_pos (-Real.pi) (x + z) := by
    refine ⟨_, _, rfl, rfl, ?_, ?_, ?_⟩ <;>
      simp +decide only [RotationMatrix.at_0_0, RotationMatrix.at_1_0, RotationMatrix.at_2_0,
        RotationMatrix.at_0_1, RotationMatrix.at_1_1, RotationMatrix.at_2_1,
        RotationMatrix.at_0_2, RotationMatrix.at_1_2, RotationMatrix.at_2_2, hs, hc, hasin,
        hatan, Real.sin_pi_div_two, Real.cos_pi_div_two, decide_eq_false hl1,
        Bool.false_eq_true, if_false, Real.arcsin_one]
    rw [← arg_cos_sin, Real.cos_add, Real.sin_add]
    congr 1
    apply Complex.ext <;> simp only <;> ring
  have key2 : ∃ m a,
      EulerAngle.toRotationMatrix M ⟨x, -(Real.pi / 2), z, EulerOrder.XYZ⟩ = .ok m ∧
      m.toEulerAngle M EulerOrder.XYZ = .ok a ∧
      a.y = -(Real.pi / 2) ∧ a.z = 0 ∧
      a.x = toIocMod Real.two_pi_pos (-Real.pi) (x - z) := by
    refine ⟨_, _, rfl, rfl, ?_, ?_, ?_⟩ <;>
      simp +decide only [RotationMatrix.at_0_0, RotationMatrix.at_1_0, RotationMatrix.at_2_0,
        RotationMatrix.at_0_1, RotationMatrix.at_1_1, RotationMatrix.at_2_1,
        RotationMatrix.at_0_2, RotationMatrix.at_1_2, RotationMatrix.at_2_2, hs, hc, hasin,
        hatan, Real.sin_neg, Real.cos_neg, Real.sin_pi_div_two, Real.cos_pi_div_two,
        decide_eq_false hl2, Bool.false_eq_true, if_false, Real.arcsin_neg_one]
    rw [← arg_cos_sin, Real.cos_sub, Real.sin_sub]
    congr 1
    apply Complex.ext <;> simp only <;> ring
  obtain ⟨m1, a1, h1, h2, h3, h4, h5⟩ := key1
  obtain ⟨m2, a2, g1, g2, g3, g4, g5⟩ := key2
  have s1 := toIocMod_pi_spec (x + z)
  have s2 := toIocMod_pi_spec (x - z)
  exact ⟨⟨m1, a1, h1, h2, h3, h4, h5, h5 ▸ s1.1, h5 ▸ s1.2⟩,
    ⟨m2, a2, g1, g2, g3, g4, g5, g5 ▸ s2.1, g5 ▸ s2.2⟩⟩

/-- Witness of C27 at the real math functions and the outer angles `x = 3`, `z = 2`, whose
sum exceeds `π`. -/
theorem gimbal_lock_XYZ_first_angle_absorbs_witness :
    ∃ m a,
      EulerAngle.toRotationMatrix
          ⟨Real.sin, Real.cos, Real.arcsin, fun y x => Complex.arg ⟨x, y⟩, Real.sqrt⟩
          ⟨3, Real.pi / 2, 2, EulerOrder.XYZ⟩ = .ok m ∧
      m.toEulerAngle
          ⟨Real.sin, Real.cos, Real.arcsin, fun y x => Complex.arg ⟨x, y⟩, Real.sqrt⟩
          EulerOrder.XYZ = .ok a ∧
      a.y = Real.pi / 2 ∧ a.z = 0 ∧
      a.x = toIocMod Real.two_pi_pos (-Real.pi) (3 + 2) ∧
      a.x ∈ Set.Ioc (-Real.pi) Real.pi ∧ ∃ n : ℤ, a.x = 3 + 2 - n * (2 * Real.pi) :=
  (gimbal_lock_XYZ_first_angle_absorbs
    ⟨Real.sin, Real.cos, Real.arcsin, fun y x => Complex.arg ⟨x, y⟩, Real.sqrt⟩
    ⟨rfl, rfl, rfl, rfl, rfl⟩ 3 2).1

/-! ## The two overloads of toEulerAngle agree; invariants of the conversions -/

/-- C28: for every quaternion `q`, unit or not, and each of the six orders,
`toEulerAngle(q, order)` returns what `toEulerAngle(toRotationMatrix(q), order)` returns,
whatever the functions `asin` and `atan2` are; the value handed to `asin` is the same in
both overloads, so its magnitude compares in the same way with any bound and both take the
same locked or unlocked branch. -/
theorem toEulerAngle_quaternion_eq_matrix_overload (M : CMath ℝ) (q : Quaternion ℝ)
    (order : EulerOrder) (ho : order ∈ EulerOrder.all) :
    q.toEulerAngle M order = q.toRotationMatrix.toEulerAngle M order ∧
    q.asinArg order = q.toRotationMatrix.asinArg order ∧
    (∀ t : ℝ, |q.asinArg order| < t ↔ |q.toRotationMatrix.asinArg order| < t) := by
  refine ⟨Quaternion.toEulerAngle_eq_matrix M q ho, Quaternion.asinArg_eq_matrix q order,
    fun t => ?_⟩
  rw [Quaternion.asinArg_eq_matrix]

/-- Witness of C28 at the real math functions, the quaternion `(1, 2, 3, 4)`, which is not
unit, and the order `ZXY`. -/
theorem toEulerAngle_quaternion_eq_matrix_overload_witness :
    EulerOrder.ZXY ∈ EulerOrder.all ∧
    (⟨1, 2, 3, 4⟩ : Quaternion ℝ).toEulerAngle
        ⟨Real.sin, Real.cos, Real.arcsin, fun y x => Complex.arg ⟨x, y⟩, Real.sqrt⟩
        EulerOrder.ZXY
      = (⟨1, 2, 3, 4⟩ : Quaternion ℝ).toRotationMatrix.toEulerAngle
        ⟨Real.sin, Real.cos, Real.arcsin, fun y x => Complex.arg ⟨x, y⟩, Real.sqrt⟩
        EulerOrder.ZXY :=
  ⟨by decide,
   (toEulerAngle_quaternion_eq_matrix_overload
     ⟨Real.sin, Real.cos, Real.arcsin, fun y x => Complex.arg ⟨x, y⟩, Real.sqrt⟩
     ⟨1, 2, 3, 4⟩ EulerOrder.ZXY (by decide)).1⟩

/-- C29: for every unit quaternion `q` the matrix `toRotationMatrix(q)` is a proper
rotation matrix: `MᵀM = I` (the three columns have unit length and are mutually
perpendicular) and the determinant is `+1`. -/
theorem toRotationMatrix_of_unit_is_proper (q : Quaternion ℝ) (hq : q.IsUnit) :
    q.toRotationMatrix.toMatrix.transpose * q.toRotationMatrix.toMatrix = 1 ∧
    q.toRotationMatrix.toMatrix.det = 1 ∧
    (q.toRotationMatrix.e0 ^ 2 + q.toRotationMatrix.e1 ^ 2 + q.toRotationMatrix.e2 ^ 2 = 1 ∧
      q.toRotationMatrix.e3 ^ 2 + q.toRotationMatrix.e4 ^ 2 + q.toRotationMatrix.e5 ^ 2 = 1 ∧
      q.toRotationMatrix.e6 ^ 2 + q.toRotationMatrix.e7 ^ 2 + q.toRotationMatrix.e8 ^ 2 = 1) ∧
    (q.toRotationMatrix.e0 * q.toRotationMatrix.e3 + q.toRotationMatrix.e1 * q.toRotationMatrix.e4
        + q.toRotationMatrix.e2 * q.toRotationMatrix.e5 = 0 ∧
      q.toRotationMatrix.e0 * q.toRotationMatrix.e6 + q.toRotationMatrix.e1 * q.toRotationMatrix.e7
        + q.toRotationMatrix.e2 * q.toRotationMatrix.e8 = 0 ∧
      q.toRotationMatrix.e3 * q.toRotationMatrix.e6 + q.toRotationMatrix.e4 * q.toRotationMatrix.e7
        + q.toRotationMatrix.e5 * q.toRotationMatrix.e8 = 0) := by
  have h := hq.toRotationMatrix_isProper
  have r := h.relations
  have c00 := r.c00
  have c11 := r.c11
  have c22 := r.c22
  exact ⟨h.1, h.2, ⟨by linear_combination c00, by linear_combination c11,
    by linear_combination c22⟩, r.c01, r.c02, r.c12⟩

/-- Witness of C29 at the unit quaternion `(1/2, -1/2, 1/2, -1/2)`. -/
theorem toRotationMatrix_of_unit_is_proper_witness :
    (⟨1 / 2, -(1 / 2), 1 / 2, -(1 / 2)⟩ : Quaternion ℝ).IsUnit ∧
    (⟨1 / 2, -(1 / 2), 1 / 2, -(1 / 2)⟩ : Quaternion ℝ).toRotationMatrix.toMatrix.transpose
        * (⟨1 / 2, -(1 / 2), 1 / 2, -(1 / 2)⟩ : Quaternion ℝ).toRotationMatrix.toMatrix = 1 ∧
    (⟨1 / 2, -(1 / 2), 1 / 2, -(1 / 2)⟩ : Quaternion ℝ).toRotationMatrix.toMatrix.det = 1 :=
  ⟨by norm_num [Quaternion.IsUnit],
   (toRotationMatrix_of_unit_is_proper ⟨1 / 2, -(1 / 2), 1 / 2, -(1 / 2)⟩
     (by norm_num [Quaternion.IsUnit])).1,
   (toRotationMatrix_of_unit_is_proper ⟨1 / 2, -(1 / 2), 1 / 2, -(1 / 2)⟩
     (by norm_num [Quaternion.IsUnit])).2.1⟩

/-- C30: for all real angles and each of the six orders, `toQuaternion(EulerAngle)` returns
a quaternion with `x² + y² + z² + w² = 1`. -/
theorem toQuaternion_euler_is_unit (M : CMath ℝ) (hM : M.IsReal) (x y z : ℝ)
    (order : EulerOrder) (ho : order ∈ EulerOrder.all) :
    ∃ q, EulerAngle.toQuaternion M ⟨x, y, z, order⟩ = .ok q ∧
      q.x ^ 2 + q.y ^ 2 + q.z ^ 2 + q.w ^ 2 = 1 :=
  EulerAngle.toQuaternion_isUnit hM ⟨x, y, z, order⟩ ho

/-- Witness of C30 at the real math functions, the angles `(1, -2, 3)` and the order
`XZY`. -/
theorem toQuaternion_euler_is_unit_witness :
    EulerOrder.XZY ∈ EulerOrder.all ∧
    ∃ q, EulerAngle.toQuaternion
        ⟨Real.sin, Real.cos, Real.arcsin, fun y x => Complex.arg ⟨x, y⟩, Real.sqrt⟩
        ⟨1, -2, 3, EulerOrder.XZY⟩ = .ok q ∧
      q.x ^ 2 + q.y ^ 2 + q.z ^ 2 + q.w ^ 2 = 1 :=
  ⟨by decide,
   toQuaternion_euler_is_unit
     ⟨Real.sin, Real.cos, Real.arcsin, fun y x => Complex.arg ⟨x, y⟩, Real.sqrt⟩
     ⟨rfl, rfl, rfl, rfl, rfl⟩ 1 (-2) 3 EulerOrder.XZY (by decide)⟩

/-! ## Recovery of the angles, ranges of the returned angles, and algebra of the conversions -/

section Canonical

/-- Every value of `atan2` lies in `[-π, π]`. -/
theorem arg_mem_Icc (z : ℂ) : Complex.arg z ∈ Set.Icc (-Real.pi) Real.pi :=
  ⟨le_of_lt (Complex.neg_pi_lt_arg z), Complex.arg_le_pi z⟩

/-- Every value of `asin` lies in `[-π/2, π/2]`. -/
theorem arcsin_mem_Icc (s : ℝ) : Real.arcsin s ∈ Set.Icc (-(Real.pi / 2)) (Real.pi / 2) :=
  ⟨Real.neg_pi_div_two_le_arcsin s, Real.arcsin_le_pi_div_two s⟩

/-- The angle `0` lies in `[-π, π]`. -/
theorem zero_mem_Icc_pi : (0 : ℝ) ∈ Set.Icc (-Real.pi) Real.pi :=
  ⟨by linarith [Real.pi_pos], le_of_lt Real.pi_pos⟩

/-- The matrix overload of `toEulerAngle` returns a middle angle in `[-π/2, π/2]` and
outer angles in `[-π, π]`. -/
theorem RotationMatrix.toEulerAngle_canonical {M : CMath ℝ} (hM : M.IsReal)
    (m : RotationMatrix ℝ) (order : EulerOrder) (ho : order ∈ EulerOrder.all) :
    ∃ a, m.toEulerAngle M order = .ok a ∧
      a.middleAngle ∈ Set.Icc (-(Real.pi / 2)) (Real.pi / 2) ∧
      a.firstAngle ∈ Set.Icc (-Real.pi) Real.pi ∧
      a.lastAngle ∈ Set.Icc (-Real.pi) Real.pi := by
  obtain ⟨-, -, hasin, hatan, -⟩ := hM
  rcases EulerOrder.mem_all ho with h | h | h | h | h | h <;> subst h <;>
    refine ⟨_, rfl, ?_, ?_, ?_⟩ <;>
    simp +decide only [EulerAngle.middleAngle, EulerAngle.firstAngle, EulerAngle.lastAngle,
      if_true, if_false, or_true, true_or, or_false, or_self, hasin, hatan] <;>
    first
      | exact arcsin_mem_Icc _
      | exact arg_mem_Icc _
      | (split_ifs <;> first | exact arg_mem_Icc _ | exact zero_mem_Icc_pi)

/-- Orthonormal columns, spelled out on the nine stored entries. -/
theorem RotationMatrix.orthonormal_columns_iff (m : RotationMatrix ℝ) :
    m.toMatrix.transpose * m.toMatrix = 1 ↔
      (m.e0 * m.e0 + m.e1 * m.e1 + m.e2 * m.e2 = 1 ∧
       m.e3 * m.e3 + m.e4 * m.e4 + m.e5 * m.e5 = 1 ∧
       m.e6 * m.e6 + m.e7 * m.e7 + m.e8 * m.e8 = 1 ∧
       m.e0 * m.e3 + m.e1 * m.e4 + m.e2 * m.e5 = 0 ∧
       m.e0 * m.e6 + m.e1 * m.e7 + m.e2 * m.e8 = 0 ∧
       m.e3 * m.e6 + m.e4 * m.e7 + m.e5 * m.e8 = 0) := by
  rw [← Matrix.ext_iff]
  simp only [Fin.forall_fin_succ, Matrix.mul_apply, Fin.sum_univ_three, Matrix.transpose_apply,
    RotationMatrix.toMatrix, Matrix.of_apply, Matrix.one_apply]
  simp
  constructor
  · rintro ⟨⟨h00, h01, h02⟩, ⟨h10, h11, h12⟩, ⟨h20, h21, h22⟩⟩
    exact ⟨h00, h11, h22, h01, h02, h12⟩
  · rintro ⟨h00, h11, h22, h01, h02, h12⟩
    refine ⟨⟨h00, h01, h02⟩, ⟨?_, h11, h12⟩, ⟨?_, ?_, h22⟩⟩
    · linear_combination h01
    · linear_combination h02
    · linear_combination h12

/-- Each of three reals whose squares sum to `1` has absolute value at most `1`. -/
theorem abs_le_one_of_sq_sum {a b c : ℝ} (h : a * a + b * b + c * c = 1) :
    |a| ≤ 1 ∧ |b| ≤ 1 ∧ |c| ≤ 1 := by
  have ha := mul_self_nonneg a
  have hb := mul_self_nonneg b
  have hc := mul_self_nonneg c
  refine ⟨?_, ?_, ?_⟩ <;> rw [abs_le_one_iff_mul_self_le_one] <;> linarith

/-- A matrix with orthonormal columns has every value handed to `asin` in `[-1, 1]`. -/
theorem RotationMatrix.abs_asinArg_le_one {m : RotationMatrix ℝ}
    (h : m.toMatrix.transpose * m.toMatrix = 1) (order : EulerOrder) :
    |m.asinArg order| ≤ 1 := by
  obtain ⟨c00, c11, c22, -, -, -⟩ := (RotationMatrix.orthonormal_columns_iff m).1 h
  obtain ⟨-, a1, a2⟩ := abs_le_one_of_sq_sum c00
  obtain ⟨a3, -, a5⟩ := abs_le_one_of_sq_sum c11
  obtain ⟨a6, a7, -⟩ := abs_le_one_of_sq_sum c22
  simp only [RotationMatrix.asinArg, RotationMatrix.at_0_0, RotationMatrix.at_1_0,
    RotationMatrix.at_2_0, RotationMatrix.at_0_1, RotationMatrix.at_1_1, RotationMatrix.at_2_1,
    RotationMatrix.at_0_2, RotationMatrix.at_1_2, RotationMatrix.at_2_2]
  split_ifs <;> (try simp only [abs_neg, abs_zero]) <;>
    first | exact a1 | exact a2 | exact a3 | exact a5 | exact a6 | exact a7 | exact zero_le_one

end Canonical

/-- C32: for all unit quaternions `q1`, `q2`,
`toRotationMatrix(q1 * q2) = toRotationMatrix(q1) * toRotationMatrix(q2)`: the conversion
turns the quaternion product into the matrix product with the operands in the same
order. -/
theorem toRotationMatrix_mul_of_units (q1 q2 : Quaternion ℝ) (h1 : q1.IsUnit)
    (h2 : q2.IsUnit) :
    (q1 * q2).toRotationMatrix = q1.toRotationMatrix * q2.toRotationMatrix :=
  Quaternion.toRotationMatrix_mul h1 h2

/-- Witness of C32 at the unit quaternions `(1/2, 1/2, 1/2, 1/2)` and `(3/5, 0, 4/5, 0)`. -/
theorem toRotationMatrix_mul_of_units_witness :
    (⟨1 / 2, 1 / 2, 1 / 2, 1 / 2⟩ : Quaternion ℝ).IsUnit ∧
    (⟨3 / 5, 0, 4 / 5, 0⟩ : Quaternion ℝ).IsUnit ∧
    ((⟨1 / 2, 1 / 2, 1 / 2, 1 / 2⟩ : Quaternion ℝ) * ⟨3 / 5, 0, 4 / 5, 0⟩).toRotationMatrix
      = (⟨1 / 2, 1 / 2, 1 / 2, 1 / 2⟩ : Quaternion ℝ).toRotationMatrix
        * (⟨3 / 5, 0, 4 / 5, 0⟩ : Quaternion ℝ).toRotationMatrix :=
  ⟨by norm_num [Quaternion.IsUnit], by norm_num [Quaternion.IsUnit],
   toRotationMatrix_mul_of_units ⟨1 / 2, 1 / 2, 1 / 2, 1 / 2⟩ ⟨3 / 5, 0, 4 / 5, 0⟩
     (by norm_num [Quaternion.IsUnit]) (by norm_num [Quaternion.IsUnit])⟩

/-- C33: for every quaternion `q` and vector `v`, each component of
`toRotationMatrix(q) * v` is the component of `q.rotate(v)` plus `(x²+y²+z²+w² − 1)` times
the component of `v`; so the matrix and `rotate` agree on all vectors exactly when `q` has
unit norm.  The zero quaternion has the negated identity as its matrix, while its `rotate`
sends every vector to zero. -/
theorem toRotationMatrix_mulVec_eq_rotate_plus_defect (q : Quaternion ℝ) (v : Vector3 ℝ) :
    q.toRotationMatrix * v =
      ⟨(q.rotate v).x + (q.normSq - 1) * v.x,
       (q.rotate v).y + (q.normSq - 1) * v.y,
       (q.rotate v).z + (q.normSq - 1) * v.z⟩ ∧
    ((∀ u : Vector3 ℝ, q.toRotationMatrix * u = q.rotate u) ↔ q.IsUnit) ∧
    (⟨0, 0, 0, 0⟩ : Quaternion ℝ).toRotationMatrix = ⟨-1, 0, 0, 0, -1, 0, 0, 0, -1⟩ ∧
    (⟨0, 0, 0, 0⟩ : Quaternion ℝ).rotate v = ⟨0, 0, 0⟩ := by
  refine ⟨Quaternion.toRotationMatrix_mulVec_sub q v, ⟨fun h => ?_, fun h u => ?_⟩, ?_, ?_⟩
  · have h1 := h ⟨1, 0, 0⟩
    rw [Quaternion.toRotationMatrix_mulVec_sub] at h1
    have h2 := congrArg Vector3.x h1
    simp only at h2
    rw [Quaternion.IsUnit]
    linarith
  · exact Quaternion.toRotationMatrix_mulVec_of_isUnit h u
  · simp only [Quaternion.toRotationMatrix]
    ext <;> norm_num
  · simp only [Quaternion.rotate, Quaternion.quat_mul_def, Quaternion.mul,
      Quaternion.conjugate]
    ext <;> norm_num

/-- C34: for every real `θ`, the matrix of the quaternion `Quaternion::rotationX(θ)` is
`RotationMatrix::rotationX(θ)`, and likewise for `rotationY` and `rotationZ`. -/
theorem axis_families_agree (M : CMath ℝ) (hM : M.IsReal) (θ : ℝ) :
    (Quaternion.rotationX M θ).toRotationMatrix = RotationMatrix.rotationX M θ ∧
    (Quaternion.rotationY M θ).toRotationMatrix = RotationMatrix.rotationY M θ ∧
    (Quaternion.rotationZ M θ).toRotationMatrix = RotationMatrix.rotationZ M θ :=
  ⟨Quaternion.toRotationMatrix_rotationX hM θ, Quaternion.toRotationMatrix_rotationY hM θ,
    Quaternion.toRotationMatrix_rotationZ hM θ⟩

/-- Witness of C34 at the real math functions and the angle `2`. -/
theorem axis_families_agree_witness :
    (Quaternion.rotationX
        ⟨Real.sin, Real.cos, Real.arcsin, fun y x => Complex.arg ⟨x, y⟩, Real.sqrt⟩
        (2 : ℝ)).toRotationMatrix
      = RotationMatrix.rotationX
        ⟨Real.sin, Real.cos, Real.arcsin, fun y x => Complex.arg ⟨x, y⟩, Real.sqrt⟩ 2 ∧
    (Quaternion.rotationY
        ⟨Real.sin, Real.cos, Real.arcsin, fun y x => Complex.arg ⟨x, y⟩, Real.sqrt⟩
        (2 : ℝ)).toRotationMatrix
      = RotationMatrix.rotationY
        ⟨Real.sin, Real.cos, Real.arcsin, fun y x => Complex.arg ⟨x, y⟩, Real.sqrt⟩ 2 ∧
    (Quaternion.rotationZ
        ⟨Real.sin, Real.cos, Real.arcsin, fun y x => Complex.arg ⟨x, y⟩, Real.sqrt⟩
        (2 : ℝ)).toRotationMatrix
      = RotationMatrix.rotationZ
        ⟨Real.sin, Real.cos, Real.arcsin, fun y x => Complex.arg ⟨x, y⟩, Real.sqrt⟩ 2 :=
  axis_families_agree
    ⟨Real.sin, Real.cos, Real.arcsin, fun y x => Complex.arg ⟨x, y⟩, Real.sqrt⟩
    ⟨rfl, rfl, rfl, rfl, rfl⟩ 2

/-- C35: for each of the six orders, the value handed to `asin` by `toEulerAngle(q, order)`
lies in `[-1, 1]` for every unit quaternion `q`, and the value handed to `asin` by
`toEulerAngle(m, order)` lies in `[-1, 1]` for every matrix `m` with orthonormal columns;
the middle angle returned is `asin` of that value. -/
theorem asin_argument_within_domain (M : CMath ℝ) (order : EulerOrder)
    (ho : order ∈ EulerOrder.all) :
    (∀ q : Quaternion ℝ, q.IsUnit →
      (-1 ≤ q.asinArg order ∧ q.asinArg order ≤ 1) ∧
      ∃ e, q.toEulerAngle M order = .ok e ∧ e.middleAngle = M.asin (q.asinArg order)) ∧
    (∀ m : RotationMatrix ℝ, m.toMatrix.transpose * m.toMatrix = 1 →
      (-1 ≤ m.asinArg order ∧ m.asinArg order ≤ 1) ∧
      ∃ e, m.toEulerAngle M order = .ok e ∧ e.middleAngle = M.asin (m.asinArg order)) := by
  refine ⟨fun q hq => ⟨?_, ?_⟩, fun m hm => ⟨?_, ?_⟩⟩
  · rw [Quaternion.asinArg_eq_matrix]
    exact abs_le.mp (RotationMatrix.abs_asinArg_le_one hq.toRotationMatrix_isProper.1 order)
  · obtain ⟨e, h, -, hmid⟩ := Quaternion.quat_toEulerAngle_middleAngle M q order ho
    exact ⟨e, h, hmid⟩
  · exact abs_le.mp (RotationMatrix.abs_asinArg_le_one hm order)
  · obtain ⟨e, h, -, hmid⟩ := RotationMatrix.toEulerAngle_middleAngle M m order ho
    exact ⟨e, h, hmid⟩

/-- Witness of C35 at the real math functions, the order `XZY` and the unit quaternion
`(3/5, 0, 4/5, 0)`. -/
theorem asin_argument_within_domain_witness :
    EulerOrder.XZY ∈ EulerOrder.all ∧
    (⟨3 / 5, 0, 4 / 5, 0⟩ : Quaternion ℝ).IsUnit ∧
    -1 ≤ (⟨3 / 5, 0, 4 / 5, 0⟩ : Quaternion ℝ).asinArg EulerOrder.XZY ∧
    (⟨3 / 5, 0, 4 / 5, 0⟩ : Quaternion ℝ).asinArg EulerOrder.XZY ≤ 1 :=
  ⟨by decide, by norm_num [Quaternion.IsUnit],
   ((asin_argument_within_domain
     ⟨Real.sin, Real.cos, Real.arcsin, fun y x => Complex.arg ⟨x, y⟩, Real.sqrt⟩
     EulerOrder.XZY (by decide)).1 ⟨3 / 5, 0, 4 / 5, 0⟩
       (by norm_num [Quaternion.IsUnit])).1⟩

/-- C36: for every unit quaternion, every proper rotation matrix and each of the six
orders, `toEulerAngle` returns a triple whose middle-axis angle (`y` for XYZ and ZYX, `z`
for XZY and YZX, `x` for YXZ and ZXY) lies in `[-π/2, π/2]` and whose other two angles lie
in `[-π, π]`. -/
theorem toEulerAngle_returns_canonical_triple (M : CMath ℝ) (hM : M.IsReal)
    (order : EulerOrder) (ho : order ∈ EulerOrder.all) :
    (∀ q : Quaternion ℝ, q.IsUnit →
      ∃ a, q.toEulerAngle M order = .ok a ∧
        a.middleAngle ∈ Set.Icc (-(Real.pi / 2)) (Real.pi / 2) ∧
        a.firstAngle ∈ Set.Icc (-Real.pi) Real.pi ∧
        a.lastAngle ∈ Set.Icc (-Real.pi) Real.pi) ∧
    (∀ m : RotationMatrix ℝ, m.IsProper →
      ∃ a, m.toEulerAngle M order = .ok a ∧
        a.middleAngle ∈ Set.Icc (-(Real.pi / 2)) (Real.pi / 2) ∧
        a.firstAngle ∈ Set.Icc (-Real.pi) Real.pi ∧
        a.lastAngle ∈ Set.Icc (-Real.pi) Real.pi) := by
  refine ⟨fun q _ => ?_, fun m _ => RotationMatrix.toEulerAngle_canonical hM m order ho⟩
  rw [Quaternion.toEulerAngle_eq_matrix M q ho]
  exact RotationMatrix.toEulerAngle_canonical hM q.toRotationMatrix order ho

/-- Witness of C36 at the real math functions, the order `ZXY` and the unit quaternion
`(1/2, 1/2, 1/2, 1/2)`. -/
theorem toEulerAngle_returns_canonical_triple_witness :
    EulerOrder.ZXY ∈ EulerOrder.all ∧
    (⟨1 / 2, 1 / 2, 1 / 2, 1 / 2⟩ : Quaternion ℝ).IsUnit ∧
    ∃ a, (⟨1 / 2, 1 / 2, 1 / 2, 1 / 2⟩ : Quaternion ℝ).toEulerAngle
        ⟨Real.sin, Real.cos, Real.arcsin, fun y x => Complex.arg ⟨x, y⟩, Real.sqrt⟩
        EulerOrder.ZXY = .ok a ∧
      a.middleAngle ∈ Set.Icc (-(Real.pi / 2)) (Real.pi / 2) ∧
      a.firstAngle ∈ Set.Icc (-Real.pi) Real.pi ∧
      a.lastAngle ∈ Set.Icc (-Real.pi) Real.pi :=
  ⟨by decide, by norm_num [Quaternion.IsUnit],
   (toEulerAngle_returns_canonical_triple
     ⟨Real.sin, Real.cos, Real.arcsin, fun y x => Complex.arg ⟨x, y⟩, Real.sqrt⟩
     ⟨rfl, rfl, rfl, rfl, rfl⟩ EulerOrder.ZXY (by decide)).1 ⟨1 / 2, 1 / 2, 1 / 2, 1 / 2⟩
       (by norm_num [Quaternion.IsUnit])⟩

/-- C37: for all quaternions `q1`, `q2` the squared norm is multiplicative,
`|q1 * q2|² = |q1|² · |q2|²`; hence the product of two unit quaternions is a unit
quaternion. -/
theorem normSq_mul_and_unit_closed (q1 q2 : Quaternion ℝ) :
    (q1 * q2).normSq = q1.normSq * q2.normSq ∧
    (q1.IsUnit → q2.IsUnit → (q1 * q2).IsUnit) := by
  refine ⟨?_, fun h1 h2 => h1.mul h2⟩
  simp only [Quaternion.normSq, Quaternion.quat_mul_def, Quaternion.mul]
  ring

/-- C38: rotations about one axis compose by adding the angles, in both representations:
for all real `a`, `b` the product of the quaternions `rotationX(a)` and `rotationX(b)` is
`rotationX(a + b)`, the product of the matrices `rotationX(a)` and `rotationX(b)` is
`rotationX(a + b)`, and likewise for `Y` and `Z`. -/
theorem axis_rotations_add_angles (M : CMath ℝ) (hM : M.IsReal) (a b : ℝ) :
    (Quaternion.rotationX M a * Quaternion.rotationX M b = Quaternion.rotationX M (a + b) ∧
      Quaternion.rotationY M a * Quaternion.rotationY M b = Quaternion.rotationY M (a + b) ∧
      Quaternion.rotationZ M a * Quaternion.rotationZ M b = Quaternion.rotationZ M (a + b)) ∧
    (RotationMatrix.rotationX M a * RotationMatrix.rotationX M b
        = RotationMatrix.rotationX M (a + b) ∧
      RotationMatrix.rotationY M a * RotationMatrix.rotationY M b
        = RotationMatrix.rotationY M (a + b) ∧
      RotationMatrix.rotationZ M a * RotationMatrix.rotationZ M b
        = RotationMatrix.rotationZ M (a + b)) := by
  obtain ⟨hs, hc, -⟩ := hM
  have h : 1 / 2 * (a + b) = 1 / 2 * a + 1 / 2 * b := by ring
  refine ⟨⟨?_, ?_, ?_⟩, ⟨?_, ?_, ?_⟩⟩
  · simp only [Quaternion.quat_mul_def, Quaternion.mul, Quaternion.rotationX, hs, hc, h,
      Real.sin_add, Real.cos_add]
    ext <;> simp only <;> ring
  · simp only [Quaternion.quat_mul_def, Quaternion.mul, Quaternion.rotationY, hs, hc, h,
      Real.sin_add, Real.cos_add]
    ext <;> simp only <;> ring
  · simp only [Quaternion.quat_mul_def, Quaternion.mul, Quaternion.rotationZ, hs, hc, h,
      Real.sin_add, Real.cos_add]
    ext <;> simp only <;> ring
  · simp only [RotationMatrix.mat_mul_def, RotationMatrix.mul, RotationMatrix.rotationX, hs, hc,
      Real.sin_add, Real.cos_add]
    ext <;> simp only <;> ring
  · simp only [RotationMatrix.mat_mul_def, RotationMatrix.mul, RotationMatrix.rotationY, hs, hc,
      Real.sin_add, Real.cos_add]
    ext <;> simp only <;> ring
  · simp only [RotationMatrix.mat_mul_def, RotationMatrix.mul, RotationMatrix.rotationZ, hs, hc,
      Real.sin_add, Real.cos_add]
    ext <;> simp only <;> ring

/-- Witness of C38 at the real math functions and the angles `2` and `3`, for the `X`
axis. -/
theorem axis_rotations_add_angles_witness :
    Quaternion.rotationX
        ⟨Real.sin, Real.cos, Real.arcsin, fun y x => Complex.arg ⟨x, y⟩, Real.sqrt⟩ (2 : ℝ)
      * Quaternion.rotationX
        ⟨Real.sin, Real.cos, Real.arcsin, fun y x => Complex.arg ⟨x, y⟩, Real.sqrt⟩ 3
      = Quaternion.rotationX
        ⟨Real.sin, Real.cos, Real.arcsin, fun y x => Complex.arg ⟨x, y⟩, Real.sqrt⟩ (2 + 3) ∧
    RotationMatrix.rotationX
        ⟨Real.sin, Real.cos, Real.arcsin, fun y x => Complex.arg ⟨x, y⟩, Real.sqrt⟩ (2 : ℝ)
      * RotationMatrix.rotationX
        ⟨Real.sin, Real.cos, Real.arcsin, fun y x => Complex.arg ⟨x, y⟩, Real.sqrt⟩ 3
      = RotationMatrix.rotationX
        ⟨Real.sin, Real.cos, Real.arcsin, fun y x => Complex.arg ⟨x, y⟩, Real.sqrt⟩ (2 + 3) :=
  have h := axis_rotations_add_angles
    ⟨Real.sin, Real.cos, Real.arcsin, fun y x => Complex.arg ⟨x, y⟩, Real.sqrt⟩
    ⟨rfl, rfl, rfl, rfl, rfl⟩ 2 3
  ⟨h.1.1, h.2.1⟩

/-- C39: for every quaternion `q`, unit or not, and every vector `v`, the `w` component of
`q * (v.x, v.y, v.z, 0) * conjugate(q)` is `0`; `Quaternion::rotate` returns the other
three components of that product. -/
theorem rotate_product_scalar_part_zero (q : Quaternion ℝ) (v : Vector3 ℝ) :
    (q * ⟨v.x, v.y, v.z, 0⟩ * q.conjugate).w = 0 ∧
    q.rotate v =
      ⟨(q * ⟨v.x, v.y, v.z, 0⟩ * q.conjugate).x, (q * ⟨v.x, v.y, v.z, 0⟩ * q.conjugate).y,
        (q * ⟨v.x, v.y, v.z, 0⟩ * q.conjugate).z⟩ := by
  refine ⟨?_, rfl⟩
  simp only [Quaternion.quat_mul_def, Quaternion.mul, Quaternion.conjugate]
  ring

end RotLib
